import Mathlib

/-!
Verification of the Omnispindle distributed task queue.

This file gives a shallow embedding of the task-queue core:
* `Omni.Task` and its transitions follow
  `src/projects/python/Omnispindle/omnispindle/models/task.py`;
* `Omni.Worker` follows
  `src/projects/python/Omnispindle/omnispindle/models/worker.py`;
* `Omni.TaskQueue` and its operations follow `src/omnispindle/task_queue.py`;
* `Omni.TaskPriorityQueue` follows `src/omnispindle/queue/task_queue.py`.

Modelling conventions:
* Python `datetime` values become `Nat` timestamps (seconds); every operation
  that calls `datetime.utcnow()` receives the current instant as an explicit
  `now : Nat` argument, used for all timestamps written during that operation.
  Elapsed-time checks `(now - then).total_seconds() > limit` become
  `now - then > limit` on `Nat`; for the (never-reached) case `then > now`
  Python compares a negative elapsed time and the `Nat` model compares `0`,
  and both fail the `> limit` test for the non-negative limits in use.
* Python `dict` becomes an association list (`List (key × α)`): CPython dicts
  preserve insertion order, assignment to an existing key updates in place,
  assignment to a new key appends, which is exactly `insertKey` below.
* Python `set` becomes a duplicate-free `List` maintained by `addUnique` /
  `List.erase`.  CPython set iteration order is unspecified (string hashes are
  randomized); the model realizes it as insertion order, one admissible order.
* `uuid.uuid4()` is an external entropy source; operations that may call it
  take the would-be generated string as a `gen` argument (or a `gen : Nat →
  String` stream for bulk loading).
* Opaque payload bags (`parameters`, `metadata`, `result`) become association
  lists of strings; the queue never inspects them.
* Omitted from `Worker`: the `resources` bag and `total_execution_time`
  (floating-point metrics) and the append-only `history` log; no control path
  of the queue reads any of them.  Omitted from queue metrics: the
  floating-point running averages `avg_task_duration` / `avg_queue_time`.
  Task callbacks (`task_callbacks`, `_trigger_task_callbacks`) invoke
  externally supplied functions and mutate no queue state; they are omitted.
-/

namespace Omni

/-- Association-list lookup, the model of Python `d[k]` / `k in d`. -/
def lookupKey {κ α : Type} [DecidableEq κ] : List (κ × α) → κ → Option α
  | [], _ => none
  | (k', v) :: rest, k => if k' = k then some v else lookupKey rest k

/-- Association-list store, the model of Python `d[k] = v`: update in place if
the key exists, append otherwise (CPython dict order semantics). -/
def insertKey {κ α : Type} [DecidableEq κ] : List (κ × α) → κ → α → List (κ × α)
  | [], k, v => [(k, v)]
  | (k', v') :: rest, k, v =>
    if k' = k then (k, v) :: rest else (k', v') :: insertKey rest k v

/-- Association-list delete, the model of Python `del d[k]`. -/
def eraseKey {κ α : Type} [DecidableEq κ] : List (κ × α) → κ → List (κ × α)
  | [], _ => []
  | (k', v') :: rest, k =>
    if k' = k then rest else (k', v') :: eraseKey rest k

/-- The model of Python `s.add(x)` on a set represented as a list. -/
def addUnique (l : List String) (x : String) : List String :=
  if x ∈ l then l else l ++ [x]

inductive TaskStatus
  | pending
  | claimed
  | running
  | completed
  | failed
  | cancelled
  | timeout
deriving DecidableEq, Repr

inductive WorkerStatus
  | online
  | busy
  | offline
  | error
deriving DecidableEq, Repr

/-- The task entity of `models/task.py`. -/
structure Task where
  id : String
  task_type : String
  parameters : List (String × String)
  priority : Int
  status : TaskStatus
  claimed_by : Option String
  result : Option (List (String × String))
  error : Option String
  created_at : Option Nat
  claimed_at : Option Nat
  started_at : Option Nat
  completed_at : Option Nat
  dependencies : List String
  timeout : Nat
  retry_count : Nat
  metadata : List (String × String)
deriving DecidableEq, Repr

/-- `Task.__init__`: a fresh task.  `task_id or str(uuid.uuid4())` makes an
empty (falsy) id fall back to the generated one, as does `None`. -/
def Task.mk_new (task_type : String) (parameters : List (String × String))
    (priority : Int) (dependencies : List String) (timeout : Nat)
    (metadata : List (String × String)) (task_id : Option String)
    (gen : String) (now : Nat) : Task :=
  { id := match task_id with
      | some s => if s = "" then gen else s
      | none => gen
    task_type := task_type
    parameters := parameters
    priority := priority
    status := .pending
    claimed_by := none
    result := none
    error := none
    created_at := some now
    claimed_at := none
    started_at := none
    completed_at := none
    dependencies := dependencies
    timeout := timeout
    retry_count := 0
    metadata := metadata }

/-- `Task.claim`. -/
def Task.claim (t : Task) (worker_id : String) (now : Nat) : Task :=
  { t with status := .claimed, claimed_by := some worker_id, claimed_at := some now }

/-- `Task.start`. -/
def Task.start (t : Task) (now : Nat) : Task :=
  { t with status := .running, started_at := some now }

/-- `Task.complete`. -/
def Task.complete (t : Task) (result : Option (List (String × String)))
    (now : Nat) : Task :=
  { t with status := .completed, result := result, completed_at := some now }

/-- `Task.fail`. -/
def Task.fail (t : Task) (error : Option String) (now : Nat) : Task :=
  { t with status := .failed, error := error, completed_at := some now }

/-- `Task.cancel`. -/
def Task.cancel (t : Task) (now : Nat) : Task :=
  { t with status := .cancelled, completed_at := some now }

/-- `Task.timeout_task`. -/
def Task.timeout_task (t : Task) (now : Nat) : Task :=
  { t with status := .timeout, error := some "Task timed out",
           completed_at := some now }

/-- `Task.retry`. -/
def Task.retry (t : Task) : Task :=
  { t with status := .pending, claimed_by := none, claimed_at := none,
           started_at := none, completed_at := none,
           retry_count := t.retry_count + 1 }

/-- The dictionary produced by `Task.to_dict` (JSON object, one field per
key written by the source). -/
structure TaskRecord where
  id : String
  task_type : String
  parameters : List (String × String)
  priority : Int
  status : TaskStatus
  claimed_by : Option String
  result : Option (List (String × String))
  error : Option String
  created_at : Option Nat
  claimed_at : Option Nat
  started_at : Option Nat
  completed_at : Option Nat
  dependencies : List String
  timeout : Nat
  retry_count : Nat
  metadata : List (String × String)
deriving DecidableEq, Repr

/-- `Task.to_dict`. -/
def Task.to_dict (t : Task) : TaskRecord :=
  { id := t.id
    task_type := t.task_type
    parameters := t.parameters
    priority := t.priority
    status := t.status
    claimed_by := t.claimed_by
    result := t.result
    error := t.error
    created_at := t.created_at
    claimed_at := t.claimed_at
    started_at := t.started_at
    completed_at := t.completed_at
    dependencies := t.dependencies
    timeout := t.timeout
    retry_count := t.retry_count
    metadata := t.metadata }

/-- `Task.from_dict`: builds the task through `__init__` (so an empty stored
id regenerates via uuid, modelled by `gen`) and then overwrites the
status/ownership/timestamp fields from the record. -/
def Task.from_dict (d : TaskRecord) (gen : String) : Task :=
  { id := if d.id = "" then gen else d.id
    task_type := d.task_type
    parameters := d.parameters
    priority := d.priority
    status := d.status
    claimed_by := d.claimed_by
    result := d.result
    error := d.error
    created_at := d.created_at
    claimed_at := d.claimed_at
    started_at := d.started_at
    completed_at := d.completed_at
    dependencies := d.dependencies
    timeout := d.timeout
    retry_count := d.retry_count
    metadata := d.metadata }

/-- The worker entity of `models/worker.py` (see the file header for the
three omitted logging-only fields). -/
structure Worker where
  id : String
  capabilities : List String
  capacity : Nat
  metadata : List (String × String)
  heartbeat_interval : Nat
  status : WorkerStatus
  status_message : Option String
  current_tasks : List String
  completed_tasks : List String
  failed_tasks : List String
  task_count : Nat
  success_count : Nat
  failure_count : Nat
  registered_at : Nat
  last_heartbeat : Nat
  updated_at : Nat
deriving DecidableEq, Repr

/-- `Worker.__init__` (status starts `offline`; `last_heartbeat` starts at
registration time, so it is always set). -/
def Worker.mk_new (worker_id : Option String) (capabilities : List String)
    (capacity : Nat) (metadata : List (String × String))
    (heartbeat_interval : Nat) (gen : String) (now : Nat) : Worker :=
  { id := match worker_id with
      | some s => if s = "" then gen else s
      | none => gen
    capabilities := capabilities.dedup
    capacity := capacity
    metadata := metadata
    heartbeat_interval := heartbeat_interval
    status := .offline
    status_message := none
    current_tasks := []
    completed_tasks := []
    failed_tasks := []
    task_count := 0
    success_count := 0
    failure_count := 0
    registered_at := now
    last_heartbeat := now
    updated_at := now }

/-- `Worker.has_capacity`. -/
def Worker.has_capacity (w : Worker) : Bool :=
  w.current_tasks.length < w.capacity

/-- `Worker.set_status` (the history append it performs is logging-only and
omitted, see the file header). -/
def Worker.set_status (w : Worker) (st : WorkerStatus) (msg : Option String)
    (now : Nat) : Worker :=
  { w with status := st, status_message := msg, updated_at := now }

/-- `Worker.claim_task`.  Both call sites in the queue check `has_capacity`
first, so the `ValueError` branch of the source is unreachable there; the
model is the body below the capacity check. -/
def Worker.claim_task (w : Worker) (task_id : String) (now : Nat) : Worker :=
  let w1 := { w with current_tasks := addUnique w.current_tasks task_id }
  let w2 :=
    if w1.current_tasks.length ≥ w1.capacity then
      w1.set_status .busy (some "Worker at capacity") now
    else
      w1.set_status .online (some "Worker processing tasks") now
  { w2 with updated_at := now }

/-- `Worker.release_task`. -/
def Worker.release_task (w : Worker) (task_id : String) (success : Bool)
    (now : Nat) : Worker :=
  if task_id ∈ w.current_tasks then
    let w1 := { w with current_tasks := w.current_tasks.erase task_id }
    let w2 :=
      if success then
        { w1 with completed_tasks := w1.completed_tasks ++ [task_id],
                  success_count := w1.success_count + 1 }
      else
        { w1 with failed_tasks := w1.failed_tasks ++ [task_id],
                  failure_count := w1.failure_count + 1 }
    let w3 := { w2 with task_count := w2.task_count + 1 }
    let w4 :=
      if w3.status = .busy then
        w3.set_status .online (some "Worker has available capacity") now
      else w3
    { w4 with updated_at := now }
  else w

/-- `Worker.heartbeat` (the `resources` update is an omitted metrics bag). -/
def Worker.heartbeat (w : Worker) (now : Nat) : Worker :=
  let w1 := { w with last_heartbeat := now }
  let w2 :=
    if w1.status = .offline then
      if w1.current_tasks.length ≥ w1.capacity then
        w1.set_status .busy (some "Worker at capacity") now
      else
        w1.set_status .online (some "Worker back online") now
    else w1
  { w2 with updated_at := now }

/-- The dictionary produced by `Worker.to_dict`, holding the keys
`Worker.from_dict` later reads.  Note the source serializes only the counts
`completed_tasks_count` / `failed_tasks_count`, not the id lists. -/
structure WorkerRecord where
  id : String
  capabilities : List String
  capacity : Nat
  status : WorkerStatus
  status_message : Option String
  current_tasks : List String
  completed_tasks_count : Nat
  failed_tasks_count : Nat
  task_count : Nat
  success_count : Nat
  failure_count : Nat
  registered_at : Nat
  last_heartbeat : Nat
  updated_at : Nat
  metadata : List (String × String)
  heartbeat_interval : Nat
deriving DecidableEq, Repr

/-- `Worker.to_dict`. -/
def Worker.to_dict (w : Worker) : WorkerRecord :=
  { id := w.id
    capabilities := w.capabilities
    capacity := w.capacity
    status := w.status
    status_message := w.status_message
    current_tasks := w.current_tasks
    completed_tasks_count := w.completed_tasks.length
    failed_tasks_count := w.failed_tasks.length
    task_count := w.task_count
    success_count := w.success_count
    failure_count := w.failure_count
    registered_at := w.registered_at
    last_heartbeat := w.last_heartbeat
    updated_at := w.updated_at
    metadata := w.metadata
    heartbeat_interval := w.heartbeat_interval }

/-- `Worker.from_dict`.  The record carries no `completed_tasks` /
`failed_tasks` keys (only counts), so `data.get(..., [])` yields `[]`. -/
def Worker.from_dict (d : WorkerRecord) (gen : String) : Worker :=
  { id := if d.id = "" then gen else d.id
    capabilities := d.capabilities.dedup
    capacity := d.capacity
    metadata := d.metadata
    heartbeat_interval := d.heartbeat_interval
    status := d.status
    status_message := d.status_message
    current_tasks := d.current_tasks
    completed_tasks := []
    failed_tasks := []
    task_count := d.task_count
    success_count := d.success_count
    failure_count := d.failure_count
    registered_at := d.registered_at
    last_heartbeat := d.last_heartbeat
    updated_at := d.updated_at }

/-- The exceptions of `task_queue.py` (`TaskQueueError` and subclasses). -/
inductive QErr
  | workerNotFound
  | taskNotFound
  | queueError (msg : String)
deriving DecidableEq, Repr

/-- The integer counters of `self.metrics` (the two floating-point running
averages are omitted, see the file header). -/
structure Metrics where
  tasks_submitted : Nat
  tasks_completed : Nat
  tasks_failed : Nat
  tasks_retried : Nat
  workers_registered : Nat
  workers_lost : Nat
deriving DecidableEq, Repr

/-- The coordinator state of `TaskQueue.__init__` in
`src/omnispindle/task_queue.py`. -/
structure TaskQueue where
  max_retries : Nat
  default_timeout : Nat
  worker_timeout : Nat
  tasks : List (String × Task)
  pending_tasks : List (Int × List String)
  running_tasks : List String
  completed_tasks : List String
  failed_tasks : List String
  workers : List (String × Worker)
  worker_by_capability : List (String × List String)
  metrics : Metrics
deriving DecidableEq, Repr

/-- A freshly constructed queue (`TaskQueue.__init__` state). -/
def TaskQueue.mk_new (max_retries default_timeout worker_timeout : Nat) :
    TaskQueue :=
  { max_retries := max_retries
    default_timeout := default_timeout
    worker_timeout := worker_timeout
    tasks := []
    pending_tasks := []
    running_tasks := []
    completed_tasks := []
    failed_tasks := []
    workers := []
    worker_by_capability := []
    metrics := { tasks_submitted := 0, tasks_completed := 0, tasks_failed := 0,
                 tasks_retried := 0, workers_registered := 0, workers_lost := 0 } }

/-- Bucket update of `_add_to_pending_queue` on the
priority-to-ids dictionary. -/
def addBucket (l : List (Int × List String)) (p : Int) (x : String) :
    List (Int × List String) :=
  insertKey l p (addUnique ((lookupKey l p).getD []) x)

/-- `TaskQueue._add_to_pending_queue` (it mutates only
`self.pending_tasks`). -/
def TaskQueue._add_to_pending_queue (q : TaskQueue) (t : Task) : TaskQueue :=
  { q with pending_tasks := addBucket q.pending_tasks t.priority t.id }

/-- Bucket update of `_remove_from_pending_queue` on the
priority-to-ids dictionary. -/
def removeBucket (l : List (Int × List String)) (p : Int) (x : String) :
    List (Int × List String) :=
  match lookupKey l p with
  | none => l
  | some bucket =>
    if x ∈ bucket then
      if bucket.erase x = [] then eraseKey l p
      else insertKey l p (bucket.erase x)
    else l

/-- `TaskQueue._remove_from_pending_queue` (it mutates only
`self.pending_tasks`). -/
def TaskQueue._remove_from_pending_queue (q : TaskQueue) (t : Task) :
    TaskQueue :=
  { q with pending_tasks := removeBucket q.pending_tasks t.priority t.id }

/-- The set of task ids currently held in the pending queue (union of all
priority buckets). -/
def TaskQueue.pendingIds (q : TaskQueue) : List String :=
  (q.pending_tasks.map Prod.snd).flatten

/-- `TaskQueue._can_start_task`: every dependency resolves to a task in the
table with status `completed` (vacuously true without dependencies). -/
def TaskQueue._can_start_task (q : TaskQueue) (t : Task) : Bool :=
  t.dependencies.all fun dep_id =>
    match lookupKey q.tasks dep_id with
    | none => false
    | some dep => dep.status = .completed

/-- `TaskQueue._check_dependent_tasks`: scan the whole task table and enqueue
every pending task that depends on the completed id and can now start.
Only `pending_tasks` is mutated during the scan; the task table the guard
reads is unchanged throughout. -/
def TaskQueue._check_dependent_tasks (q : TaskQueue)
    (completed_task_id : String) : TaskQueue :=
  (q.tasks.map Prod.snd).foldl
    (fun acc task =>
      if task.status = .pending ∧ task.dependencies ≠ [] ∧
          completed_task_id ∈ task.dependencies ∧
          acc._can_start_task task then
        acc._add_to_pending_queue task
      else acc)
    q

/-- Insertion step of descending insertion sort on `Int`. -/
def insertDesc (x : Int) : List Int → List Int
  | [] => [x]
  | y :: ys => if x ≥ y then x :: y :: ys else y :: insertDesc x ys

/-- `sorted(keys, reverse=True)`: descending sort of the priority keys. -/
def sortDesc : List Int → List Int
  | [] => []
  | x :: xs => insertDesc x (sortDesc xs)

/-- Inner loop of `_find_task_for_worker`: first id in the bucket whose task
has a type the worker supports.  Queued ids always resolve in the task table
(the queue never deletes tasks); an unresolvable id is skipped. -/
def findFirstCompat (q : TaskQueue) (capabilities : List String) :
    List String → Option String
  | [] => none
  | task_id :: rest =>
    match lookupKey q.tasks task_id with
    | some task =>
      if capabilities = [] ∨ task.task_type ∈ capabilities then some task_id
      else findFirstCompat q capabilities rest
    | none => findFirstCompat q capabilities rest

/-- Outer loop of `_find_task_for_worker` over priorities in descending
order. -/
def findByPriority (q : TaskQueue) (capabilities : List String) :
    List Int → Option String
  | [] => none
  | p :: ps =>
    match lookupKey q.pending_tasks p with
    | some bucket =>
      match findFirstCompat q capabilities bucket with
      | some task_id => some task_id
      | none => findByPriority q capabilities ps
    | none => findByPriority q capabilities ps

/-- `TaskQueue._find_task_for_worker`. -/
def TaskQueue._find_task_for_worker (q : TaskQueue) (w : Worker) :
    Option String :=
  if ¬ w.has_capacity ∨ (w.status ≠ .online ∧ w.status ≠ .busy) then none
  else findByPriority q w.capabilities (sortDesc (q.pending_tasks.map Prod.fst))

/-- One iteration of the `_schedule_tasks` loop, for the worker id at hand:
re-read the worker from the table, and if it is eligible, claim the task
`_find_task_for_worker` selects. -/
def scheduleStep (now : Nat) (q : TaskQueue) (worker_id : String) :
    TaskQueue :=
  match lookupKey q.workers worker_id with
  | none => q
  | some w =>
    if w.has_capacity ∧ (w.status = .online ∨ w.status = .busy) then
      match q._find_task_for_worker w with
      | some task_id =>
        match lookupKey q.tasks task_id with
        | some task =>
          let task1 := task.claim worker_id now
          let w1 := w.claim_task task_id now
          let q1 := { q with tasks := insertKey q.tasks task_id task1,
                             workers := insertKey q.workers worker_id w1 }
          let q2 := q1._remove_from_pending_queue task1
          { q2 with running_tasks := addUnique q2.running_tasks task_id }
        | none => q
      | none => q
    else q

/-- `TaskQueue._schedule_tasks`: iterate over the workers (dict order) and
auto-assign a suitable pending task to each worker with capacity. -/
def TaskQueue._schedule_tasks (q : TaskQueue) (now : Nat) : TaskQueue :=
  (q.workers.map Prod.fst).foldl (scheduleStep now) q

/-- `TaskQueue.submit_task`.  `timeout or self.default_timeout` sends both
`None` and the falsy `0` to the default. -/
def TaskQueue.submit_task (q : TaskQueue) (task_type : String)
    (parameters : List (String × String)) (priority : Int)
    (timeout : Option Nat) (dependencies : List String)
    (metadata : List (String × String)) (task_id : Option String)
    (gen : String) (now : Nat) : String × TaskQueue :=
  let timeoutV := match timeout with
    | some v => if v = 0 then q.default_timeout else v
    | none => q.default_timeout
  let task := Task.mk_new task_type parameters priority dependencies timeoutV
    metadata task_id gen now
  let q1 := { q with tasks := insertKey q.tasks task.id task }
  let q2 := if q1._can_start_task task then q1._add_to_pending_queue task
            else q1
  let q3 := { q2 with metrics :=
      { q2.metrics with tasks_submitted := q2.metrics.tasks_submitted + 1 } }
  (task.id, q3._schedule_tasks now)

/-- `TaskQueue.register_worker`: store the worker, index it by capability,
mark it online, then try to schedule. -/
def TaskQueue.register_worker (q : TaskQueue) (capabilities : List String)
    (capacity : Nat) (metadata : List (String × String))
    (worker_id : Option String) (heartbeat_interval : Nat)
    (gen : String) (now : Nat) : String × TaskQueue :=
  let w := Worker.mk_new worker_id capabilities capacity metadata
    heartbeat_interval gen now
  let byCap := w.capabilities.foldl
    (fun acc capability =>
      let ws := (lookupKey acc capability).getD []
      insertKey acc capability (addUnique ws w.id))
    q.worker_by_capability
  let w1 := w.set_status .online (some "Worker registered") now
  let q1 := { q with workers := insertKey q.workers w.id w1,
                     worker_by_capability := byCap,
                     metrics := { q.metrics with
                        workers_registered := q.metrics.workers_registered + 1 } }
  (w.id, q1._schedule_tasks now)

/-- `TaskQueue.worker_heartbeat`. -/
def TaskQueue.worker_heartbeat (q : TaskQueue) (worker_id : String)
    (status : Option WorkerStatus) (now : Nat) : Except QErr TaskQueue :=
  match lookupKey q.workers worker_id with
  | none => .error .workerNotFound
  | some w =>
    let w1 := match status with
      | some st => w.set_status st none now
      | none => w
    let w2 := w1.heartbeat now
    .ok { q with workers := insertKey q.workers worker_id w2 }

/-- `TaskQueue.claim_task`: worker-initiated claim.  Returns the claimed
task (the source returns its `to_dict`), or `none` when the worker has no
capacity or no suitable task exists. -/
def TaskQueue.claim_task (q : TaskQueue) (worker_id : String) (now : Nat) :
    Except QErr (Option Task × TaskQueue) :=
  match lookupKey q.workers worker_id with
  | none => .error .workerNotFound
  | some w =>
    if ¬ w.has_capacity then .ok (none, q)
    else
      match q._find_task_for_worker w with
      | none => .ok (none, q)
      | some task_id =>
        match lookupKey q.tasks task_id with
        | none => .error .taskNotFound
        | some task =>
          let task1 := task.claim worker_id now
          let w1 := w.claim_task task_id now
          let q1 := { q with tasks := insertKey q.tasks task_id task1,
                             workers := insertKey q.workers worker_id w1 }
          let q2 := q1._remove_from_pending_queue task1
          .ok (some task1,
               { q2 with running_tasks := addUnique q2.running_tasks task_id })

/-- `TaskQueue.start_task`. -/
def TaskQueue.start_task (q : TaskQueue) (worker_id task_id : String)
    (now : Nat) : Except QErr TaskQueue :=
  match lookupKey q.tasks task_id with
  | none => .error .taskNotFound
  | some task =>
    if task.claimed_by ≠ some worker_id then
      .error (.queueError "task not claimed by worker")
    else
      .ok { q with tasks := insertKey q.tasks task_id (task.start now) }

/-- `TaskQueue.complete_task`.  The unguarded `running_tasks.remove` of the
source raises `KeyError` when the id is not in the running set (a state the
queue invariants rule out); that branch is the final `.error`. -/
def TaskQueue.complete_task (q : TaskQueue) (worker_id task_id : String)
    (result : Option (List (String × String))) (now : Nat) :
    Except QErr TaskQueue :=
  match lookupKey q.tasks task_id with
  | none => .error .taskNotFound
  | some task =>
    match lookupKey q.workers worker_id with
    | none => .error .workerNotFound
    | some w =>
      if task.claimed_by ≠ some worker_id then
        .error (.queueError "task not claimed by worker")
      else
        let task1 := task.complete result now
        let w1 := w.release_task task_id true now
        let q1 := { q with tasks := insertKey q.tasks task_id task1,
                           workers := insertKey q.workers worker_id w1 }
        if task_id ∈ q1.running_tasks then
          let q2 := { q1 with
            running_tasks := q1.running_tasks.erase task_id,
            completed_tasks := addUnique q1.completed_tasks task_id,
            metrics := { q1.metrics with
              tasks_completed := q1.metrics.tasks_completed + 1 } }
          let q3 := q2._check_dependent_tasks task_id
          .ok (q3._schedule_tasks now)
        else .error (.queueError "KeyError on running set")

/-- `TaskQueue.fail_task`: mark failed, release the worker, then either
retry (increment `retry_count`, reset to pending, re-queue) or record the
terminal failure; either way finish with a scheduling pass. -/
def TaskQueue.fail_task (q : TaskQueue) (worker_id task_id : String)
    (error : Option String) (retry : Bool) (now : Nat) :
    Except QErr TaskQueue :=
  match lookupKey q.tasks task_id with
  | none => .error .taskNotFound
  | some task =>
    match lookupKey q.workers worker_id with
    | none => .error .workerNotFound
    | some w =>
      if task.claimed_by ≠ some worker_id then
        .error (.queueError "task not claimed by worker")
      else
        let task1 := task.fail error now
        let w1 := w.release_task task_id false now
        let q1 := { q with tasks := insertKey q.tasks task_id task1,
                           workers := insertKey q.workers worker_id w1 }
        if task_id ∈ q1.running_tasks then
          let q2 := { q1 with running_tasks := q1.running_tasks.erase task_id }
          if retry ∧ task1.retry_count < q2.max_retries then
            let task2 := task1.retry
            let q3 := { q2 with tasks := insertKey q2.tasks task_id task2 }
            let q4 := q3._add_to_pending_queue task2
            let q5 := { q4 with metrics := { q4.metrics with
              tasks_retried := q4.metrics.tasks_retried + 1 } }
            .ok (q5._schedule_tasks now)
          else
            let q3 := { q2 with
              failed_tasks := addUnique q2.failed_tasks task_id,
              metrics := { q2.metrics with
                tasks_failed := q2.metrics.tasks_failed + 1 } }
            .ok (q3._schedule_tasks now)
        else .error (.queueError "KeyError on running set")

/-- `TaskQueue.cancel_task`: refuse only `completed` / `failed`, then mark
cancelled and drop the task from the running set (releasing the claiming
worker, if still registered) or from the pending queue. -/
def TaskQueue.cancel_task (q : TaskQueue) (task_id : String) (now : Nat) :
    Except QErr TaskQueue :=
  match lookupKey q.tasks task_id with
  | none => .error .taskNotFound
  | some task =>
    if task.status = .completed ∨ task.status = .failed then
      .error (.queueError "cannot cancel task in this status")
    else
      let task1 := task.cancel now
      let q1 := { q with tasks := insertKey q.tasks task_id task1 }
      if task_id ∈ q1.running_tasks then
        let q2 := { q1 with running_tasks := q1.running_tasks.erase task_id }
        match task1.claimed_by with
        | some wid =>
          match lookupKey q2.workers wid with
          | some w =>
            .ok { q2 with
                  workers := insertKey q2.workers wid
                    (w.release_task task_id false now) }
          | none => .ok q2
        | none => .ok q2
      else .ok (q1._remove_from_pending_queue task1)

/-- Pass 1 of `TaskQueue._check_dead_workers`: the ids of workers that are
not offline and have missed heartbeats for more than `worker_timeout`.
(`worker.last_heartbeat` is set at construction and never cleared, so the
source's truthiness test on it always passes.) -/
def deadWorkerIds (q : TaskQueue) (now : Nat) : List String :=
  q.workers.filterMap fun p =>
    if p.2.status ≠ .offline ∧ now - p.2.last_heartbeat > q.worker_timeout then
      some p.1
    else none

/-- Per-task body of pass 2 of `_check_dead_workers`: fail the task with the
dead-worker reason, drop it from the running set, then retry it into the
pending queue when `retry_count < max_retries`, else record it as terminally
failed. -/
def failDeadTask (now : Nat) (q : TaskQueue) (task_id : String) : TaskQueue :=
  match lookupKey q.tasks task_id with
  | none => q
  | some task =>
    let task1 := task.fail (some "Worker died during task execution") now
    let q1 := { q with tasks := insertKey q.tasks task_id task1 }
    let q2 :=
      if task_id ∈ q1.running_tasks then
        { q1 with running_tasks := q1.running_tasks.erase task_id }
      else q1
    if task1.retry_count < q2.max_retries then
      let task2 := task1.retry
      let q3 := { q2 with tasks := insertKey q2.tasks task_id task2,
                          metrics := { q2.metrics with
                            tasks_retried := q2.metrics.tasks_retried + 1 } }
      q3._add_to_pending_queue task2
    else
      { q2 with failed_tasks := addUnique q2.failed_tasks task_id,
                metrics := { q2.metrics with
                  tasks_failed := q2.metrics.tasks_failed + 1 } }

/-- Per-worker body of pass 2 of `_check_dead_workers`: process the snapshot
of the worker's current tasks, then clear its current-task set. -/
def processDeadWorker (now : Nat) (q : TaskQueue) (worker_id : String) :
    TaskQueue :=
  match lookupKey q.workers worker_id with
  | none => q
  | some w =>
    let q1 := w.current_tasks.foldl (failDeadTask now) q
    match lookupKey q1.workers worker_id with
    | some w1 =>
      { q1 with workers :=
          insertKey q1.workers worker_id { w1 with current_tasks := [] } }
    | none => q1

/-- `TaskQueue._check_dead_workers`: mark every dead worker offline (pass 1),
then fail-or-retry every task each dead worker held and clear its
current-task set (pass 2). -/
def TaskQueue._check_dead_workers (q : TaskQueue) (now : Nat) : TaskQueue :=
  let dead := deadWorkerIds q now
  let q1 := { q with
    workers := q.workers.map fun p =>
      if p.1 ∈ dead then
        (p.1, p.2.set_status .offline (some "Worker timeout") now)
      else p,
    metrics := { q.metrics with
      workers_lost := q.metrics.workers_lost + dead.length } }
  dead.foldl (processDeadWorker now) q1

/-- Per-task body of `_check_task_timeouts`: a running task whose elapsed
time since `started_at` exceeds its timeout is marked `timeout`, moved from
the running set to `failed_tasks`, and its claiming worker (if still
registered) releases the slot.  No retry is attempted. -/
def timeoutStep (now : Nat) (q : TaskQueue) (task_id : String) : TaskQueue :=
  match lookupKey q.tasks task_id with
  | none => q
  | some task =>
    match task.started_at with
    | none => q
    | some st =>
      if now - st > task.timeout then
        let task1 := task.timeout_task now
        let q1 := { q with tasks := insertKey q.tasks task_id task1,
                           running_tasks := q.running_tasks.erase task_id,
                           failed_tasks := addUnique q.failed_tasks task_id }
        match task1.claimed_by with
        | some wid =>
          match lookupKey q1.workers wid with
          | some w =>
            let w1 := w.release_task task_id false now
            { q1 with workers := insertKey q1.workers wid w1 }
          | none => q1
        | none => q1
      else q

/-- `TaskQueue._check_task_timeouts`: scan a snapshot of the running set. -/
def TaskQueue._check_task_timeouts (q : TaskQueue) (now : Nat) : TaskQueue :=
  q.running_tasks.foldl (timeoutStep now) q

/-- The persisted document of `_persist_state`: task-id → task record and
worker-id → worker record.  The generated `queue_stats` block is derived
data never read back by `load_state` and is omitted. -/
structure QueueSnapshot where
  tasks : List (String × TaskRecord)
  workers : List (String × WorkerRecord)
deriving DecidableEq, Repr

/-- `TaskQueue._persist_state` (the snapshot-building part; the atomic
temp-file write is I/O outside the state model). -/
def TaskQueue._persist_state (q : TaskQueue) : QueueSnapshot :=
  { tasks := q.tasks.map fun p => (p.1, p.2.to_dict)
    workers := q.workers.map fun p => (p.1, p.2.to_dict) }

/-- Per-record body of the task-loading loop of `load_state`: rebuild the
task and sort its id into the pending queue or the running / completed /
failed set according to its persisted status alone. -/
def loadTaskStep (q : TaskQueue) (d : TaskRecord) (gen : String) : TaskQueue :=
  let task := Task.from_dict d gen
  let q1 := { q with tasks := insertKey q.tasks task.id task }
  match task.status with
  | .pending => q1._add_to_pending_queue task
  | .running =>
    { q1 with running_tasks := addUnique q1.running_tasks task.id }
  | .claimed =>
    { q1 with running_tasks := addUnique q1.running_tasks task.id }
  | .completed =>
    { q1 with completed_tasks := addUnique q1.completed_tasks task.id }
  | .failed =>
    { q1 with failed_tasks := addUnique q1.failed_tasks task.id }
  | .timeout =>
    { q1 with failed_tasks := addUnique q1.failed_tasks task.id }
  | .cancelled => q1

/-- `TaskQueue.load_state`: replace the task table (the pending / running /
completed / failed sets are added to, not cleared, exactly as in the
source), then replace the worker table and rebuild the capability index.
`gen` supplies the uuid stream for records with empty ids. -/
def TaskQueue.load_state (q : TaskQueue) (snap : QueueSnapshot)
    (gen : Nat → String) : TaskQueue :=
  let q1 := { q with tasks := [] }
  let q2 := (snap.tasks.map Prod.snd).enum.foldl
    (fun acc p => loadTaskStep acc p.2 (gen p.1)) q1
  let q3 := { q2 with workers := [], worker_by_capability := [] }
  (snap.workers.map Prod.snd).enum.foldl
    (fun acc p =>
      let w := Worker.from_dict p.2 (gen (snap.tasks.length + p.1))
      let acc1 := { acc with workers := insertKey acc.workers w.id w }
      let byCap := w.capabilities.foldl
        (fun bc capability =>
          let ws := (lookupKey bc capability).getD []
          insertKey bc capability (addUnique ws w.id))
        acc1.worker_by_capability
      { acc1 with worker_by_capability := byCap })
    q3

/-- Modelled from the spec: the heap-based queue in
`src/omnispindle/queue/task_queue.py` imports its `Task` from a models
module that is not under `src/`; spec §4.1 says entries are keyed by
`(-priority, scheduled_time, taskID)`, so the model carries exactly the
fields `TaskPriorityQueue` reads. -/
structure QTask where
  id : String
  priority : Int
  scheduled_at : Option Nat
deriving DecidableEq, Repr

/-- A `(-priority, scheduled time, id)` heap entry. -/
abbrev HeapEntry := Int × Nat × String

/-- Python tuple comparison on heap entries (lexicographic; Mathlib's
`String` linear order models Python string comparison). -/
def entryLe (a b : HeapEntry) : Bool :=
  decide (a.1 < b.1) ||
    (decide (a.1 = b.1) &&
      (decide (a.2.1 < b.2.1) ||
        (decide (a.2.1 = b.2.1) && decide (a.2.2 ≤ b.2.2))))

/-- `heapq.heappush` modelled by its contract (the heap library is Python
stdlib, external to this repository): a sorted list realizes the heap, with
`heappop` taking the least entry.  With the total order `entryLe` the popped
entry is the unique minimum, so the observable pop sequence of the real
binary heap and of the sorted list coincide. -/
def heapInsert (e : HeapEntry) : List HeapEntry → List HeapEntry
  | [] => [e]
  | x :: xs => if entryLe e x then e :: x :: xs else x :: heapInsert e xs

/-- The `TaskPriorityQueue` of `src/omnispindle/queue/task_queue.py`:
a heap of entries plus the live-id set used for lazy deletion. -/
structure TaskPriorityQueue where
  _queue : List HeapEntry
  _task_ids : List String
deriving DecidableEq, Repr

/-- `TaskPriorityQueue.add_task`: ignore ids already present, otherwise push
`(-priority, scheduled_at or now, id)` and record the id as live. -/
def TaskPriorityQueue.add_task (pq : TaskPriorityQueue) (task : QTask)
    (now : Nat) : TaskPriorityQueue :=
  if task.id ∈ pq._task_ids then pq
  else
    let scheduled_at := task.scheduled_at.getD now
    { _queue := heapInsert (-task.priority, scheduled_at, task.id) pq._queue
      _task_ids := addUnique pq._task_ids task.id }

/-- `TaskPriorityQueue.remove_task`: lazy deletion, drop the id from the
live set only. -/
def TaskPriorityQueue.remove_task (pq : TaskPriorityQueue) (task_id : String) :
    TaskPriorityQueue :=
  { pq with _task_ids := pq._task_ids.erase task_id }

/-- The stale-entry cleanup loop shared by `get_next_task_id` and
`pop_next_task_id`: pop heap entries whose id is no longer live. -/
def cleanQueue (ids : List String) : List HeapEntry → List HeapEntry
  | [] => []
  | e :: rest => if e.2.2 ∈ ids then e :: rest else cleanQueue ids rest

/-- `TaskPriorityQueue.get_next_task_id` (it mutates the heap by discarding
stale entries, hence the returned queue). -/
def TaskPriorityQueue.get_next_task_id (pq : TaskPriorityQueue) :
    Option String × TaskPriorityQueue :=
  let q1 := cleanQueue pq._task_ids pq._queue
  match q1 with
  | [] => (none, { pq with _queue := q1 })
  | e :: _ => (some e.2.2, { pq with _queue := q1 })

/-- `TaskPriorityQueue.pop_next_task_id`. -/
def TaskPriorityQueue.pop_next_task_id (pq : TaskPriorityQueue) :
    Option String × TaskPriorityQueue :=
  match pq.get_next_task_id with
  | (none, pq1) => (none, pq1)
  | (some task_id, pq1) =>
    (some task_id,
     { _queue := pq1._queue.tail, _task_ids := pq1._task_ids.erase task_id })

/-- The only mutation `_schedule_tasks` applies to a task is a claim. -/
def claimEvol (now : Nat) (t t2 : Task) : Prop :=
  t2 = t ∨ ∃ wid, t2 = t.claim wid now

/-! ## Concrete states used by witnesses and counterexamples

All are built by running the queue operations from a fresh queue with the
default configuration (`max_retries = 3`, `default_timeout = 3600`,
`worker_timeout = 90`). -/

/-- A fresh queue with the default configuration. -/
def exQ0 : TaskQueue := TaskQueue.mk_new 3 3600 90

/-- Worker `w` (capability `math`, capacity 1) registered at time 0. -/
def exQa : TaskQueue :=
  (exQ0.register_worker ["math"] 1 [] (some "w") 30 "gw" 0).2

/-- Task `t` (type `math`) submitted at time 1; the submission scheduling
pass immediately assigns it to `w` (status `claimed`). -/
def exQb : TaskQueue :=
  (exQa.submit_task "math" [] 0 none [] [] (some "t") "gt" 1).2

/-- A placeholder task used only to give `Option.getD` a default. -/
def dfltTask : Task := Task.mk_new "none" [] 0 [] 0 [] none "g" 0

/-- The worker record of `w` in `exQb` (it holds the claimed task `t`). -/
def wDead : Worker :=
  (lookupKey exQb.workers "w").getD (Worker.mk_new (some "w") [] 1 [] 30 "g" 0)

/-- The task record of `t` in `exQb`. -/
def tDead : Task := (lookupKey exQb.tasks "t").getD dfltTask

/-- Executable check of one pending-queue entry: the id resolves in the
task table to a `pending` task whose priority matches its bucket key and
whose dependencies are all `completed`. -/
def bucketEntryOK (q : TaskQueue) (p : Int) (a : String) : Bool :=
  match lookupKey q.tasks a with
  | none => false
  | some t =>
    decide (t.priority = p) && decide (t.status = TaskStatus.pending) &&
      q._can_start_task t

/-- The coordinator's ready-queue well-formedness: every task record is
stored under its own id, task and bucket keys are distinct, every bucket is
duplicate-free, and every queued id satisfies `bucketEntryOK`. -/
abbrev WFqueue (q : TaskQueue) : Prop :=
  (∀ p ∈ q.tasks, p.2.id = p.1) ∧
  (q.tasks.map Prod.fst).Nodup ∧
  (q.pending_tasks.map Prod.fst).Nodup ∧
  (∀ e ∈ q.pending_tasks, e.2.Nodup) ∧
  (∀ e ∈ q.pending_tasks, ∀ a ∈ e.2, bucketEntryOK q e.1 a = true)

/-- The property claim C2 asserts of reachable states: every id in the
pending queue resolves to a task all of whose dependencies are completed. -/
def TaskQueue.readyOK (q : TaskQueue) : Bool :=
  q.pendingIds.all fun a =>
    match lookupKey q.tasks a with
    | none => false
    | some t => q._can_start_task t

/-- Empty coordinator with no workers (so nothing gets auto-claimed). -/
def exR0 : TaskQueue := TaskQueue.mk_new 3 3600 90

/-- Task `b` submitted with no dependencies: queued. -/
def exR1 : TaskQueue :=
  (exR0.submit_task "math" [] 0 none [] [] (some "b") "g1" 0).2

/-- Task `a` submitted depending on the still-pending `b`: withheld from
the queue. -/
def exR2 : TaskQueue :=
  (exR1.submit_task "math" [] 0 none ["b"] [] (some "a") "g2" 1).2

/-- A fresh coordinator restored from the persisted snapshot of `exR2`. -/
def exR3 : TaskQueue := exR0.load_state exR2._persist_state (fun _ => "u")

/-- Heap order invariant of the model heap: the entry list is sorted by the
Python tuple order. -/
abbrev heapSorted (l : List HeapEntry) : Prop :=
  l.Pairwise (fun a b => entryLe a b = true)

/-- Worker `v` (capability `math`, capacity 1) registered at time 0. -/
def exF1 : TaskQueue :=
  (exQ0.register_worker ["math"] 1 [] (some "v") 30 "gv" 0).2

/-- Task `fa` (priority 5) submitted at time 1: claimed by `v` at once. -/
def exF2 : TaskQueue :=
  (exF1.submit_task "math" [] 5 none [] [] (some "fa") "ga" 1).2

/-- Task `fb` (priority 5) submitted at time 2: queued (`v` is full). -/
def exF3 : TaskQueue :=
  (exF2.submit_task "math" [] 5 none [] [] (some "fb") "gb" 2).2

/-- `v` parked in `error` status so the failure below re-queues without
re-claiming. -/
def exF4 : TaskQueue :=
  match exF3.worker_heartbeat "v" (some WorkerStatus.error) 3 with
  | .ok s => s
  | .error _ => exQ0

/-- `fa` failed with retry at time 4: appended behind `fb` in the
priority-5 bucket although it was created first. -/
def exF5 : TaskQueue :=
  match exF4.fail_task "v" "fa" (some "boom") true 4 with
  | .ok s => s
  | .error _ => exQ0

/-- A free-standing online worker used to query `_find_task_for_worker`. -/
def exWv : Worker :=
  (Worker.mk_new (some "z") ["math"] 1 [] 30 "gz" 9).set_status
    WorkerStatus.online none 9

/-- A two-entry heap queue: `h1` (priority 5, scheduled 10) and `h2`
(priority 3, scheduled 5). -/
def exH : TaskPriorityQueue :=
  (({ _queue := [], _task_ids := [] } : TaskPriorityQueue).add_task
      { id := "h1", priority := 5, scheduled_at := some 10 } 0).add_task
    { id := "h2", priority := 3, scheduled_at := some 5 } 1

/-- `t` started by `w` at time 1 (status `running`). -/
def exQs : TaskQueue :=
  match exQb.start_task "w" "t" 1 with
  | .ok s => s
  | .error _ => exQ0

/-- The timeout scan run at time 99999, far past the 3600-second timeout of
`t`. -/
def exQtimeout : TaskQueue := exQs._check_task_timeouts 99999

/-- `t` completed by `w` at time 5. -/
def exQcomplete : TaskQueue :=
  match exQs.complete_task "w" "t" none 5 with
  | .ok s => s
  | .error _ => exQ0

/-- The claimed-by invariant of claim C4, as a checkable property of a
queue state. -/
abbrev claimedByInv (q : TaskQueue) : Prop :=
  ∀ e ∈ q.tasks,
    (e.2.claimed_by ≠ none ↔
      (e.2.status = TaskStatus.claimed ∨ e.2.status = TaskStatus.running))

/-- One failed attempt of task `t` by worker `w` on the concrete scenario
state, with errors impossible by construction. -/
def failOnce (s : TaskQueue) (now : Nat) : TaskQueue :=
  match s.fail_task "w" "t" (some "boom") true now with
  | .ok s2 => s2
  | .error _ => s

/-- The scenario state after failing task `t` four times
(`max_retries + 1 = 4` attempts with the default configuration); the
closing scheduling pass of each retrying `fail_task` immediately re-claims
the task for `w`, so no separate claim step is needed between failures. -/
def exQfail4 : TaskQueue :=
  failOnce (failOnce (failOnce (failOnce exQb 2) 3) 4) 5

/-- Heartbeat with an explicit status, with errors impossible by
construction (helper for the C9 scenario). -/
def hbStatus (s : TaskQueue) (wid : String) (st : WorkerStatus) (now : Nat) :
    TaskQueue :=
  match s.worker_heartbeat wid (some st) now with
  | .ok s2 => s2
  | .error _ => s

/-- C9 scenario: workers `w1` and `w2` registered, parked in `error` status
(so the submission scheduling pass assigns nothing), task `t` submitted
into the pending queue, then both workers brought back online via
heartbeats (`worker_heartbeat` runs no scheduling pass). -/
def exC9 : TaskQueue :=
  let s1 := (exQ0.register_worker ["m"] 1 [] (some "w1") 30 "g1" 0).2
  let s2 := (s1.register_worker ["m"] 1 [] (some "w2") 30 "g2" 0).2
  let s3 := hbStatus s2 "w1" .error 1
  let s4 := hbStatus s3 "w2" .error 1
  let s5 := (s4.submit_task "m" [] 0 none [] [] (some "t") "gt" 2).2
  let s6 := hbStatus s5 "w1" .online 3
  hbStatus s6 "w2" .online 3

/-! ## Association-list and set-model lemmas -/

theorem lookupKey_insertKey_self {κ α : Type} [DecidableEq κ]
    (l : List (κ × α)) (k : κ) (v : α) :
    lookupKey (insertKey l k v) k = some v := by
  induction l with
  | nil => simp [insertKey, lookupKey]
  | cons hd tl ih =>
    by_cases h : hd.1 = k
    · simp [insertKey, lookupKey, h]
    · simp [insertKey, lookupKey, h, ih]

theorem lookupKey_insertKey_ne {κ α : Type} [DecidableEq κ]
    (l : List (κ × α)) (k k2 : κ) (v : α) (h : k2 ≠ k) :
    lookupKey (insertKey l k v) k2 = lookupKey l k2 := by
  have hkk : ¬ k = k2 := fun hh => h hh.symm
  induction l with
  | nil => simp [insertKey, lookupKey, hkk]
  | cons hd tl ih =>
    obtain ⟨k1, v1⟩ := hd
    by_cases hk : k1 = k
    · subst hk
      simp [insertKey, lookupKey, hkk]
    · by_cases hk2 : k1 = k2
      · simp [insertKey, lookupKey, hk, hk2, h]
      · simp [insertKey, lookupKey, hk, hk2, ih]

theorem mem_keys_insertKey {κ α : Type} [DecidableEq κ]
    {l : List (κ × α)} {k k2 : κ} {v : α}
    (h : k2 ∈ (insertKey l k v).map Prod.fst) :
    k2 ∈ l.map Prod.fst ∨ k2 = k := by
  induction l with
  | nil => simpa [insertKey] using h
  | cons hd tl ih =>
    by_cases hk : hd.1 = k
    · simp [insertKey, hk] at h
      rcases h with h | h
      · exact Or.inr h
      · exact Or.inl (by simp [h])
  -- branch hd.1 ≠ k
    · simp only [insertKey, hk, if_false, List.map_cons, List.mem_cons] at h
      rcases h with h | h
      · exact Or.inl (by simp [h])
      · rcases ih h with h2 | h2
        · exact Or.inl (by simp [h2])
        · exact Or.inr h2

theorem nodup_keys_insertKey {κ α : Type} [DecidableEq κ]
    {l : List (κ × α)} {k : κ} {v : α}
    (h : (l.map Prod.fst).Nodup) :
    ((insertKey l k v).map Prod.fst).Nodup := by
  induction l with
  | nil => simp [insertKey]
  | cons hd tl ih =>
    simp only [List.map_cons, List.nodup_cons] at h
    obtain ⟨k1, v1⟩ := hd
    by_cases hk : k1 = k
    · subst hk
      simpa [insertKey] using h
    · simp only [insertKey, hk, if_false, List.map_cons]
      refine List.nodup_cons.mpr ⟨?_, ih h.2⟩
      intro hmem
      rcases mem_keys_insertKey hmem with h2 | h2
      · exact h.1 h2
      · exact hk h2

theorem mem_insertKey_elim {κ α : Type} [DecidableEq κ]
    {l : List (κ × α)} {k : κ} {v : α} {e : κ × α}
    (h : e ∈ insertKey l k v) : e = (k, v) ∨ e ∈ l := by
  induction l with
  | nil => simpa [insertKey] using h
  | cons hd tl ih =>
    by_cases hk : hd.1 = k
    · simp only [insertKey, hk, if_true, List.mem_cons] at h
      rcases h with h | h
      · exact Or.inl h
      · exact Or.inr (List.mem_cons_of_mem _ h)
    · simp only [insertKey, hk, if_false, List.mem_cons] at h
      rcases h with h | h
      · exact Or.inr (by simp [h])
      · rcases ih h with h2 | h2
        · exact Or.inl h2
        · exact Or.inr (List.mem_cons_of_mem _ h2)

theorem mem_eraseKey_elim {κ α : Type} [DecidableEq κ]
    {l : List (κ × α)} {k : κ} {e : κ × α}
    (h : e ∈ eraseKey l k) : e ∈ l := by
  induction l with
  | nil => simp [eraseKey] at h
  | cons hd tl ih =>
    by_cases hk : hd.1 = k
    · simp only [eraseKey, hk, if_true] at h
      exact List.mem_cons_of_mem _ h
    · simp only [eraseKey, hk, if_false, List.mem_cons] at h
      rcases h with h | h
      · exact by simp [h]
      · exact List.mem_cons_of_mem _ (ih h)

theorem nodup_keys_eraseKey {κ α : Type} [DecidableEq κ]
    {l : List (κ × α)} {k : κ}
    (h : (l.map Prod.fst).Nodup) :
    ((eraseKey l k).map Prod.fst).Nodup := by
  induction l with
  | nil => simp [eraseKey]
  | cons hd tl ih =>
    simp only [List.map_cons, List.nodup_cons] at h
    obtain ⟨k1, v1⟩ := hd
    by_cases hk : k1 = k
    · simpa [eraseKey, hk] using h.2
    · simp only [eraseKey, hk, if_false, List.map_cons]
      refine List.nodup_cons.mpr ⟨?_, ih h.2⟩
      intro hmem
      simp only [List.mem_map] at hmem
      obtain ⟨e, he, hfst⟩ := hmem
      exact h.1 (by
        simp only [List.mem_map]
        exact ⟨e, mem_eraseKey_elim he, hfst⟩)

theorem lookup_of_mem_nodup {κ α : Type} [DecidableEq κ]
    {l : List (κ × α)} {k : κ} {v : α}
    (hn : (l.map Prod.fst).Nodup) (h : (k, v) ∈ l) :
    lookupKey l k = some v := by
  induction l with
  | nil => simp at h
  | cons hd tl ih =>
    simp only [List.map_cons, List.nodup_cons] at hn
    rcases List.mem_cons.mp h with h | h
    · simp [lookupKey, ← h]
    · have hne : hd.1 ≠ k := by
        intro hk
        exact hn.1 (by
          simp only [List.mem_map]
          exact ⟨(k, v), h, hk.symm⟩)
      simp [lookupKey, hne, ih hn.2 h]

theorem mem_of_lookup {κ α : Type} [DecidableEq κ]
    {l : List (κ × α)} {k : κ} {v : α}
    (h : lookupKey l k = some v) : (k, v) ∈ l := by
  induction l with
  | nil => simp [lookupKey] at h
  | cons hd tl ih =>
    obtain ⟨k1, v1⟩ := hd
    by_cases hk : k1 = k
    · simp only [lookupKey, hk, if_true, Option.some.injEq] at h
      subst h
      subst hk
      exact List.mem_cons_self _ _
    · simp only [lookupKey, hk, if_false] at h
      exact List.mem_cons_of_mem _ (ih h)

theorem insertKey_append_of_lookup_none {κ α : Type} [DecidableEq κ]
    {l : List (κ × α)} {k : κ} {v : α}
    (h : lookupKey l k = none) : insertKey l k v = l ++ [(k, v)] := by
  induction l with
  | nil => simp [insertKey]
  | cons hd tl ih =>
    by_cases hk : hd.1 = k
    · simp [lookupKey, hk] at h
    · simp only [lookupKey, hk, if_false] at h
      simp [insertKey, hk, ih h]

theorem mem_addUnique {l : List String} {x y : String} :
    y ∈ addUnique l x ↔ y ∈ l ∨ y = x := by
  unfold addUnique
  by_cases h : x ∈ l
  · simp only [h, if_true]
    constructor
    · exact Or.inl
    · rintro (hy | rfl)
      · exact hy
      · exact h
  · simp [h]

theorem nodup_addUnique {l : List String} {x : String}
    (h : l.Nodup) : (addUnique l x).Nodup := by
  unfold addUnique
  by_cases hx : x ∈ l
  · simpa [hx] using h
  · simp [hx, List.nodup_append, h]

theorem mem_addUnique_self {l : List String} {x : String} :
    x ∈ addUnique l x := mem_addUnique.mpr (Or.inr rfl)

theorem mem_addUnique_of_mem {l : List String} {x y : String}
    (h : y ∈ l) : y ∈ addUnique l x := mem_addUnique.mpr (Or.inl h)

theorem mem_insertKey_self {κ α : Type} [DecidableEq κ]
    (l : List (κ × α)) (k : κ) (v : α) : (k, v) ∈ insertKey l k v := by
  induction l with
  | nil => simp [insertKey]
  | cons hd tl ih =>
    obtain ⟨k1, v1⟩ := hd
    by_cases hk : k1 = k
    · simp [insertKey, hk]
    · simp only [insertKey, hk, if_false, List.mem_cons]
      exact Or.inr ih

theorem mem_insertKey_of_key_ne {κ α : Type} [DecidableEq κ]
    {l : List (κ × α)} {k : κ} {v : α} {e : κ × α}
    (he : e ∈ l) (hne : e.1 ≠ k) : e ∈ insertKey l k v := by
  induction l with
  | nil => simp at he
  | cons hd tl ih =>
    obtain ⟨k1, v1⟩ := hd
    rcases List.mem_cons.mp he with h | h
    · by_cases hk : k1 = k
      · exact absurd (h ▸ hk) hne
      · simp only [insertKey, hk, if_false, List.mem_cons]
        exact Or.inl h
    · by_cases hk : k1 = k
      · simp only [insertKey, hk, if_true, List.mem_cons]
        exact Or.inr h
      · simp only [insertKey, hk, if_false, List.mem_cons]
        exact Or.inr (ih h)

theorem mem_eraseKey_of_key_ne {κ α : Type} [DecidableEq κ]
    {l : List (κ × α)} {k : κ} {e : κ × α}
    (he : e ∈ l) (hne : e.1 ≠ k) : e ∈ eraseKey l k := by
  induction l with
  | nil => simp at he
  | cons hd tl ih =>
    obtain ⟨k1, v1⟩ := hd
    rcases List.mem_cons.mp he with h | h
    · by_cases hk : k1 = k
      · exact absurd (h ▸ hk) hne
      · simp only [eraseKey, hk, if_false, List.mem_cons]
        exact Or.inl h
    · by_cases hk : k1 = k
      · simpa [eraseKey, hk] using h
      · simp only [eraseKey, hk, if_false, List.mem_cons]
        exact Or.inr (ih h)

theorem not_mem_keys_eraseKey {κ α : Type} [DecidableEq κ]
    {l : List (κ × α)} {k : κ}
    (hn : (l.map Prod.fst).Nodup) : k ∉ (eraseKey l k).map Prod.fst := by
  induction l with
  | nil => simp [eraseKey]
  | cons hd tl ih =>
    obtain ⟨k1, v1⟩ := hd
    simp only [List.map_cons, List.nodup_cons] at hn
    by_cases hk : k1 = k
    · subst hk
      simp only [eraseKey, if_true]
      exact fun hmem => hn.1 hmem
    · simp only [eraseKey, hk, if_false, List.map_cons, List.mem_cons]
      rintro (h | h)
      · exact hk h.symm
      · exact ih hn.2 h

/-- Entries of an association list with duplicate-free keys are determined
by their key. -/
theorem eq_of_mem_same_key {κ α : Type} [DecidableEq κ]
    {l : List (κ × α)} {e : κ × α} {v : α}
    (hn : (l.map Prod.fst).Nodup) (he : e ∈ l)
    (hl : lookupKey l e.1 = some v) : e.2 = v := by
  have h1 : lookupKey l e.1 = some e.2 := lookup_of_mem_nodup hn (by
    obtain ⟨k1, v1⟩ := e
    exact he)
  rw [h1] at hl
  exact (Option.some.injEq _ _ ▸ hl)

theorem mem_flatten_map_snd {κ : Type} {l : List (κ × List String)}
    {tid : String} :
    tid ∈ (l.map Prod.snd).flatten ↔ ∃ e ∈ l, tid ∈ e.2 := by
  simp only [List.mem_flatten, List.mem_map]
  constructor
  · rintro ⟨b, ⟨e, he, rfl⟩, hb⟩
    exact ⟨e, he, hb⟩
  · rintro ⟨e, he, hb⟩
    exact ⟨e.2, ⟨e, he, rfl⟩, hb⟩

/-! ## Pending-queue membership lemmas -/

theorem mem_flatten_addBucket {l : List (Int × List String)} {p : Int}
    {x a : String} :
    a ∈ ((addBucket l p x).map Prod.snd).flatten ↔
      a ∈ (l.map Prod.snd).flatten ∨ a = x := by
  unfold addBucket
  induction l with
  | nil =>
    simp [insertKey, lookupKey, mem_addUnique]
  | cons hd tl ih =>
    obtain ⟨k1, b1⟩ := hd
    by_cases hk : k1 = p
    · subst hk
      simp [insertKey, lookupKey, mem_addUnique, or_assoc, or_comm, or_left_comm]
    · have hk2 : ¬ k1 = p := hk
      simp only [lookupKey, hk2, if_false, insertKey, List.map_cons,
        List.flatten_cons, List.mem_append] at ih ⊢
      rw [ih]
      exact or_assoc.symm

theorem pendingIds_add_iff (q : TaskQueue) (t : Task) (tid : String) :
    tid ∈ (q._add_to_pending_queue t).pendingIds ↔
      tid ∈ q.pendingIds ∨ tid = t.id := by
  simpa [TaskQueue.pendingIds, TaskQueue._add_to_pending_queue]
    using mem_flatten_addBucket (l := q.pending_tasks) (p := t.priority)
      (x := t.id) (a := tid)

theorem mem_flatten_removeBucket_elim {l : List (Int × List String)}
    {p : Int} {x tid : String}
    (h : tid ∈ ((removeBucket l p x).map Prod.snd).flatten) :
    tid ∈ (l.map Prod.snd).flatten := by
  unfold removeBucket at h
  rcases hl : lookupKey l p with _ | bucket
  · rwa [hl] at h
  · rw [hl] at h
    by_cases hm : x ∈ bucket
    · simp only [hm, if_true] at h
      by_cases hb : bucket.erase x = []
      · simp only [hb, if_true] at h
        obtain ⟨e, he, hetid⟩ := mem_flatten_map_snd.mp h
        exact mem_flatten_map_snd.mpr ⟨e, mem_eraseKey_elim he, hetid⟩
      · simp only [hb, if_false] at h
        obtain ⟨e, he, hetid⟩ := mem_flatten_map_snd.mp h
        rcases mem_insertKey_elim he with heq | he2
        · refine mem_flatten_map_snd.mpr
            ⟨(p, bucket), mem_of_lookup hl, ?_⟩
          have : tid ∈ bucket.erase x := by
            rw [heq] at hetid
            exact hetid
          exact List.mem_of_mem_erase this
        · exact mem_flatten_map_snd.mpr ⟨e, he2, hetid⟩
    · simpa [hm] using h

theorem pendingIds_remove_subset {q : TaskQueue} {t : Task} {tid : String}
    (h : tid ∈ (q._remove_from_pending_queue t).pendingIds) :
    tid ∈ q.pendingIds :=
  mem_flatten_removeBucket_elim
    (by simpa [TaskQueue.pendingIds, TaskQueue._remove_from_pending_queue]
      using h)

theorem mem_flatten_removeBucket_of_ne {l : List (Int × List String)}
    {p : Int} {x tid : String}
    (hkeys : (l.map Prod.fst).Nodup)
    (hne : tid ≠ x) (hm : tid ∈ (l.map Prod.snd).flatten) :
    tid ∈ ((removeBucket l p x).map Prod.snd).flatten := by
  unfold removeBucket
  rcases hl : lookupKey l p with _ | bucket
  · exact hm
  · by_cases hmb : x ∈ bucket
    · simp only [hmb, if_true]
      obtain ⟨e, he, hetid⟩ := mem_flatten_map_snd.mp hm
      by_cases hb : bucket.erase x = []
      · simp only [hb, if_true]
        have hep : e.1 ≠ p := by
          intro hp
          have : e.2 = bucket := eq_of_mem_same_key hkeys he (hp ▸ hl)
          rw [this] at hetid
          have : tid ∈ bucket.erase x := (List.mem_erase_of_ne hne).mpr hetid
          rw [hb] at this
          simp at this
        exact mem_flatten_map_snd.mpr
          ⟨e, mem_eraseKey_of_key_ne he hep, hetid⟩
      · simp only [hb, if_false]
        by_cases hep : e.1 = p
        · have heb : e.2 = bucket := eq_of_mem_same_key hkeys he (hep ▸ hl)
          refine mem_flatten_map_snd.mpr
            ⟨(p, bucket.erase x), mem_insertKey_self _ _ _, ?_⟩
          exact (List.mem_erase_of_ne hne).mpr (heb ▸ hetid)
        · exact mem_flatten_map_snd.mpr
            ⟨e, mem_insertKey_of_key_ne he hep, hetid⟩
    · simpa [hmb] using hm

theorem mem_pendingIds_remove_of_ne {q : TaskQueue} {t : Task} {tid : String}
    (hkeys : (q.pending_tasks.map Prod.fst).Nodup)
    (hne : tid ≠ t.id) (hm : tid ∈ q.pendingIds) :
    tid ∈ (q._remove_from_pending_queue t).pendingIds := by
  have := mem_flatten_removeBucket_of_ne (l := q.pending_tasks)
    (p := t.priority) (x := t.id) hkeys hne
    (by simpa [TaskQueue.pendingIds] using hm)
  simpa [TaskQueue.pendingIds, TaskQueue._remove_from_pending_queue] using this

theorem lookup_isSome_of_mem {κ α : Type} [DecidableEq κ]
    {l : List (κ × α)} {e : κ × α} (he : e ∈ l) :
    ∃ v, lookupKey l e.1 = some v := by
  induction l with
  | nil => simp at he
  | cons hd tl ih =>
    obtain ⟨k1, v1⟩ := hd
    by_cases hk : k1 = e.1
    · exact ⟨v1, by simp [lookupKey, hk]⟩
    · rcases List.mem_cons.mp he with h | h
      · exact absurd (by rw [h]) hk
      · obtain ⟨v, hv⟩ := ih h
        exact ⟨v, by simp [lookupKey, hk, hv]⟩

theorem not_mem_flatten_removeBucket_self {l : List (Int × List String)}
    {p : Int} {x : String}
    (hkeys : (l.map Prod.fst).Nodup)
    (hbnd : ∀ e ∈ l, e.2.Nodup)
    (hpri : ∀ e ∈ l, x ∈ e.2 → e.1 = p) :
    x ∉ ((removeBucket l p x).map Prod.snd).flatten := by
  unfold removeBucket
  rcases hl : lookupKey l p with _ | bucket
  · intro hm
    obtain ⟨e, he, hetid⟩ := mem_flatten_map_snd.mp hm
    have hep := hpri e he hetid
    obtain ⟨v, hv⟩ := lookup_isSome_of_mem he
    rw [hep] at hv
    rw [hv] at hl
    exact Option.noConfusion hl
  · by_cases hmb : x ∈ bucket
    · simp only [hmb, if_true]
      by_cases hb : bucket.erase x = []
      · simp only [hb, if_true]
        intro hm
        obtain ⟨e, he, hetid⟩ := mem_flatten_map_snd.mp hm
        have he2 := mem_eraseKey_elim he
        have hep := hpri e he2 hetid
        have : e.1 ∈ (eraseKey l p).map Prod.fst := by
          simp only [List.mem_map]
          exact ⟨e, he, rfl⟩
        rw [hep] at this
        exact not_mem_keys_eraseKey hkeys this
      · simp only [hb, if_false]
        intro hm
        obtain ⟨e, he, hetid⟩ := mem_flatten_map_snd.mp hm
        rcases mem_insertKey_elim he with heq | he2
        · have hetid2 : x ∈ bucket.erase x := by
            rw [heq] at hetid
            exact hetid
          exact (hbnd (p, bucket) (mem_of_lookup hl)).not_mem_erase hetid2
        · have hep := hpri e he2 hetid
          have heb : e.2 = bucket := eq_of_mem_same_key hkeys he2 (hep ▸ hl)
          have hafter : ((insertKey l p (bucket.erase x)).map Prod.fst).Nodup :=
            nodup_keys_insertKey hkeys
          have hbe : e.2 = bucket.erase x := by
            refine eq_of_mem_same_key hafter he ?_
            rw [hep]
            exact lookupKey_insertKey_self _ _ _
          have hlen := congrArg List.length (heb.symm.trans hbe)
          rw [List.length_erase_of_mem hmb] at hlen
          have hpos : 0 < bucket.length :=
            List.length_pos.mpr (List.ne_nil_of_mem hmb)
          omega
    · simp only [hmb, if_false]
      intro hm
      obtain ⟨e, he, hetid⟩ := mem_flatten_map_snd.mp hm
      have hep := hpri e he hetid
      have heb : e.2 = bucket := eq_of_mem_same_key hkeys he (hep ▸ hl)
      exact hmb (heb ▸ hetid)

/-- Removing a task from the pending queue really removes its id, provided
the queue buckets are duplicate-free and hold the id only under the task's
own priority. -/
theorem not_mem_pendingIds_remove_self {q : TaskQueue} {t : Task}
    (hkeys : (q.pending_tasks.map Prod.fst).Nodup)
    (hbnd : ∀ e ∈ q.pending_tasks, e.2.Nodup)
    (hpri : ∀ e ∈ q.pending_tasks, t.id ∈ e.2 → e.1 = t.priority) :
    t.id ∉ (q._remove_from_pending_queue t).pendingIds := by
  intro hm
  exact not_mem_flatten_removeBucket_self hkeys hbnd hpri
    (by simpa [TaskQueue.pendingIds, TaskQueue._remove_from_pending_queue]
      using hm)

/-! ## Generic fold invariants and scheduler lemmas -/

theorem foldlPreserve {alpha beta : Type} (f : beta → alpha → beta)
    (P : beta → Prop) :
    ∀ (l : List alpha) (b : beta), P b →
      (∀ b2 a, a ∈ l → P b2 → P (f b2 a)) → P (l.foldl f b) := by
  intro l
  induction l with
  | nil => intro b hb _; exact hb
  | cons hd tl ih =>
    intro b hb hstep
    exact ih (f b hd) (hstep b hd (List.mem_cons_self _ _) hb)
      (fun b2 a ha hb2 => hstep b2 a (List.mem_cons_of_mem _ ha) hb2)

@[simp] theorem add_pending_tasks (q : TaskQueue) (t : Task) :
    (q._add_to_pending_queue t).tasks = q.tasks := rfl

@[simp] theorem add_pending_running (q : TaskQueue) (t : Task) :
    (q._add_to_pending_queue t).running_tasks = q.running_tasks := rfl

@[simp] theorem add_pending_completed (q : TaskQueue) (t : Task) :
    (q._add_to_pending_queue t).completed_tasks = q.completed_tasks := rfl

@[simp] theorem add_pending_failed (q : TaskQueue) (t : Task) :
    (q._add_to_pending_queue t).failed_tasks = q.failed_tasks := rfl

@[simp] theorem add_pending_workers (q : TaskQueue) (t : Task) :
    (q._add_to_pending_queue t).workers = q.workers := rfl

@[simp] theorem add_pending_max_retries (q : TaskQueue) (t : Task) :
    (q._add_to_pending_queue t).max_retries = q.max_retries := rfl

@[simp] theorem add_pending_pending (q : TaskQueue) (t : Task) :
    (q._add_to_pending_queue t).pending_tasks =
      addBucket q.pending_tasks t.priority t.id := rfl

@[simp] theorem remove_pending_tasks (q : TaskQueue) (t : Task) :
    (q._remove_from_pending_queue t).tasks = q.tasks := rfl

@[simp] theorem remove_pending_running (q : TaskQueue) (t : Task) :
    (q._remove_from_pending_queue t).running_tasks = q.running_tasks := rfl

@[simp] theorem remove_pending_completed (q : TaskQueue) (t : Task) :
    (q._remove_from_pending_queue t).completed_tasks = q.completed_tasks := rfl

@[simp] theorem remove_pending_failed (q : TaskQueue) (t : Task) :
    (q._remove_from_pending_queue t).failed_tasks = q.failed_tasks := rfl

@[simp] theorem remove_pending_workers (q : TaskQueue) (t : Task) :
    (q._remove_from_pending_queue t).workers = q.workers := rfl

@[simp] theorem remove_pending_max_retries (q : TaskQueue) (t : Task) :
    (q._remove_from_pending_queue t).max_retries = q.max_retries := rfl

@[simp] theorem remove_pending_pending (q : TaskQueue) (t : Task) :
    (q._remove_from_pending_queue t).pending_tasks =
      removeBucket q.pending_tasks t.priority t.id := rfl

@[simp] theorem pendingIds_def (q : TaskQueue) :
    q.pendingIds = (q.pending_tasks.map Prod.snd).flatten := rfl

/-- `_find_task_for_worker` returns only ids held in the pending queue. -/
theorem findFirstCompat_mem {q : TaskQueue} {caps : List String}
    {bucket : List String} {tid : String}
    (h : findFirstCompat q caps bucket = some tid) : tid ∈ bucket := by
  induction bucket with
  | nil => simp [findFirstCompat] at h
  | cons hd tl ih =>
    unfold findFirstCompat at h
    split at h
    · split at h
      · simp only [Option.some.injEq] at h
        simp [h]
      · exact List.mem_cons_of_mem _ (ih h)
    · exact List.mem_cons_of_mem _ (ih h)

theorem findByPriority_mem {q : TaskQueue} {caps : List String}
    {ps : List Int} {tid : String}
    (h : findByPriority q caps ps = some tid) :
    ∃ p bucket, lookupKey q.pending_tasks p = some bucket ∧ tid ∈ bucket := by
  induction ps with
  | nil => simp [findByPriority] at h
  | cons p ps ih =>
    unfold findByPriority at h
    split at h
    next bucket hlk =>
      split at h
      next tid2 hf =>
        simp only [Option.some.injEq] at h
        subst h
        exact ⟨p, bucket, hlk, findFirstCompat_mem hf⟩
      next hf => exact ih h
    next hlk => exact ih h

theorem find_task_mem_pendingIds {q : TaskQueue} {w : Worker} {tid : String}
    (h : q._find_task_for_worker w = some tid) : tid ∈ q.pendingIds := by
  unfold TaskQueue._find_task_for_worker at h
  split at h
  · exact absurd h (by simp)
  · obtain ⟨p, bucket, hlk, hm⟩ := findByPriority_mem h
    exact mem_flatten_map_snd.mpr ⟨(p, bucket), mem_of_lookup hlk, hm⟩

theorem claimEvol_refl (now : Nat) (t : Task) : claimEvol now t t :=
  Or.inl rfl

theorem claim_claim (t : Task) (w w2 : String) (now : Nat) :
    (t.claim w now).claim w2 now = t.claim w2 now := rfl

theorem claimEvol_trans {now : Nat} {t t2 t3 : Task}
    (h1 : claimEvol now t t2) (h2 : claimEvol now t2 t3) :
    claimEvol now t t3 := by
  rcases h1 with rfl | ⟨w, rfl⟩
  · exact h2
  · rcases h2 with rfl | ⟨w2, rfl⟩
    · exact Or.inr ⟨w, rfl⟩
    · exact Or.inr ⟨w2, claim_claim t w w2 now⟩

theorem claimEvol_retry_count {now : Nat} {t t2 : Task}
    (h : claimEvol now t t2) : t2.retry_count = t.retry_count := by
  rcases h with rfl | ⟨w, rfl⟩
  · rfl
  · rfl

theorem claimEvol_status {now : Nat} {t t2 : Task}
    (h : claimEvol now t t2) : t2.status = t.status ∨ t2.status = .claimed := by
  rcases h with rfl | ⟨w, rfl⟩
  · exact Or.inl rfl
  · exact Or.inr rfl

theorem scheduleStep_frame (now : Nat) (q : TaskQueue) (wid : String) :
    (scheduleStep now q wid).failed_tasks = q.failed_tasks ∧
    (scheduleStep now q wid).completed_tasks = q.completed_tasks ∧
    (scheduleStep now q wid).max_retries = q.max_retries := by
  unfold scheduleStep
  split
  · exact ⟨rfl, rfl, rfl⟩
  · split
    · split
      · split
        · exact ⟨by simp, by simp, by simp⟩
        · exact ⟨rfl, rfl, rfl⟩
      · exact ⟨rfl, rfl, rfl⟩
    · exact ⟨rfl, rfl, rfl⟩

theorem scheduleStep_tasks_evol {now : Nat} {q : TaskQueue} {w tid : String}
    {t : Task} (h : lookupKey q.tasks tid = some t) :
    ∃ t2, lookupKey (scheduleStep now q w).tasks tid = some t2 ∧
      claimEvol now t t2 := by
  unfold scheduleStep
  split
  · exact ⟨t, h, claimEvol_refl now t⟩
  · split
    · split
      next tid0 hf =>
        split
        next task ht =>
          by_cases heq : tid0 = tid
          · subst heq
            refine ⟨task.claim w now, ?_, ?_⟩
            · simp only [remove_pending_tasks]
              exact lookupKey_insertKey_self _ _ _
            · rw [h] at ht
              cases ht
              exact Or.inr ⟨w, rfl⟩
          · refine ⟨t, ?_, claimEvol_refl now t⟩
            simp only [remove_pending_tasks]
            rw [lookupKey_insertKey_ne _ _ _ _ (fun hh => heq hh.symm)]
            exact h
        next ht => exact ⟨t, h, claimEvol_refl now t⟩
      next hf => exact ⟨t, h, claimEvol_refl now t⟩
    · exact ⟨t, h, claimEvol_refl now t⟩

theorem scheduleFold_tasks_evol {now : Nat} (ids : List String) :
    ∀ (q : TaskQueue) (tid : String) (t : Task),
      lookupKey q.tasks tid = some t →
      ∃ t2, lookupKey ((ids.foldl (scheduleStep now) q)).tasks tid = some t2 ∧
        claimEvol now t t2 := by
  induction ids with
  | nil => intro q tid t h; exact ⟨t, h, claimEvol_refl now t⟩
  | cons hd tl ih =>
    intro q tid t h
    obtain ⟨t2, h2, he2⟩ := scheduleStep_tasks_evol (w := hd) h
    obtain ⟨t3, h3, he3⟩ := ih _ _ _ h2
    exact ⟨t3, h3, claimEvol_trans he2 he3⟩

theorem schedule_tasks_evol (now : Nat) {q : TaskQueue} {tid : String}
    {t : Task} (h : lookupKey q.tasks tid = some t) :
    ∃ t2, lookupKey (q._schedule_tasks now).tasks tid = some t2 ∧
      claimEvol now t t2 :=
  scheduleFold_tasks_evol _ q tid t h

theorem scheduleStep_pending_not_mem {now : Nat} {q : TaskQueue}
    {wid tid : String} (h : tid ∉ q.pendingIds) :
    tid ∉ (scheduleStep now q wid).pendingIds := by
  unfold scheduleStep
  split
  · exact h
  · split
    · split
      · split
        · intro hm
          simp only [pendingIds_def, remove_pending_pending] at hm
          exact h (mem_flatten_removeBucket_elim hm)
        · exact h
      · exact h
    · exact h

theorem scheduleStep_binding_of_not_queued {now : Nat} {q : TaskQueue}
    {wid tid : String} {t : Task}
    (hq : tid ∉ q.pendingIds) (h : lookupKey q.tasks tid = some t) :
    lookupKey (scheduleStep now q wid).tasks tid = some t := by
  unfold scheduleStep
  split
  · exact h
  · split
    · split
      next tid0 hf =>
        split
        next task ht =>
          have hne : tid0 ≠ tid := by
            intro hh
            subst hh
            exact hq (find_task_mem_pendingIds hf)
          simp only [remove_pending_tasks]
          rw [lookupKey_insertKey_ne _ _ _ _ (fun hh => hne hh.symm)]
          exact h
        next ht => exact h
      next hf => exact h
    · exact h

theorem scheduleStep_running_mono {now : Nat} {q : TaskQueue}
    {wid tid : String} (h : tid ∈ q.running_tasks) :
    tid ∈ (scheduleStep now q wid).running_tasks := by
  unfold scheduleStep
  split
  · exact h
  · split
    · split
      · split
        · exact mem_addUnique_of_mem (by simpa using h)
        · exact h
      · exact h
    · exact h

theorem nodup_keys_removeBucket {l : List (Int × List String)} {p : Int}
    {x : String} (h : (l.map Prod.fst).Nodup) :
    ((removeBucket l p x).map Prod.fst).Nodup := by
  unfold removeBucket
  rcases lookupKey l p with _ | bucket
  · exact h
  · by_cases hm : x ∈ bucket
    · simp only [hm, if_true]
      by_cases hb : bucket.erase x = []
      · simp only [hb, if_true]
        exact nodup_keys_eraseKey h
      · simp only [hb, if_false]
        exact nodup_keys_insertKey h
    · simpa [hm] using h

theorem scheduleStep_pending_keys_nodup {now : Nat} {q : TaskQueue}
    {wid : String} (h : (q.pending_tasks.map Prod.fst).Nodup) :
    ((scheduleStep now q wid).pending_tasks.map Prod.fst).Nodup := by
  unfold scheduleStep
  split
  · exact h
  · split
    · split
      · split
        · simp only [remove_pending_pending]
          exact nodup_keys_removeBucket h
        · exact h
      · exact h
    · exact h

theorem scheduleStep_bind_consistent {now : Nat} {q : TaskQueue}
    {wid : String}
    (hbind : ∀ e ∈ q.tasks, e.2.id = e.1) :
    ∀ e ∈ (scheduleStep now q wid).tasks, e.2.id = e.1 := by
  unfold scheduleStep
  split
  · exact hbind
  · split
    · split
      next tid0 hf =>
        split
        next task ht =>
          intro e he
          simp only [remove_pending_tasks] at he
          rcases mem_insertKey_elim he with heq | he2
          · subst heq
            exact hbind (tid0, task) (mem_of_lookup ht)
          · exact hbind e he2
        next ht => exact hbind
      next hf => exact hbind
    · exact hbind

theorem scheduleStep_pending_to_running {now : Nat} {q : TaskQueue}
    {wid tid : String}
    (hbind : ∀ e ∈ q.tasks, e.2.id = e.1)
    (hkeys : (q.pending_tasks.map Prod.fst).Nodup)
    (h : tid ∈ q.pendingIds ∨ tid ∈ q.running_tasks) :
    tid ∈ (scheduleStep now q wid).pendingIds ∨
      tid ∈ (scheduleStep now q wid).running_tasks := by
  rcases h with h | h
  · unfold scheduleStep
    split
    · exact Or.inl h
    · split
      · split
        next tid0 hf =>
          split
          next task ht =>
            have hid : task.id = tid0 := hbind (tid0, task) (mem_of_lookup ht)
            by_cases heq : tid0 = tid
            · subst heq
              exact Or.inr mem_addUnique_self
            · refine Or.inl ?_
              simp only [pendingIds_def, remove_pending_pending]
              refine mem_flatten_removeBucket_of_ne hkeys ?_
                (by simpa [pendingIds_def] using h)
              show tid ≠ (task.claim wid now).id
              intro hh
              exact heq (hid ▸ hh).symm
          next ht => exact Or.inl h
        next hf => exact Or.inl h
      · exact Or.inl h
  · exact Or.inr (scheduleStep_running_mono h)

theorem schedule_pending_to_running {now : Nat} {q : TaskQueue} {tid : String}
    (hbind : ∀ e ∈ q.tasks, e.2.id = e.1)
    (hkeys : (q.pending_tasks.map Prod.fst).Nodup)
    (h : tid ∈ q.pendingIds ∨ tid ∈ q.running_tasks) :
    tid ∈ (q._schedule_tasks now).pendingIds ∨
      tid ∈ (q._schedule_tasks now).running_tasks := by
  unfold TaskQueue._schedule_tasks
  refine (foldlPreserve (scheduleStep now)
    (fun s => ((∀ e ∈ s.tasks, e.2.id = e.1) ∧
      (s.pending_tasks.map Prod.fst).Nodup ∧
      (tid ∈ s.pendingIds ∨ tid ∈ s.running_tasks)))
    (q.workers.map Prod.fst) q ⟨hbind, hkeys, h⟩ ?_).2.2
  intro b2 a _ hb2
  exact ⟨scheduleStep_bind_consistent hb2.1,
    scheduleStep_pending_keys_nodup hb2.2.1,
    scheduleStep_pending_to_running hb2.1 hb2.2.1 hb2.2.2⟩

theorem schedule_frame (now : Nat) {q : TaskQueue} :
    (q._schedule_tasks now).failed_tasks = q.failed_tasks ∧
    (q._schedule_tasks now).completed_tasks = q.completed_tasks ∧
    (q._schedule_tasks now).max_retries = q.max_retries := by
  unfold TaskQueue._schedule_tasks
  exact foldlPreserve (scheduleStep now)
    (fun s => (s.failed_tasks = q.failed_tasks ∧
      s.completed_tasks = q.completed_tasks ∧ s.max_retries = q.max_retries))
    (q.workers.map Prod.fst) q ⟨rfl, rfl, rfl⟩
    (fun b2 a _ hb2 => by
      obtain ⟨h1, h2, h3⟩ := scheduleStep_frame now b2 a
      exact ⟨h1.trans hb2.1, h2.trans hb2.2.1, h3.trans hb2.2.2⟩)

theorem schedule_pending_not_mem {now : Nat} {q : TaskQueue} {tid : String}
    (h : tid ∉ q.pendingIds) : tid ∉ (q._schedule_tasks now).pendingIds := by
  unfold TaskQueue._schedule_tasks
  exact foldlPreserve (scheduleStep now) (fun s => tid ∉ s.pendingIds)
    (q.workers.map Prod.fst) q h
    (fun b2 a _ hb2 => scheduleStep_pending_not_mem hb2)

theorem schedule_binding_of_not_queued {now : Nat} {q : TaskQueue}
    {tid : String} {t : Task}
    (hq : tid ∉ q.pendingIds) (h : lookupKey q.tasks tid = some t) :
    lookupKey (q._schedule_tasks now).tasks tid = some t := by
  unfold TaskQueue._schedule_tasks
  exact (foldlPreserve (scheduleStep now)
    (fun s => tid ∉ s.pendingIds ∧ lookupKey s.tasks tid = some t)
    (q.workers.map Prod.fst) q ⟨hq, h⟩
    (fun b2 a _ hb2 => ⟨scheduleStep_pending_not_mem hb2.1,
      scheduleStep_binding_of_not_queued hb2.1 hb2.2⟩)).2

/-! ## Field lemmas for task transitions -/

@[simp] theorem Task.claim_id (t : Task) (w : String) (now : Nat) :
    (t.claim w now).id = t.id := rfl

@[simp] theorem Task.claim_priority (t : Task) (w : String) (now : Nat) :
    (t.claim w now).priority = t.priority := rfl

@[simp] theorem Task.claim_retry_count (t : Task) (w : String) (now : Nat) :
    (t.claim w now).retry_count = t.retry_count := rfl

@[simp] theorem Task.claim_status (t : Task) (w : String) (now : Nat) :
    (t.claim w now).status = .claimed := rfl

@[simp] theorem Task.fail_id (t : Task) (e : Option String) (now : Nat) :
    (t.fail e now).id = t.id := rfl

@[simp] theorem Task.fail_priority (t : Task) (e : Option String) (now : Nat) :
    (t.fail e now).priority = t.priority := rfl

@[simp] theorem Task.fail_retry_count (t : Task) (e : Option String) (now : Nat) :
    (t.fail e now).retry_count = t.retry_count := rfl

@[simp] theorem Task.fail_status (t : Task) (e : Option String) (now : Nat) :
    (t.fail e now).status = .failed := rfl

@[simp] theorem Task.retry_id (t : Task) : (t.retry).id = t.id := rfl

@[simp] theorem Task.retry_priority (t : Task) :
    (t.retry).priority = t.priority := rfl

@[simp] theorem Task.retry_retry_count (t : Task) :
    (t.retry).retry_count = t.retry_count + 1 := rfl

@[simp] theorem Task.retry_status (t : Task) : (t.retry).status = .pending := rfl

@[simp] theorem Task.timeout_task_id (t : Task) (now : Nat) :
    (t.timeout_task now).id = t.id := rfl

@[simp] theorem Task.timeout_task_status (t : Task) (now : Nat) :
    (t.timeout_task now).status = .timeout := rfl

@[simp] theorem Task.timeout_task_retry_count (t : Task) (now : Nat) :
    (t.timeout_task now).retry_count = t.retry_count := rfl

@[simp] theorem Task.timeout_task_claimed_by (t : Task) (now : Nat) :
    (t.timeout_task now).claimed_by = t.claimed_by := rfl

@[simp] theorem Task.cancel_id (t : Task) (now : Nat) :
    (t.cancel now).id = t.id := rfl

@[simp] theorem Task.cancel_priority (t : Task) (now : Nat) :
    (t.cancel now).priority = t.priority := rfl

@[simp] theorem Task.cancel_status (t : Task) (now : Nat) :
    (t.cancel now).status = .cancelled := rfl

@[simp] theorem Task.cancel_claimed_by (t : Task) (now : Nat) :
    (t.cancel now).claimed_by = t.claimed_by := rfl

/-! ## Claim C10 -/

/-- C10: `Task.retry` sets `status` to pending, clears `claimed_by`,
`claimed_at`, `started_at` and `completed_at`, increments `retry_count` by
one, and leaves every other field — including the previous `error` and
`result` values — unchanged. -/
theorem C10_retry_frame (t : Task) :
    (t.retry).status = TaskStatus.pending ∧
    (t.retry).claimed_by = none ∧
    (t.retry).claimed_at = none ∧
    (t.retry).started_at = none ∧
    (t.retry).completed_at = none ∧
    (t.retry).retry_count = t.retry_count + 1 ∧
    (t.retry).id = t.id ∧
    (t.retry).task_type = t.task_type ∧
    (t.retry).parameters = t.parameters ∧
    (t.retry).priority = t.priority ∧
    (t.retry).dependencies = t.dependencies ∧
    (t.retry).timeout = t.timeout ∧
    (t.retry).metadata = t.metadata ∧
    (t.retry).created_at = t.created_at ∧
    (t.retry).error = t.error ∧
    (t.retry).result = t.result :=
  ⟨rfl, rfl, rfl, rfl, rfl, rfl, rfl, rfl, rfl, rfl, rfl, rfl, rfl, rfl,
   rfl, rfl⟩

/-! ## Claim C4 -/

/-- C4 counterexample: in the reachable state `exQcomplete` (register `w`,
submit `t`, auto-claim, start, complete) the completed task still carries
`claimed_by = some "w"`: `Task.complete` never clears `claimed_by`, so the
claimed iff-invariant of the claim is false. -/
theorem C4_counterexample : ¬ claimedByInv exQcomplete := by decide

/-- C4 amended: `claim` sets `claimed_by` to the claiming worker and
`retry` is the only transition that resets it to `None`; `start`,
`complete`, `fail`, `cancel` and `timeout_task` all leave `claimed_by`
untouched, so a task that reached a terminal state still carries the last
claiming worker in `claimed_by`. -/
theorem C4_amended (t : Task) (w : String) (now : Nat)
    (r : Option (List (String × String))) (e : Option String) :
    (t.claim w now).claimed_by = some w ∧
    (t.retry).claimed_by = none ∧
    (t.start now).claimed_by = t.claimed_by ∧
    (t.complete r now).claimed_by = t.claimed_by ∧
    (t.fail e now).claimed_by = t.claimed_by ∧
    (t.cancel now).claimed_by = t.claimed_by ∧
    (t.timeout_task now).claimed_by = t.claimed_by :=
  ⟨rfl, rfl, rfl, rfl, rfl, rfl, rfl⟩

/-! ## Timeout-scan lemmas (claim C3) -/

@[simp] theorem timeoutStep_pending (now : Nat) (q : TaskQueue) (a : String) :
    (timeoutStep now q a).pending_tasks = q.pending_tasks := by
  unfold timeoutStep
  split
  · rfl
  · split
    · rfl
    · split
      · dsimp only
        split
        · split
          · rfl
          · rfl
        · rfl
      · rfl

theorem timeoutStep_binding_other {now : Nat} {q : TaskQueue} {a tid : String}
    {t : Task} (hne : a ≠ tid) (h : lookupKey q.tasks tid = some t) :
    lookupKey (timeoutStep now q a).tasks tid = some t := by
  unfold timeoutStep
  split
  · exact h
  · split
    · exact h
    · split
      · dsimp only
        split
        · split
          · rw [lookupKey_insertKey_ne _ _ _ _ (fun hh => hne hh.symm)]
            exact h
          · rw [lookupKey_insertKey_ne _ _ _ _ (fun hh => hne hh.symm)]
            exact h
        · rw [lookupKey_insertKey_ne _ _ _ _ (fun hh => hne hh.symm)]
          exact h
      · exact h

theorem timeoutStep_failed_mono {now : Nat} {q : TaskQueue} {a tid : String}
    (h : tid ∈ q.failed_tasks) : tid ∈ (timeoutStep now q a).failed_tasks := by
  unfold timeoutStep
  split
  · exact h
  · split
    · exact h
    · split
      · dsimp only
        split
        · split
          · exact mem_addUnique_of_mem h
          · exact mem_addUnique_of_mem h
        · exact mem_addUnique_of_mem h
      · exact h

theorem timeoutStep_not_running {now : Nat} {q : TaskQueue} {a tid : String}
    (h : tid ∉ q.running_tasks) : tid ∉ (timeoutStep now q a).running_tasks := by
  unfold timeoutStep
  split
  · exact h
  · split
    · exact h
    · split
      · dsimp only
        split
        · split
          · intro hm
            exact h (List.mem_of_mem_erase hm)
          · intro hm
            exact h (List.mem_of_mem_erase hm)
        · intro hm
          exact h (List.mem_of_mem_erase hm)
      · exact h

theorem timeoutStep_running_nodup {now : Nat} {q : TaskQueue} {a : String}
    (h : q.running_tasks.Nodup) : (timeoutStep now q a).running_tasks.Nodup := by
  unfold timeoutStep
  split
  · exact h
  · split
    · exact h
    · split
      · dsimp only
        split
        · split
          · exact h.erase _
          · exact h.erase _
        · exact h.erase _
      · exact h

theorem timeoutStep_self {now : Nat} {q : TaskQueue} {tid : String} {t : Task}
    {st : Nat}
    (hlk : lookupKey q.tasks tid = some t)
    (hst : t.started_at = some st)
    (hto : now - st > t.timeout)
    (hnd : q.running_tasks.Nodup) :
    lookupKey (timeoutStep now q tid).tasks tid = some (t.timeout_task now) ∧
    tid ∉ (timeoutStep now q tid).running_tasks ∧
    tid ∈ (timeoutStep now q tid).failed_tasks := by
  unfold timeoutStep
  rw [hlk]
  simp only [hst]
  rw [if_pos hto]
  have hbase :
      lookupKey (insertKey q.tasks tid (t.timeout_task now)) tid =
        some (t.timeout_task now) := lookupKey_insertKey_self _ _ _
  have hrun : tid ∉ q.running_tasks.erase tid := hnd.not_mem_erase
  have hfl : tid ∈ addUnique q.failed_tasks tid := mem_addUnique_self
  split
  · split
    · exact ⟨hbase, hrun, hfl⟩
    · exact ⟨hbase, hrun, hfl⟩
  · exact ⟨hbase, hrun, hfl⟩

theorem timeoutFold_after (now : Nat) (l : List String) :
    ∀ (q : TaskQueue) (tid : String) (t : Task), tid ∉ l →
      lookupKey q.tasks tid = some t →
      tid ∉ q.running_tasks →
      tid ∈ q.failed_tasks →
      lookupKey ((l.foldl (timeoutStep now) q)).tasks tid = some t ∧
      tid ∉ (l.foldl (timeoutStep now) q).running_tasks ∧
      tid ∈ (l.foldl (timeoutStep now) q).failed_tasks ∧
      (l.foldl (timeoutStep now) q).pending_tasks = q.pending_tasks := by
  induction l with
  | nil => intro q tid t _ h1 h2 h3; exact ⟨h1, h2, h3, rfl⟩
  | cons hd tl ih =>
    intro q tid t hnl h1 h2 h3
    have hne : hd ≠ tid := fun hh => hnl (by simp [hh])
    have := ih (timeoutStep now q hd) tid t
      (fun hh => hnl (List.mem_cons_of_mem _ hh))
      (timeoutStep_binding_other hne h1)
      (timeoutStep_not_running h2)
      (timeoutStep_failed_mono h3)
    exact ⟨this.1, this.2.1, this.2.2.1,
      this.2.2.2.trans (timeoutStep_pending now q hd)⟩

theorem timeoutFold_before (now : Nat) (l : List String) :
    ∀ (q : TaskQueue) (tid : String) (t : Task), tid ∉ l →
      lookupKey q.tasks tid = some t →
      q.running_tasks.Nodup →
      lookupKey ((l.foldl (timeoutStep now) q)).tasks tid = some t ∧
      (l.foldl (timeoutStep now) q).running_tasks.Nodup ∧
      (l.foldl (timeoutStep now) q).pending_tasks = q.pending_tasks := by
  induction l with
  | nil => intro q tid t _ h1 h2; exact ⟨h1, h2, rfl⟩
  | cons hd tl ih =>
    intro q tid t hnl h1 h2
    have hne : hd ≠ tid := fun hh => hnl (by simp [hh])
    have := ih (timeoutStep now q hd) tid t
      (fun hh => hnl (List.mem_cons_of_mem _ hh))
      (timeoutStep_binding_other hne h1)
      (timeoutStep_running_nodup h2)
    exact ⟨this.1, this.2.1, this.2.2.trans (timeoutStep_pending now q hd)⟩

/-! ## Claim C3 -/

/-- C3 counterexample: in the reachable state `exQs` the running task `t`
has `retry_count = 0 < max_retries = 3`, yet after the timeout scan
(`exQtimeout`) it is in status `timeout` with `retry_count` still `0`, sits
in `failed_tasks`, and is not re-queued: the scan performs no retry
accounting at all, contradicting the claimed parity with `fail_task`. -/
theorem C3_counterexample :
    exQs.max_retries = 3 ∧
    (lookupKey exQs.tasks "t").map Task.retry_count = some 0 ∧
    (lookupKey exQtimeout.tasks "t").map
        (fun t => (t.status, t.retry_count)) =
      some (TaskStatus.timeout, 0) ∧
    "t" ∉ exQtimeout.pendingIds ∧
    "t" ∈ exQtimeout.failed_tasks := by decide

/-- C3 amended: when the monitor scan finds a running task whose elapsed
time since `started_at` exceeds its timeout, the task transitions to status
`timeout` and is unconditionally terminal: it is moved from the running set
into `failed_tasks`, its `retry_count` is unchanged, and the pending queue
is untouched (no retry is attempted regardless of `retry_count`). -/
theorem C3_amended (q : TaskQueue) (tid : String) (task : Task)
    (st now : Nat)
    (hmem : tid ∈ q.running_tasks)
    (hnd : q.running_tasks.Nodup)
    (hlk : lookupKey q.tasks tid = some task)
    (hst : task.started_at = some st)
    (hto : now - st > task.timeout) :
    lookupKey (q._check_task_timeouts now).tasks tid =
      some (task.timeout_task now) ∧
    (task.timeout_task now).status = TaskStatus.timeout ∧
    (task.timeout_task now).retry_count = task.retry_count ∧
    tid ∈ (q._check_task_timeouts now).failed_tasks ∧
    tid ∉ (q._check_task_timeouts now).running_tasks ∧
    (q._check_task_timeouts now).pending_tasks = q.pending_tasks := by
  obtain ⟨l1, l2, hsplit⟩ := List.append_of_mem hmem
  have hnd2 := hnd
  rw [hsplit, List.nodup_append] at hnd2
  have hn1 : tid ∉ l1 := fun hh => hnd2.2.2 hh (List.mem_cons_self _ _)
  have hn2 : tid ∉ l2 := by
    have := hnd2.2.1
    rw [List.nodup_cons] at this
    exact this.1
  have hfold : q._check_task_timeouts now =
      l2.foldl (timeoutStep now)
        (timeoutStep now (l1.foldl (timeoutStep now) q) tid) := by
    unfold TaskQueue._check_task_timeouts
    rw [hsplit, List.foldl_append, List.foldl_cons]
  have phase1 := timeoutFold_before now l1 q tid task hn1 hlk hnd
  have step := timeoutStep_self (q := l1.foldl (timeoutStep now) q)
    phase1.1 hst hto phase1.2.1
  have phase3 := timeoutFold_after now l2
    (timeoutStep now (l1.foldl (timeoutStep now) q) tid) tid
    (task.timeout_task now) hn2 step.1 step.2.1 step.2.2
  rw [hfold]
  refine ⟨phase3.1, rfl, rfl, phase3.2.2.1, phase3.2.1, ?_⟩
  rw [phase3.2.2.2, timeoutStep_pending, phase1.2.2]

/-- C3 witness: the amended theorem applied to the concrete state `exQs`
(task `t` running since time 1 with timeout 3600, scan at time 99999). -/
theorem C3_witness :
    lookupKey (exQs._check_task_timeouts 99999).tasks "t" =
      some (((lookupKey exQs.tasks "t").getD dfltTask).timeout_task 99999) ∧
    "t" ∈ (exQs._check_task_timeouts 99999).failed_tasks ∧
    "t" ∉ (exQs._check_task_timeouts 99999).running_tasks := by
  have h := C3_amended exQs "t" ((lookupKey exQs.tasks "t").getD dfltTask)
    1 99999 (by decide) (by decide) (by decide) (by decide) (by decide)
  exact ⟨h.1, h.2.2.2.1, h.2.2.2.2.1⟩

/-! ## Claim C7 -/

/-- C7 counterexample: `t` is in the terminal status `timeout` in the
reachable state `exQtimeout`, yet `cancel_task` succeeds and re-marks it
`cancelled` — the guard in the source checks only `completed` and
`failed`, so the claimed rejection of every terminal status is false. -/
theorem C7_counterexample :
    (lookupKey exQtimeout.tasks "t").map Task.status =
      some TaskStatus.timeout ∧
    (exQtimeout.cancel_task "t" 100000).toOption.map
        (fun q2 => (lookupKey q2.tasks "t").map Task.status) =
      some (some TaskStatus.cancelled) := by decide

/-- C7 amended: `cancel_task` raises exactly when the task status is
`completed` or `failed` (leaving the state untouched); for every other
status — including the terminal `cancelled` and `timeout` — it succeeds,
re-binds the task to `Task.cancel` (status `cancelled`), drops the id from
the running set, and when the task was not running removes it from its
pending-queue bucket. -/
theorem C7_amended (q : TaskQueue) (tid : String) (task : Task) (now : Nat)
    (hlk : lookupKey q.tasks tid = some task)
    (hid : task.id = tid)
    (hnr : q.running_tasks.Nodup) :
    ((task.status = TaskStatus.completed ∨ task.status = TaskStatus.failed) →
      q.cancel_task tid now =
        .error (.queueError "cannot cancel task in this status")) ∧
    (¬ (task.status = TaskStatus.completed ∨
        task.status = TaskStatus.failed) →
      ∃ q2, q.cancel_task tid now = .ok q2 ∧
        lookupKey q2.tasks tid = some (task.cancel now) ∧
        (task.cancel now).status = TaskStatus.cancelled ∧
        tid ∉ q2.running_tasks ∧
        (tid ∈ q.running_tasks → q2.pending_tasks = q.pending_tasks) ∧
        (tid ∉ q.running_tasks →
          q2.pending_tasks = removeBucket q.pending_tasks task.priority tid)) := by
  constructor
  · intro hg
    unfold TaskQueue.cancel_task
    simp only [hlk]
    rw [if_pos hg]
  · intro hg
    unfold TaskQueue.cancel_task
    simp only [hlk]
    rw [if_neg hg]
    by_cases hrun : tid ∈ q.running_tasks
    · rw [if_pos (show tid ∈ (TaskQueue.mk q.max_retries q.default_timeout
        q.worker_timeout (insertKey q.tasks tid (task.cancel now))
        q.pending_tasks q.running_tasks q.completed_tasks q.failed_tasks
        q.workers q.worker_by_capability q.metrics).running_tasks from hrun)]
      have hbase : lookupKey (insertKey q.tasks tid (task.cancel now)) tid =
          some (task.cancel now) := lookupKey_insertKey_self _ _ _
      have hner : tid ∉ q.running_tasks.erase tid := hnr.not_mem_erase
      split
      · split
        · exact ⟨_, rfl, hbase, rfl, hner,
            fun _ => rfl, fun hh => absurd hrun hh⟩
        · exact ⟨_, rfl, hbase, rfl, hner,
            fun _ => rfl, fun hh => absurd hrun hh⟩
      · exact ⟨_, rfl, hbase, rfl, hner,
          fun _ => rfl, fun hh => absurd hrun hh⟩
    · rw [if_neg (show ¬ tid ∈ (TaskQueue.mk q.max_retries q.default_timeout
        q.worker_timeout (insertKey q.tasks tid (task.cancel now))
        q.pending_tasks q.running_tasks q.completed_tasks q.failed_tasks
        q.workers q.worker_by_capability q.metrics).running_tasks from hrun)]
      refine ⟨_, rfl, ?_, rfl, hrun, fun hh => absurd hh hrun, fun _ => ?_⟩
      · simp only [remove_pending_tasks]
        exact lookupKey_insertKey_self _ _ _
      · simp only [remove_pending_pending]
        rw [show (task.cancel now).priority = task.priority from rfl,
          show (task.cancel now).id = task.id from rfl, hid]

/-- C7 witness: the amended theorem applied to the running task `t` in the
concrete state `exQs`: cancelling a non-terminal task succeeds and marks it
cancelled. -/
theorem C7_witness :
    ∃ q2, exQs.cancel_task "t" 9 = .ok q2 ∧
      lookupKey q2.tasks "t" =
        some (((lookupKey exQs.tasks "t").getD dfltTask).cancel 9) ∧
      "t" ∉ q2.running_tasks := by
  have h := (C7_amended exQs "t" ((lookupKey exQs.tasks "t").getD dfltTask)
    9 (by decide) (by decide) (by decide)).2 (by decide)
  obtain ⟨q2, h1, h2, _, h4, _⟩ := h
  exact ⟨q2, h1, h2, h4⟩

/-! ## Claim C1 -/

/-- Composite post-condition of a scheduling pass for a task that is in the
pending queue when the pass starts. -/
theorem schedule_post (q : TaskQueue) (tid : String) (t : Task) (now : Nat)
    (hlk : lookupKey q.tasks tid = some t)
    (hbind : ∀ p ∈ q.tasks, p.2.id = p.1)
    (hkeys : (q.pending_tasks.map Prod.fst).Nodup)
    (hmem : tid ∈ q.pendingIds) :
    ∃ t2, lookupKey (q._schedule_tasks now).tasks tid = some t2 ∧
      t2.retry_count = t.retry_count ∧
      (t2.status = t.status ∨ t2.status = TaskStatus.claimed) ∧
      (tid ∈ (q._schedule_tasks now).pendingIds ∨
        tid ∈ (q._schedule_tasks now).running_tasks) := by
  obtain ⟨t2, ht2, hev⟩ := schedule_tasks_evol now hlk
  exact ⟨t2, ht2, claimEvol_retry_count hev, claimEvol_status hev,
    schedule_pending_to_running hbind hkeys (Or.inl hmem)⟩

/-- C1 counterexample: in the reachable state `exQb` (worker `w` holds the
claimed task `t`, `retry_count = 0 < max_retries = 3`), `fail_task` with
`retry = true` does run the retry branch, but its closing
`_schedule_tasks` pass immediately re-assigns the task to `w`: on return
the task is `claimed` (with `retry_count = 1`) and is not in the pending
queue, contradicting the claimed post-state `pending` / re-queued. -/
theorem C1_counterexample :
    exQb.max_retries = 3 ∧
    (lookupKey exQb.tasks "t").map
        (fun t => (t.retry_count, t.claimed_by)) = some (0, some "w") ∧
    (exQb.fail_task "w" "t" (some "boom") true 2).toOption.map
        (fun q2 => (lookupKey q2.tasks "t").map
          (fun t => (t.status, t.retry_count))) =
      some (some (TaskStatus.claimed, 1)) ∧
    (exQb.fail_task "w" "t" (some "boom") true 2).toOption.map
        (fun q2 => decide ("t" ∈ q2.pendingIds)) = some false := by decide

/-- Retry branch of `fail_task` (helper for claim C1). -/
theorem failTask_retry_branch (q : TaskQueue) (wid tid : String) (task : Task)
    (e : Option String) (now : Nat)
    (hlk : lookupKey q.tasks tid = some task)
    (hid : task.id = tid)
    (hwk : ∃ w, lookupKey q.workers wid = some w)
    (hcl : task.claimed_by = some wid)
    (hrun : tid ∈ q.running_tasks)
    (hbind : ∀ p ∈ q.tasks, p.2.id = p.1)
    (hkeys : (q.pending_tasks.map Prod.fst).Nodup)
    (hrc : task.retry_count < q.max_retries) :
    ∃ q2, q.fail_task wid tid e true now = .ok q2 ∧
      ∃ t2, lookupKey q2.tasks tid = some t2 ∧
        t2.retry_count = task.retry_count + 1 ∧
        (t2.status = TaskStatus.pending ∨ t2.status = TaskStatus.claimed) ∧
        (tid ∈ q2.pendingIds ∨ tid ∈ q2.running_tasks) := by
  obtain ⟨w, hwk⟩ := hwk
  unfold TaskQueue.fail_task
  simp only [hlk, hwk]
  rw [if_neg (by simp [hcl])]
  rw [if_pos (show tid ∈ q.running_tasks from hrun)]
  rw [if_pos (show True ∧ (task.fail e now).retry_count <
    q.max_retries from ⟨trivial, by simpa using hrc⟩)]
  refine ⟨_, rfl, ?_⟩
  refine schedule_post _ tid ((task.fail e now).retry) now
    (lookupKey_insertKey_self _ _ _) ?_ ?_ ?_
  · intro p hp
    rcases mem_insertKey_elim hp with heq | hp2
    · rw [heq]
      exact hid
    · rcases mem_insertKey_elim hp2 with heq2 | hp3
      · rw [heq2]
        exact hid
      · exact hbind p hp3
  · exact nodup_keys_insertKey hkeys
  · simp only [pendingIds_def, add_pending_pending]
    exact mem_flatten_addBucket.mpr (Or.inr hid.symm)

/-- Terminal branch of `fail_task` (helper for claim C1). -/
theorem failTask_terminal_branch (q : TaskQueue) (wid tid : String) (task : Task)
    (e : Option String) (retry : Bool) (now : Nat)
    (hlk : lookupKey q.tasks tid = some task)
    (hwk : ∃ w, lookupKey q.workers wid = some w)
    (hcl : task.claimed_by = some wid)
    (hrun : tid ∈ q.running_tasks)
    (hnp : tid ∉ q.pendingIds)
    (hterm : ¬ (retry = true ∧ task.retry_count < q.max_retries)) :
    ∃ q2, q.fail_task wid tid e retry now = .ok q2 ∧
      lookupKey q2.tasks tid = some (task.fail e now) ∧
      (task.fail e now).status = TaskStatus.failed ∧
      (task.fail e now).retry_count = task.retry_count ∧
      tid ∈ q2.failed_tasks ∧
      tid ∉ q2.pendingIds := by
  obtain ⟨w, hwk⟩ := hwk
  unfold TaskQueue.fail_task
  simp only [hlk, hwk]
  rw [if_neg (by simp [hcl])]
  rw [if_pos (show tid ∈ q.running_tasks from hrun)]
  rw [if_neg (show ¬ (retry = true ∧ (task.fail e now).retry_count <
    q.max_retries) from by simpa using hterm)]
  refine ⟨_, rfl, ?_, rfl, rfl, ?_, ?_⟩
  · exact schedule_binding_of_not_queued hnp (lookupKey_insertKey_self _ _ _)
  · have hmem : tid ∈ addUnique q.failed_tasks tid := mem_addUnique_self
    have hfr := (schedule_frame now
      (q := { q with
        tasks := insertKey q.tasks tid (task.fail e now),
        workers := insertKey q.workers wid (w.release_task tid false now),
        running_tasks := q.running_tasks.erase tid,
        failed_tasks := addUnique q.failed_tasks tid,
        metrics := { q.metrics with
          tasks_failed := q.metrics.tasks_failed + 1 } })).1
    rw [hfr]
    exact hmem
  · exact schedule_pending_not_mem hnp

/-- Iterated accounting of four successive failures (helper for C1). -/
theorem fail4_accounting :
    (lookupKey exQfail4.tasks "t").map
        (fun t => (t.status, t.retry_count)) =
      some (TaskStatus.failed, 3) ∧
    "t" ∈ exQfail4.failed_tasks ∧
    "t" ∉ exQfail4.pendingIds ∧
    exQfail4.max_retries = 3 := by decide

/-- C1 amended: three parts.
Retry branch: `fail_task` with `retry = true` and
`retry_count < max_retries` increments `retry_count` by one, resets the
task to pending and re-pushes it to the pending queue, after which the
operation's closing scheduling pass may immediately re-claim it: on return
the task is `pending` or `claimed` and sits in the pending queue or the
running set.
Terminal branch: without `retry`, or with retries exhausted, the task ends
in status `failed` with `retry_count` unchanged, is added to
`failed_tasks`, and is not re-queued.
Third part, concrete iterated accounting with the default configuration
(`max_retries = 3`): after `max_retries + 1 = 4` failures the task is
terminally `failed` with `retry_count = max_retries`, in `failed_tasks`
and not queued. -/
theorem C1_amended :
    (∀ (q : TaskQueue) (wid tid : String) (task : Task) (e : Option String)
        (now : Nat),
      lookupKey q.tasks tid = some task → task.id = tid →
      (∃ w, lookupKey q.workers wid = some w) →
      task.claimed_by = some wid → tid ∈ q.running_tasks →
      (∀ p ∈ q.tasks, p.2.id = p.1) →
      (q.pending_tasks.map Prod.fst).Nodup →
      task.retry_count < q.max_retries →
      ∃ q2, q.fail_task wid tid e true now = .ok q2 ∧
        ∃ t2, lookupKey q2.tasks tid = some t2 ∧
          t2.retry_count = task.retry_count + 1 ∧
          (t2.status = TaskStatus.pending ∨
            t2.status = TaskStatus.claimed) ∧
          (tid ∈ q2.pendingIds ∨ tid ∈ q2.running_tasks)) ∧
    (∀ (q : TaskQueue) (wid tid : String) (task : Task) (e : Option String)
        (retry : Bool) (now : Nat),
      lookupKey q.tasks tid = some task →
      (∃ w, lookupKey q.workers wid = some w) →
      task.claimed_by = some wid → tid ∈ q.running_tasks →
      tid ∉ q.pendingIds →
      ¬ (retry = true ∧ task.retry_count < q.max_retries) →
      ∃ q2, q.fail_task wid tid e retry now = .ok q2 ∧
        lookupKey q2.tasks tid = some (task.fail e now) ∧
        (task.fail e now).status = TaskStatus.failed ∧
        (task.fail e now).retry_count = task.retry_count ∧
        tid ∈ q2.failed_tasks ∧
        tid ∉ q2.pendingIds) ∧
    ((lookupKey exQfail4.tasks "t").map
        (fun t => (t.status, t.retry_count)) =
      some (TaskStatus.failed, 3) ∧
    "t" ∈ exQfail4.failed_tasks ∧
    "t" ∉ exQfail4.pendingIds ∧
    exQfail4.max_retries = 3) :=
  ⟨fun q wid tid task e now h1 h2 h3 h4 h5 h6 h7 h8 =>
    failTask_retry_branch q wid tid task e now h1 h2 h3 h4 h5 h6 h7 h8,
   fun q wid tid task e retry now h1 h2 h3 h4 h5 h6 =>
    failTask_terminal_branch q wid tid task e retry now h1 h2 h3 h4 h5 h6,
   fail4_accounting⟩

/-- C1 witness: both branches of the amended claim applied at concrete
states — the retry branch at `exQb` (first failure, `retry_count` becomes
1) and the terminal branch at the state after three failures. -/
theorem C1_witness :
    (∃ q2, exQb.fail_task "w" "t" (some "boom") true 2 = .ok q2 ∧
      ∃ t2, lookupKey q2.tasks "t" = some t2 ∧
        t2.retry_count = 0 + 1 ∧
        (t2.status = TaskStatus.pending ∨ t2.status = TaskStatus.claimed) ∧
        ("t" ∈ q2.pendingIds ∨ "t" ∈ q2.running_tasks)) ∧
    (∃ q2, (failOnce (failOnce (failOnce exQb 2) 3) 4).fail_task
        "w" "t" (some "boom") true 5 = .ok q2 ∧
      lookupKey q2.tasks "t" =
        some (((lookupKey (failOnce (failOnce (failOnce exQb 2) 3) 4).tasks
          "t").getD dfltTask).fail (some "boom") 5) ∧
      "t" ∈ q2.failed_tasks ∧ "t" ∉ q2.pendingIds) := by
  constructor
  · have h := C1_amended.1 exQb "w" "t"
      ((lookupKey exQb.tasks "t").getD dfltTask) (some "boom") 2
      (by decide) (by decide) ⟨(lookupKey exQb.workers "w").getD
        (Worker.mk_new (some "w") [] 1 [] 30 "g" 0), by decide⟩
      (by decide) (by decide) (by decide) (by decide) (by decide)
    obtain ⟨q2, h1, t2, h2, h3, h4, h5⟩ := h
    exact ⟨q2, h1, t2, h2, h3, h4, h5⟩
  · have h := C1_amended.2.1 (failOnce (failOnce (failOnce exQb 2) 3) 4)
      "w" "t"
      ((lookupKey (failOnce (failOnce (failOnce exQb 2) 3) 4).tasks
        "t").getD dfltTask) (some "boom") true 5
      (by decide) ⟨(lookupKey (failOnce (failOnce (failOnce exQb 2) 3)
        4).workers "w").getD (Worker.mk_new (some "w") [] 1 [] 30 "g" 0),
        by decide⟩
      (by decide) (by decide) (by decide) (by decide)
    obtain ⟨q2, h1, h2, _, _, h5, h6⟩ := h
    exact ⟨q2, h1, h2, h5, h6⟩

/-! ## Claim C9 -/

/-- A worker-initiated claim on a queue with an empty pending dictionary
returns no task and leaves the state unchanged (helper for C9). -/
theorem claim_none_of_pending_nil (q : TaskQueue) (wid : String) (W : Worker)
    (now : Nat)
    (hw : lookupKey q.workers wid = some W)
    (hpend : q.pending_tasks = []) :
    q.claim_task wid now = .ok (none, q) := by
  unfold TaskQueue.claim_task
  simp only [hw]
  by_cases hcap : W.has_capacity
  · rw [if_neg (by simp [hcap])]
    have hf : q._find_task_for_worker W = none := by
      unfold TaskQueue._find_task_for_worker
      split
      · rfl
      · rw [hpend]
        rfl
    simp only [hf]
  · rw [if_pos (by simpa using hcap)]

/-- C9: concurrent claims serialize through the task and worker locks of
`claim_task`, so the observable outcome of two workers racing for the single
pending task `tid` is one of the two sequential orders; quantifying over the
distinct worker ids `w1`, `w2` covers both orders.  The first claim wins:
it returns the task, sets `claimed_by = w1`, removes `tid` from the pending
queue and adds it to the running set; the second claim then finds no task
and returns `none` without touching the state — the task is never assigned
to both workers (`w2` keeps its unchanged task set, without `tid`). -/
theorem C9_at_most_one_claimant (q : TaskQueue) (w1 w2 tid : String)
    (W1 W2 : Worker) (t : Task) (p : Int) (now now2 : Nat)
    (hne : w1 ≠ w2)
    (hw1 : lookupKey q.workers w1 = some W1)
    (hw2 : lookupKey q.workers w2 = some W2)
    (hcap1 : W1.has_capacity = true) (hst1 : W1.status = WorkerStatus.online)
    (hpend : q.pending_tasks = [(p, [tid])])
    (hlk : lookupKey q.tasks tid = some t)
    (hid : t.id = tid)
    (hpr : t.priority = p)
    (hc1 : W1.capabilities = [] ∨ t.task_type ∈ W1.capabilities)
    (hnw2 : tid ∉ W2.current_tasks) :
    ∃ q1, q.claim_task w1 now = .ok (some (t.claim w1 now), q1) ∧
      q1.claim_task w2 now2 = .ok (none, q1) ∧
      lookupKey q1.tasks tid = some (t.claim w1 now) ∧
      (t.claim w1 now).claimed_by = some w1 ∧
      tid ∉ q1.pendingIds ∧
      tid ∈ q1.running_tasks ∧
      lookupKey q1.workers w2 = some W2 ∧
      tid ∉ W2.current_tasks := by
  have hlkp : lookupKey q.pending_tasks p = some [tid] := by
    rw [hpend]
    simp [lookupKey]
  have hf1 : q._find_task_for_worker W1 = some tid := by
    unfold TaskQueue._find_task_for_worker
    rw [if_neg (show ¬ (¬ W1.has_capacity = true ∨
      (W1.status ≠ WorkerStatus.online ∧ W1.status ≠ WorkerStatus.busy))
      from by simp [hcap1, hst1])]
    have hsd : sortDesc (q.pending_tasks.map Prod.fst) = [p] := by
      rw [hpend]
      rfl
    rw [hsd]
    unfold findByPriority
    rw [hlkp]
    dsimp only
    unfold findFirstCompat
    rw [hlk]
    dsimp only
    rw [if_pos hc1]
  have hq1pend : removeBucket q.pending_tasks (t.claim w1 now).priority
      (t.claim w1 now).id = [] := by
    rw [hpend]
    have h1 : (t.claim w1 now).priority = p := by
      rw [Task.claim_priority, hpr]
    have h2 : (t.claim w1 now).id = tid := by
      rw [Task.claim_id, hid]
    rw [h1, h2]
    simp [removeBucket, lookupKey, eraseKey]
  unfold TaskQueue.claim_task
  simp only [hw1]
  rw [if_neg (by simp [hcap1])]
  simp only [hf1, hlk]
  refine ⟨_, rfl, ?_, ?_, rfl, ?_, ?_, ?_, hnw2⟩
  · refine claim_none_of_pending_nil _ w2 W2 now2 ?_ ?_
    · exact (lookupKey_insertKey_ne q.workers w1 w2 _
        (fun hh => hne hh.symm)).trans hw2
    · exact hq1pend
  · exact lookupKey_insertKey_self _ _ _
  · simp only [pendingIds_def, remove_pending_pending]
    rw [hq1pend]
    simp
  · exact mem_addUnique_self
  · exact (lookupKey_insertKey_ne q.workers w1 w2 _
      (fun hh => hne hh.symm)).trans hw2

/-- C9 witness: the theorem applied to the concrete race state `exC9`:
`w1` claims the single pending task `t`, `w2` then gets `none`. -/
theorem C9_witness :
    ∃ q1, exC9.claim_task "w1" 10 =
        .ok (some (((lookupKey exC9.tasks "t").getD dfltTask).claim "w1" 10),
          q1) ∧
      q1.claim_task "w2" 11 = .ok (none, q1) ∧
      lookupKey q1.tasks "t" =
        some (((lookupKey exC9.tasks "t").getD dfltTask).claim "w1" 10) ∧
      "t" ∉ q1.pendingIds ∧
      "t" ∈ q1.running_tasks := by
  have h := C9_at_most_one_claimant exC9 "w1" "w2" "t"
    ((lookupKey exC9.workers "w1").getD (Worker.mk_new (some "w1") [] 1 [] 30 "g" 0))
    ((lookupKey exC9.workers "w2").getD (Worker.mk_new (some "w2") [] 1 [] 30 "g" 0))
    ((lookupKey exC9.tasks "t").getD dfltTask) 0 10 11
    (by decide) (by decide) (by decide) (by decide) (by decide) (by decide)
    (by decide) (by decide) (by decide) (by decide) (by decide)
  obtain ⟨q1, h1, h2, h3, _, h5, h6, _, _⟩ := h
  exact ⟨q1, h1, h2, h3, h5, h6⟩

/-! ## Dead-worker scan lemmas (claim C8) -/

theorem failDead_workers_eq (now : Nat) (q : TaskQueue) (a : String) :
    (failDeadTask now q a).workers = q.workers := by
  unfold failDeadTask
  split
  · rfl
  · dsimp only
    split <;> split <;> rfl

theorem failDead_max (now : Nat) (q : TaskQueue) (a : String) :
    (failDeadTask now q a).max_retries = q.max_retries := by
  unfold failDeadTask
  split
  · rfl
  · dsimp only
    split <;> split <;> rfl

theorem failDead_running_nodup {now : Nat} {q : TaskQueue} {a : String}
    (h : q.running_tasks.Nodup) : (failDeadTask now q a).running_tasks.Nodup := by
  unfold failDeadTask
  split
  · exact h
  · dsimp only
    split <;> split <;>
      first
      | exact h
      | exact h.erase _

theorem failDead_binding_other {now : Nat} {q : TaskQueue} {a tid : String}
    (hne : a ≠ tid) :
    lookupKey (failDeadTask now q a).tasks tid = lookupKey q.tasks tid := by
  have hne2 : tid ≠ a := fun hh => hne hh.symm
  have H : ∀ (l : List (String × Task)) (v : Task),
      lookupKey (insertKey l a v) tid = lookupKey l tid :=
    fun l v => lookupKey_insertKey_ne l a tid v hne2
  unfold failDeadTask
  split
  · rfl
  · dsimp only
    split <;> split <;> simp only [add_pending_tasks, H]

theorem failDead_pending_mono {now : Nat} {q : TaskQueue} {a tid : String}
    (h : tid ∈ q.pendingIds) : tid ∈ (failDeadTask now q a).pendingIds := by
  unfold failDeadTask
  split
  · exact h
  · dsimp only
    split <;> split <;>
      first
      | exact h
      | · simp only [pendingIds_def, add_pending_pending]
          exact mem_flatten_addBucket.mpr (Or.inl h)

theorem failDead_failed_mono {now : Nat} {q : TaskQueue} {a tid : String}
    (h : tid ∈ q.failed_tasks) : tid ∈ (failDeadTask now q a).failed_tasks := by
  unfold failDeadTask
  split
  · exact h
  · dsimp only
    split <;> split <;>
      first
      | exact h
      | exact mem_addUnique_of_mem h

theorem failDead_not_running {now : Nat} {q : TaskQueue} {a tid : String}
    (h : tid ∉ q.running_tasks) : tid ∉ (failDeadTask now q a).running_tasks := by
  unfold failDeadTask
  split
  · exact h
  · dsimp only
    split <;> split <;>
      first
      | exact h
      | · intro hm
          exact h (List.mem_of_mem_erase hm)

theorem failDead_self {now : Nat} {q : TaskQueue} {a : String} {task : Task}
    (hlk : lookupKey q.tasks a = some task)
    (hid : task.id = a)
    (hrnd : q.running_tasks.Nodup) :
    ∃ t2, lookupKey (failDeadTask now q a).tasks a = some t2 ∧
      t2.status ≠ TaskStatus.claimed ∧ t2.status ≠ TaskStatus.running ∧
      a ∉ (failDeadTask now q a).running_tasks ∧
      ((task.retry_count < q.max_retries ∧ t2.status = TaskStatus.pending ∧
        t2.retry_count = task.retry_count + 1 ∧
        a ∈ (failDeadTask now q a).pendingIds) ∨
       (¬ task.retry_count < q.max_retries ∧
        t2.status = TaskStatus.failed ∧
        t2.retry_count = task.retry_count ∧
        a ∈ (failDeadTask now q a).failed_tasks)) := by
  unfold failDeadTask
  rw [hlk]
  dsimp only
  by_cases hmem : a ∈ q.running_tasks
  · rw [if_pos hmem]
    by_cases hrc : task.retry_count < q.max_retries
    · rw [if_pos (show (task.fail (some "Worker died during task execution")
        now).retry_count < q.max_retries from by simpa using hrc)]
      refine ⟨(task.fail (some "Worker died during task execution")
          now).retry, ?_, by simp, by simp, ?_,
        Or.inl ⟨hrc, by simp, by simp, ?_⟩⟩
      · simp only [add_pending_tasks]
        exact lookupKey_insertKey_self _ _ _
      · simp only [add_pending_running]
        exact hrnd.not_mem_erase
      · simp only [pendingIds_def, add_pending_pending]
        exact mem_flatten_addBucket.mpr (Or.inr (by simp [hid]))
    · rw [if_neg (show ¬ (task.fail (some "Worker died during task execution")
        now).retry_count < q.max_retries from by simpa using hrc)]
      refine ⟨task.fail (some "Worker died during task execution") now,
        ?_, by simp, by simp, ?_,
        Or.inr ⟨hrc, by simp, by simp, mem_addUnique_self⟩⟩
      · exact lookupKey_insertKey_self _ _ _
      · exact hrnd.not_mem_erase
  · rw [if_neg hmem]
    by_cases hrc : task.retry_count < q.max_retries
    · rw [if_pos (show (task.fail (some "Worker died during task execution")
        now).retry_count < q.max_retries from by simpa using hrc)]
      refine ⟨(task.fail (some "Worker died during task execution")
          now).retry, ?_, by simp, by simp, ?_,
        Or.inl ⟨hrc, by simp, by simp, ?_⟩⟩
      · simp only [add_pending_tasks]
        exact lookupKey_insertKey_self _ _ _
      · simp only [add_pending_running]
        exact hmem
      · simp only [pendingIds_def, add_pending_pending]
        exact mem_flatten_addBucket.mpr (Or.inr (by simp [hid]))
    · rw [if_neg (show ¬ (task.fail (some "Worker died during task execution")
        now).retry_count < q.max_retries from by simpa using hrc)]
      refine ⟨task.fail (some "Worker died during task execution") now,
        ?_, by simp, by simp, ?_,
        Or.inr ⟨hrc, by simp, by simp, mem_addUnique_self⟩⟩
      · exact lookupKey_insertKey_self _ _ _
      · exact hmem

theorem failDeadFold_other (now : Nat) (l : List String) :
    ∀ (q : TaskQueue) (tid : String), tid ∉ l →
      lookupKey ((l.foldl (failDeadTask now) q)).tasks tid =
        lookupKey q.tasks tid ∧
      (tid ∈ q.pendingIds → tid ∈ (l.foldl (failDeadTask now) q).pendingIds) ∧
      (tid ∈ q.failed_tasks →
        tid ∈ (l.foldl (failDeadTask now) q).failed_tasks) ∧
      (tid ∉ q.running_tasks →
        tid ∉ (l.foldl (failDeadTask now) q).running_tasks) ∧
      (q.running_tasks.Nodup →
        (l.foldl (failDeadTask now) q).running_tasks.Nodup) ∧
      (l.foldl (failDeadTask now) q).max_retries = q.max_retries ∧
      (l.foldl (failDeadTask now) q).workers = q.workers := by
  induction l with
  | nil =>
    intro q tid _
    exact ⟨rfl, fun h => h, fun h => h, fun h => h, fun h => h, rfl, rfl⟩
  | cons hd tl ih =>
    intro q tid hnl
    have hne : hd ≠ tid := fun hh => hnl (by simp [hh])
    obtain ⟨i1, i2, i3, i4, i5, i6, i7⟩ :=
      ih (failDeadTask now q hd) tid (fun hh => hnl (List.mem_cons_of_mem _ hh))
    refine ⟨i1.trans (failDead_binding_other hne), ?_, ?_, ?_, ?_,
      i6.trans (failDead_max now q hd), i7.trans (failDead_workers_eq now q hd)⟩
    · exact fun h => i2 (failDead_pending_mono h)
    · exact fun h => i3 (failDead_failed_mono h)
    · exact fun h => i4 (failDead_not_running h)
    · exact fun h => i5 (failDead_running_nodup h)

theorem failDeadFold_workers {now : Nat} (l : List String) :
    ∀ q : TaskQueue, (l.foldl (failDeadTask now) q).workers = q.workers := by
  induction l with
  | nil => intro q; rfl
  | cons hd tl ih =>
    intro q
    exact (ih (failDeadTask now q hd)).trans (failDead_workers_eq now q hd)

theorem processDead_none {now : Nat} {s : TaskQueue} {v : String}
    (h : lookupKey s.workers v = none) : processDeadWorker now s v = s := by
  unfold processDeadWorker
  rw [h]

theorem processDead_workers_other {now : Nat} {s : TaskQueue} {v wid : String}
    (hne : v ≠ wid) :
    lookupKey (processDeadWorker now s v).workers wid =
      lookupKey s.workers wid := by
  have hne2 : wid ≠ v := fun hh => hne hh.symm
  unfold processDeadWorker
  split
  · rfl
  next W2 hW2 =>
    dsimp only
    split
    next W2b hW2b =>
      show lookupKey (insertKey _ v _) wid = _
      rw [lookupKey_insertKey_ne _ _ _ _ hne2]
      rw [failDeadFold_workers W2.current_tasks s]
    next hnone =>
      rw [failDeadFold_workers W2.current_tasks s]

theorem processDead_workers_self {now : Nat} {s : TaskQueue} {v : String}
    {W2 : Worker} (hW2 : lookupKey s.workers v = some W2) :
    lookupKey (processDeadWorker now s v).workers v =
      some { W2 with current_tasks := [] } := by
  unfold processDeadWorker
  rw [hW2]
  dsimp only
  split
  next W2b hW2b =>
    rw [failDeadFold_workers W2.current_tasks s] at hW2b
    rw [hW2b] at hW2
    cases hW2
    exact lookupKey_insertKey_self _ _ _
  next hnone =>
    rw [failDeadFold_workers W2.current_tasks s] at hnone
    rw [hnone] at hW2
    exact Option.noConfusion hW2

theorem processDead_other (now : Nat) {s : TaskQueue} {v tid : String}
    (hdisj : ∀ W2, lookupKey s.workers v = some W2 →
      tid ∉ W2.current_tasks) :
    lookupKey (processDeadWorker now s v).tasks tid =
      lookupKey s.tasks tid ∧
    (tid ∈ s.pendingIds → tid ∈ (processDeadWorker now s v).pendingIds) ∧
    (tid ∈ s.failed_tasks →
      tid ∈ (processDeadWorker now s v).failed_tasks) ∧
    (tid ∉ s.running_tasks →
      tid ∉ (processDeadWorker now s v).running_tasks) ∧
    (s.running_tasks.Nodup →
      (processDeadWorker now s v).running_tasks.Nodup) ∧
    (processDeadWorker now s v).max_retries = s.max_retries := by
  unfold processDeadWorker
  split
  · exact ⟨rfl, fun h => h, fun h => h, fun h => h, fun h => h, rfl⟩
  next W2 hW2 =>
    have hnl : tid ∉ W2.current_tasks := hdisj W2 hW2
    obtain ⟨i1, i2, i3, i4, i5, i6, _⟩ :=
      failDeadFold_other now W2.current_tasks s tid hnl
    dsimp only
    split
    next W2b hW2b => exact ⟨i1, i2, i3, i4, i5, i6⟩
    next hnone => exact ⟨i1, i2, i3, i4, i5, i6⟩

theorem processDead_self {now : Nat} {s : TaskQueue} {wid tid : String}
    {W1 : Worker} {task : Task}
    (hw1 : lookupKey s.workers wid = some W1)
    (htm : tid ∈ W1.current_tasks)
    (hctnd : W1.current_tasks.Nodup)
    (hlk : lookupKey s.tasks tid = some task)
    (hid : task.id = tid)
    (hrnd : s.running_tasks.Nodup) :
    lookupKey (processDeadWorker now s wid).workers wid =
      some { W1 with current_tasks := [] } ∧
    ∃ t2, lookupKey (processDeadWorker now s wid).tasks tid = some t2 ∧
      t2.status ≠ TaskStatus.claimed ∧ t2.status ≠ TaskStatus.running ∧
      tid ∉ (processDeadWorker now s wid).running_tasks ∧
      ((task.retry_count < s.max_retries ∧ t2.status = TaskStatus.pending ∧
        t2.retry_count = task.retry_count + 1 ∧
        tid ∈ (processDeadWorker now s wid).pendingIds) ∨
       (¬ task.retry_count < s.max_retries ∧
        t2.status = TaskStatus.failed ∧
        t2.retry_count = task.retry_count ∧
        tid ∈ (processDeadWorker now s wid).failed_tasks)) := by
  refine ⟨processDead_workers_self hw1, ?_⟩
  obtain ⟨c1, c2, hcsplit⟩ := List.append_of_mem htm
  have hcnd2 := hctnd
  rw [hcsplit, List.nodup_append] at hcnd2
  have hn1 : tid ∉ c1 := fun hh => hcnd2.2.2 hh (List.mem_cons_self _ _)
  have hn2 : tid ∉ c2 := by
    have := hcnd2.2.1
    rw [List.nodup_cons] at this
    exact this.1
  have hfold : W1.current_tasks.foldl (failDeadTask now) s =
      c2.foldl (failDeadTask now)
        (failDeadTask now (c1.foldl (failDeadTask now) s) tid) := by
    rw [hcsplit, List.foldl_append, List.foldl_cons]
  obtain ⟨p1, _, _, _, p5, p6, _⟩ :=
    failDeadFold_other now c1 s tid hn1
  obtain ⟨t2, s1, s2, s3, s4, s5⟩ :=
    failDead_self (p1.trans hlk) hid (p5 hrnd)
  obtain ⟨a1, a2, a3, a4, _, _, _⟩ := failDeadFold_other now c2
    (failDeadTask now (c1.foldl (failDeadTask now) s) tid) tid hn2
  have hmaxeq : (c1.foldl (failDeadTask now) s).max_retries =
      s.max_retries := p6
  have key : lookupKey (W1.current_tasks.foldl (failDeadTask now) s).tasks
        tid = some t2 ∧
      t2.status ≠ TaskStatus.claimed ∧ t2.status ≠ TaskStatus.running ∧
      tid ∉ (W1.current_tasks.foldl (failDeadTask now) s).running_tasks ∧
      ((task.retry_count < s.max_retries ∧ t2.status = TaskStatus.pending ∧
        t2.retry_count = task.retry_count + 1 ∧
        tid ∈ (W1.current_tasks.foldl (failDeadTask now) s).pendingIds) ∨
       (¬ task.retry_count < s.max_retries ∧
        t2.status = TaskStatus.failed ∧
        t2.retry_count = task.retry_count ∧
        tid ∈ (W1.current_tasks.foldl (failDeadTask now) s).failed_tasks)) := by
    rw [hfold]
    refine ⟨a1.trans s1, s2, s3, a4 s4, ?_⟩
    rcases s5 with ⟨hrc, hst, hrcnt, hp⟩ | ⟨hrc, hst, hrcnt, hf⟩
    · exact Or.inl ⟨hmaxeq ▸ hrc, hst, hrcnt, a2 hp⟩
    · exact Or.inr ⟨fun hh => hrc (hmaxeq ▸ hh), hst, hrcnt, a3 hf⟩
  unfold processDeadWorker
  rw [hw1]
  dsimp only
  refine ⟨t2, ?_⟩
  split
  · exact key
  · exact key

theorem lookupKey_map_cond {β : Type} (dead : List String) (f : β → β) :
    ∀ (l : List (String × β)) (k : String),
      lookupKey (l.map fun p => if p.1 ∈ dead then (p.1, f p.2) else p) k =
        if k ∈ dead then (lookupKey l k).map f else lookupKey l k
  | [], k => by by_cases h : k ∈ dead <;> simp [lookupKey, h]
  | (a, v) :: tl, k => by
    simp only [List.map_cons]
    by_cases hd : a ∈ dead
    · rw [if_pos hd]
      by_cases hk : a = k
      · subst hk
        simp [lookupKey, hd]
      · simp [lookupKey, hk, lookupKey_map_cond dead f tl k]
    · rw [if_neg hd]
      by_cases hk : a = k
      · subst hk
        simp [lookupKey, hd]
      · simp [lookupKey, hk, lookupKey_map_cond dead f tl k]

theorem mem_deadWorkerIds {q : TaskQueue} {now : Nat} {b : String} :
    b ∈ deadWorkerIds q now ↔
      ∃ W, (b, W) ∈ q.workers ∧ W.status ≠ WorkerStatus.offline ∧
        now - W.last_heartbeat > q.worker_timeout := by
  unfold deadWorkerIds
  rw [List.mem_filterMap]
  constructor
  · rintro ⟨x, hx, heq⟩
    by_cases hc : x.2.status ≠ WorkerStatus.offline ∧
        now - x.2.last_heartbeat > q.worker_timeout
    · rw [if_pos hc] at heq
      have hb : x.1 = b := Option.some.inj heq
      exact ⟨x.2, by rw [← hb]; exact hx, hc.1, hc.2⟩
    · rw [if_neg hc] at heq
      exact absurd heq (by simp)
  · rintro ⟨W, hW, h1, h2⟩
    exact ⟨(b, W), hW, by rw [if_pos ⟨h1, h2⟩]⟩

theorem mem_keys_of_dead {now wt : Nat} :
    ∀ (l : List (String × Worker)) (b : String),
      b ∈ (l.filterMap fun p =>
        if p.2.status ≠ WorkerStatus.offline ∧ now - p.2.last_heartbeat > wt
        then some p.1 else none) → b ∈ l.map Prod.fst := by
  intro l b h
  rw [List.mem_filterMap] at h
  obtain ⟨x, hx, heq⟩ := h
  by_cases hc : x.2.status ≠ WorkerStatus.offline ∧
      now - x.2.last_heartbeat > wt
  · rw [if_pos hc] at heq
    exact List.mem_map.mpr ⟨x, hx, Option.some.inj heq⟩
  · rw [if_neg hc] at heq
    exact absurd heq (by simp)

theorem deadFilter_nodup (now wt : Nat) :
    ∀ l : List (String × Worker), (l.map Prod.fst).Nodup →
      (l.filterMap fun p =>
        if p.2.status ≠ WorkerStatus.offline ∧ now - p.2.last_heartbeat > wt
        then some p.1 else none).Nodup
  | [], _ => by simp
  | hd :: tl, h => by
    simp only [List.map_cons, List.nodup_cons] at h
    have ih := deadFilter_nodup now wt tl h.2
    by_cases hc : hd.2.status ≠ WorkerStatus.offline ∧
        now - hd.2.last_heartbeat > wt
    · rw [List.filterMap_cons, if_pos hc]
      exact List.nodup_cons.mpr
        ⟨fun hm => h.1 (mem_keys_of_dead tl hd.1 hm), ih⟩
    · rw [List.filterMap_cons, if_neg hc]
      exact ih

theorem deadWorkerIds_nodup {q : TaskQueue} {now : Nat}
    (h : (q.workers.map Prod.fst).Nodup) : (deadWorkerIds q now).Nodup := by
  unfold deadWorkerIds
  exact deadFilter_nodup now q.worker_timeout q.workers h

theorem processDead_workers_evol {now : Nat} {s : TaskQueue} {u v : String}
    {W2 : Worker}
    (h : lookupKey (processDeadWorker now s u).workers v = some W2) :
    ∃ W0, lookupKey s.workers v = some W0 ∧
      (W2.current_tasks = W0.current_tasks ∨ W2.current_tasks = []) := by
  by_cases huv : u = v
  · subst huv
    cases hW : lookupKey s.workers u with
    | none =>
      rw [processDead_none hW] at h
      rw [hW] at h
      exact Option.noConfusion h
    | some W =>
      rw [processDead_workers_self hW] at h
      have hw2 := Option.some.inj h
      subst hw2
      exact ⟨W, rfl, Or.inr rfl⟩
  · rw [processDead_workers_other huv] at h
    exact ⟨W2, h, Or.inl rfl⟩

theorem processDeadFold_workers_evol {now : Nat} (l : List String) :
    ∀ (s : TaskQueue) (v : String) (W2 : Worker),
      lookupKey (l.foldl (processDeadWorker now) s).workers v = some W2 →
      ∃ W0, lookupKey s.workers v = some W0 ∧
        (W2.current_tasks = W0.current_tasks ∨ W2.current_tasks = []) := by
  induction l with
  | nil =>
    intro s v W2 h
    exact ⟨W2, h, Or.inl rfl⟩
  | cons hd tl ih =>
    intro s v W2 h
    obtain ⟨W1, hW1, hc1⟩ := ih (processDeadWorker now s hd) v W2 h
    obtain ⟨W0, hW0, hc0⟩ := processDead_workers_evol hW1
    refine ⟨W0, hW0, ?_⟩
    rcases hc1 with hc1 | hc1
    · rcases hc0 with hc0 | hc0
      · exact Or.inl (hc1.trans hc0)
      · exact Or.inr (hc1.trans hc0)
    · exact Or.inr hc1

theorem processDeadFold_other {now : Nat} {wid tid : String}
    (l : List String) :
    ∀ s : TaskQueue, (∀ v ∈ l, v ≠ wid) →
      (∀ v ∈ l, ∀ W2, lookupKey s.workers v = some W2 →
        tid ∉ W2.current_tasks) →
      lookupKey ((l.foldl (processDeadWorker now) s)).workers wid =
        lookupKey s.workers wid ∧
      lookupKey (l.foldl (processDeadWorker now) s).tasks tid =
        lookupKey s.tasks tid ∧
      (tid ∈ s.pendingIds →
        tid ∈ (l.foldl (processDeadWorker now) s).pendingIds) ∧
      (tid ∈ s.failed_tasks →
        tid ∈ (l.foldl (processDeadWorker now) s).failed_tasks) ∧
      (tid ∉ s.running_tasks →
        tid ∉ (l.foldl (processDeadWorker now) s).running_tasks) ∧
      (s.running_tasks.Nodup →
        (l.foldl (processDeadWorker now) s).running_tasks.Nodup) ∧
      (l.foldl (processDeadWorker now) s).max_retries = s.max_retries := by
  induction l with
  | nil =>
    intro s _ _
    exact ⟨rfl, rfl, fun h => h, fun h => h, fun h => h, fun h => h, rfl⟩
  | cons hd tl ih =>
    intro s hne hd2
    have hdw : hd ≠ wid := hne hd (List.mem_cons_self _ _)
    obtain ⟨j1, j2, j3, j4, j5, j6⟩ :=
      processDead_other now (v := hd)
        (fun W2 hW2 => hd2 hd (List.mem_cons_self _ _) W2 hW2)
    have hw : lookupKey (processDeadWorker now s hd).workers wid =
        lookupKey s.workers wid := processDead_workers_other hdw
    have hd2a : ∀ v ∈ tl, ∀ W2,
        lookupKey (processDeadWorker now s hd).workers v = some W2 →
        tid ∉ W2.current_tasks := by
      intro v hv W2 hW2
      obtain ⟨W0, hW0, hc⟩ := processDead_workers_evol hW2
      rcases hc with hc | hc
      · rw [hc]
        exact hd2 v (List.mem_cons_of_mem _ hv) W0 hW0
      · rw [hc]
        exact List.not_mem_nil tid
    obtain ⟨i1, i2, i3, i4, i5, i6, i7⟩ :=
      ih (processDeadWorker now s hd)
        (fun v hv => hne v (List.mem_cons_of_mem _ hv)) hd2a
    exact ⟨i1.trans hw, i2.trans j1, fun h => i3 (j2 h), fun h => i4 (j3 h),
      fun h => i5 (j4 h), fun h => i6 (j5 h), i7.trans j6⟩

theorem processDeadFold_main {now : Nat} {wid tid : String} {W1 : Worker}
    {task : Task} {dead : List String} {s : TaskQueue}
    (hmem : wid ∈ dead) (hnd : dead.Nodup)
    (hw : lookupKey s.workers wid = some W1)
    (htm : tid ∈ W1.current_tasks)
    (hctnd : W1.current_tasks.Nodup)
    (hlk : lookupKey s.tasks tid = some task)
    (hid : task.id = tid)
    (hrnd : s.running_tasks.Nodup)
    (hdisj : ∀ v, v ≠ wid → ∀ W2, lookupKey s.workers v = some W2 →
      tid ∉ W2.current_tasks) :
    lookupKey (dead.foldl (processDeadWorker now) s).workers wid =
      some { W1 with current_tasks := [] } ∧
    ∃ t2,
      lookupKey (dead.foldl (processDeadWorker now) s).tasks tid = some t2 ∧
      t2.status ≠ TaskStatus.claimed ∧ t2.status ≠ TaskStatus.running ∧
      tid ∉ (dead.foldl (processDeadWorker now) s).running_tasks ∧
      ((task.retry_count < s.max_retries ∧ t2.status = TaskStatus.pending ∧
        t2.retry_count = task.retry_count + 1 ∧
        tid ∈ (dead.foldl (processDeadWorker now) s).pendingIds) ∨
       (¬ task.retry_count < s.max_retries ∧
        t2.status = TaskStatus.failed ∧
        t2.retry_count = task.retry_count ∧
        tid ∈ (dead.foldl (processDeadWorker now) s).failed_tasks)) := by
  obtain ⟨d1, d2, hsplit⟩ := List.append_of_mem hmem
  subst hsplit
  rw [List.nodup_append] at hnd
  have hne1 : ∀ v ∈ d1, v ≠ wid := by
    intro v hv hh
    exact hnd.2.2 hv (by rw [hh]; exact List.mem_cons_self _ _)
  have hwd2 : wid ∉ d2 := (List.nodup_cons.mp hnd.2.1).1
  have hne2 : ∀ v ∈ d2, v ≠ wid := fun v hv hh => hwd2 (hh ▸ hv)
  rw [List.foldl_append, List.foldl_cons]
  obtain ⟨a1, a2, a3, a4, a5, a6, a7⟩ :=
    processDeadFold_other d1 s hne1
      (fun v hv W2 h2 => hdisj v (hne1 v hv) W2 h2)
  have hwsm : lookupKey (d1.foldl (processDeadWorker now) s).workers wid =
      some W1 := a1.trans hw
  have hlksm : lookupKey (d1.foldl (processDeadWorker now) s).tasks tid =
      some task := a2.trans hlk
  obtain ⟨b0, t2, b1, b2, b3, b4, b5⟩ :=
    processDead_self hwsm htm hctnd hlksm hid (a6 hrnd)
  have hd2b : ∀ v ∈ d2, ∀ W2,
      lookupKey (processDeadWorker now
        (d1.foldl (processDeadWorker now) s) wid).workers v = some W2 →
      tid ∉ W2.current_tasks := by
    intro v hv W2 h2
    obtain ⟨Wm, hWm, hcm⟩ := processDead_workers_evol h2
    obtain ⟨W0, hW0, hc0⟩ := processDeadFold_workers_evol d1 s v Wm hWm
    have base : tid ∉ W0.current_tasks := hdisj v (hne2 v hv) W0 hW0
    rcases hcm with hcm | hcm
    · rcases hc0 with hc0 | hc0
      · rw [hcm, hc0]
        exact base
      · rw [hcm, hc0]
        exact List.not_mem_nil tid
    · rw [hcm]
      exact List.not_mem_nil tid
  obtain ⟨c1, c2, c3, c4, c5, c6, c7⟩ :=
    processDeadFold_other d2
      (processDeadWorker now (d1.foldl (processDeadWorker now) s) wid)
      hne2 hd2b
  refine ⟨c1.trans b0, t2, c2.trans b1, b2, b3, c5 b4, ?_⟩
  rcases b5 with ⟨hrc, hst, hrcnt, hp⟩ | ⟨hrc, hst, hrcnt, hf⟩
  · exact Or.inl ⟨by rw [← a7]; exact hrc, hst, hrcnt, c3 hp⟩
  · exact Or.inr ⟨fun hh => hrc (by rw [a7]; exact hh), hst, hrcnt, c4 hf⟩

/-- C8: one run of the dead-worker scan marks every non-offline worker whose
time since its last heartbeat exceeds `worker_timeout` as offline with an
empty current-task set, and every task that worker held leaves
`claimed`/`running`: it is either pending again with `retry_count`
incremented and re-queued, or terminally failed (in `failed_tasks`, not
re-queued) when retries are exhausted.  The side conditions are the
coordinator invariants: distinct worker keys, a duplicate-free running set,
the task record bound to its own id, and no other worker holding the same
task. -/
theorem C8_dead_worker_recovery {q : TaskQueue} {now : Nat}
    {wid tid : String} {W : Worker} {task : Task}
    (hkW : (q.workers.map Prod.fst).Nodup)
    (hw : lookupKey q.workers wid = some W)
    (hstat : W.status ≠ WorkerStatus.offline)
    (hhb : now - W.last_heartbeat > q.worker_timeout)
    (htm : tid ∈ W.current_tasks)
    (hctnd : W.current_tasks.Nodup)
    (hlk : lookupKey q.tasks tid = some task)
    (hid : task.id = tid)
    (hrnd : q.running_tasks.Nodup)
    (hdisj : ∀ v, v ≠ wid → ∀ W2, lookupKey q.workers v = some W2 →
      tid ∉ W2.current_tasks) :
    (∃ W2, lookupKey (q._check_dead_workers now).workers wid = some W2 ∧
      W2.status = WorkerStatus.offline ∧ W2.current_tasks = []) ∧
    (∃ t2, lookupKey (q._check_dead_workers now).tasks tid = some t2 ∧
      t2.status ≠ TaskStatus.claimed ∧ t2.status ≠ TaskStatus.running ∧
      tid ∉ (q._check_dead_workers now).running_tasks ∧
      ((task.retry_count < q.max_retries ∧ t2.status = TaskStatus.pending ∧
        t2.retry_count = task.retry_count + 1 ∧
        tid ∈ (q._check_dead_workers now).pendingIds) ∨
       (¬ task.retry_count < q.max_retries ∧
        t2.status = TaskStatus.failed ∧
        t2.retry_count = task.retry_count ∧
        tid ∈ (q._check_dead_workers now).failed_tasks))) := by
  have hdead : wid ∈ deadWorkerIds q now :=
    mem_deadWorkerIds.mpr ⟨W, mem_of_lookup hw, hstat, hhb⟩
  have hndead : (deadWorkerIds q now).Nodup := deadWorkerIds_nodup hkW
  have hmapW : ∀ k : String,
      lookupKey (q.workers.map fun p =>
        if p.1 ∈ deadWorkerIds q now then
          (p.1, p.2.set_status WorkerStatus.offline
            (some "Worker timeout") now)
        else p) k =
      if k ∈ deadWorkerIds q now then
        (lookupKey q.workers k).map
          (fun w => w.set_status WorkerStatus.offline
            (some "Worker timeout") now)
      else lookupKey q.workers k := fun k =>
    lookupKey_map_cond (deadWorkerIds q now)
      (fun w => w.set_status WorkerStatus.offline
        (some "Worker timeout") now)
      q.workers k
  have hckd : q._check_dead_workers now =
      (deadWorkerIds q now).foldl (processDeadWorker now)
        { q with
          workers := q.workers.map fun p =>
            if p.1 ∈ deadWorkerIds q now then
              (p.1, p.2.set_status WorkerStatus.offline
                (some "Worker timeout") now)
            else p,
          metrics := { q.metrics with
            workers_lost := q.metrics.workers_lost +
              (deadWorkerIds q now).length } } := rfl
  have hw1 : lookupKey (q.workers.map fun p =>
      if p.1 ∈ deadWorkerIds q now then
        (p.1, p.2.set_status WorkerStatus.offline
          (some "Worker timeout") now)
      else p) wid =
      some (W.set_status WorkerStatus.offline
        (some "Worker timeout") now) := by
    rw [hmapW wid, if_pos hdead, hw]
    rfl
  have hdisj1 : ∀ v, v ≠ wid → ∀ W2,
      lookupKey (q.workers.map fun p =>
        if p.1 ∈ deadWorkerIds q now then
          (p.1, p.2.set_status WorkerStatus.offline
            (some "Worker timeout") now)
        else p) v = some W2 →
      tid ∉ W2.current_tasks := by
    intro v hv W2 h2
    rw [hmapW v] at h2
    by_cases hvd : v ∈ deadWorkerIds q now
    · rw [if_pos hvd] at h2
      cases hqv : lookupKey q.workers v with
      | none =>
        rw [hqv] at h2
        exact Option.noConfusion h2
      | some W0 =>
        rw [hqv] at h2
        have := Option.some.inj h2
        subst this
        exact hdisj v hv W0 hqv
    · rw [if_neg hvd] at h2
      exact hdisj v hv W2 h2
  obtain ⟨hA, t2, hB1, hB2, hB3, hB4, hB5⟩ :=
    processDeadFold_main (s := { q with
        workers := q.workers.map fun p =>
          if p.1 ∈ deadWorkerIds q now then
            (p.1, p.2.set_status WorkerStatus.offline
              (some "Worker timeout") now)
          else p,
        metrics := { q.metrics with
          workers_lost := q.metrics.workers_lost +
            (deadWorkerIds q now).length } })
      hdead hndead hw1 htm hctnd hlk hid hrnd hdisj1
  rw [hckd]
  exact ⟨⟨_, hA, rfl, rfl⟩, t2, hB1, hB2, hB3, hB4, hB5⟩

theorem C8_witness :
    ((∃ W2,
      lookupKey (exQb._check_dead_workers 1000).workers "w" = some W2 ∧
      W2.status = WorkerStatus.offline ∧ W2.current_tasks = []) ∧
    (∃ t2, lookupKey (exQb._check_dead_workers 1000).tasks "t" = some t2 ∧
      t2.status ≠ TaskStatus.claimed ∧ t2.status ≠ TaskStatus.running ∧
      "t" ∉ (exQb._check_dead_workers 1000).running_tasks ∧
      ((tDead.retry_count < exQb.max_retries ∧
        t2.status = TaskStatus.pending ∧
        t2.retry_count = tDead.retry_count + 1 ∧
        "t" ∈ (exQb._check_dead_workers 1000).pendingIds) ∨
       (¬ tDead.retry_count < exQb.max_retries ∧
        t2.status = TaskStatus.failed ∧
        t2.retry_count = tDead.retry_count ∧
        "t" ∈ (exQb._check_dead_workers 1000).failed_tasks)))) := by
  have hdisj : ∀ v, v ≠ "w" → ∀ W2,
      lookupKey exQb.workers v = some W2 → "t" ∉ W2.current_tasks := by
    intro v hv W2 h2
    have hm := mem_of_lookup h2
    have hk : v ∈ exQb.workers.map Prod.fst :=
      List.mem_map_of_mem Prod.fst hm
    have hkeys : exQb.workers.map Prod.fst = ["w"] := by decide
    rw [hkeys] at hk
    exact absurd (by simpa using hk) hv
  exact C8_dead_worker_recovery (by decide)
    (show lookupKey exQb.workers "w" = some wDead by decide)
    (by decide) (by decide) (by decide) (by decide)
    (show lookupKey exQb.tasks "t" = some tDead by decide)
    (by decide) (by decide) hdisj

theorem bucketEntryOK_iff {q : TaskQueue} {p : Int} {a : String} :
    bucketEntryOK q p a = true ↔
      ∃ t, lookupKey q.tasks a = some t ∧ t.priority = p ∧
        t.status = TaskStatus.pending ∧ q._can_start_task t = true := by
  unfold bucketEntryOK
  cases h : lookupKey q.tasks a with
  | none => simp
  | some t => simp [Bool.and_eq_true, and_assoc]

theorem can_start_dep {q : TaskQueue} {t : Task}
    (h : q._can_start_task t = true) {d : String}
    (hd : d ∈ t.dependencies) :
    ∃ dep, lookupKey q.tasks d = some dep ∧
      dep.status = TaskStatus.completed := by
  unfold TaskQueue._can_start_task at h
  rw [List.all_eq_true] at h
  have h2 := h d hd
  cases hlk : lookupKey q.tasks d with
  | none =>
    rw [hlk] at h2
    exact absurd h2 (by simp)
  | some dep =>
    rw [hlk] at h2
    exact ⟨dep, rfl, by simpa using h2⟩

theorem can_start_mono {q1 q2 : TaskQueue} {t : Task}
    (hsame : ∀ d ∈ t.dependencies,
      lookupKey q2.tasks d = lookupKey q1.tasks d)
    (h : q1._can_start_task t = true) : q2._can_start_task t = true := by
  unfold TaskQueue._can_start_task at h ⊢
  rw [List.all_eq_true] at h ⊢
  intro d hd
  rw [hsame d hd]
  exact h d hd

theorem mem_insertKey_nodup_elim {κ α : Type} [DecidableEq κ]
    {l : List (κ × α)} {k : κ} {v : α} {e : κ × α}
    (hnd : (l.map Prod.fst).Nodup)
    (h : e ∈ insertKey l k v) : e = (k, v) ∨ (e ∈ l ∧ e.1 ≠ k) := by
  induction l with
  | nil =>
    simp only [insertKey, List.mem_singleton] at h
    exact Or.inl h
  | cons hd tl ih =>
    simp only [List.map_cons, List.nodup_cons] at hnd
    obtain ⟨k1, v1⟩ := hd
    by_cases hk : k1 = k
    · subst hk
      rw [show insertKey ((k1, v1) :: tl) k1 v = (k1, v) :: tl from
        by rw [insertKey, if_pos rfl], List.mem_cons] at h
      rcases h with h | h
      · exact Or.inl h
      · refine Or.inr ⟨List.mem_cons_of_mem _ h, ?_⟩
        intro hh
        have hmm := List.mem_map_of_mem Prod.fst h
        rw [hh] at hmm
        exact hnd.1 hmm
    · rw [show insertKey ((k1, v1) :: tl) k v =
          (k1, v1) :: insertKey tl k v from
        by rw [insertKey, if_neg hk], List.mem_cons] at h
      rcases h with h | h
      · exact Or.inr ⟨h ▸ List.mem_cons_self _ _, by rw [h]; exact hk⟩
      · rcases ih hnd.2 h with h2 | h2
        · exact Or.inl h2
        · exact Or.inr ⟨List.mem_cons_of_mem _ h2.1, h2.2⟩

theorem mem_removeBucket_elim {l : List (Int × List String)} {p : Int}
    {x : String} {e : Int × List String}
    (h : e ∈ removeBucket l p x) :
    e ∈ l ∨ ∃ b, lookupKey l p = some b ∧ e = (p, b.erase x) := by
  unfold removeBucket at h
  rcases hl : lookupKey l p with _ | bucket
  · rw [hl] at h
    exact Or.inl h
  · rw [hl] at h
    by_cases hm : x ∈ bucket
    · simp only [hm, if_true] at h
      by_cases hb : bucket.erase x = []
      · simp only [hb, if_true] at h
        exact Or.inl (mem_eraseKey_elim h)
      · simp only [hb, if_false] at h
        rcases mem_insertKey_elim h with h2 | h2
        · exact Or.inr ⟨bucket, rfl, h2⟩
        · exact Or.inl h2
    · simp only [hm, if_false] at h
      exact Or.inl h

theorem bucketEntryOK_insert_fresh {q : TaskQueue} {tid : String}
    {tnew : Task} {p : Int} {a : String}
    (hfresh : lookupKey q.tasks tid = none)
    (h : bucketEntryOK q p a = true) :
    bucketEntryOK { q with tasks := insertKey q.tasks tid tnew } p a =
      true := by
  rw [bucketEntryOK_iff] at h ⊢
  obtain ⟨t, hlk, hpri, hst, hcs⟩ := h
  have hane : a ≠ tid := by
    intro hh
    rw [hh, hfresh] at hlk
    exact Option.noConfusion hlk
  refine ⟨t, ?_, hpri, hst, ?_⟩
  · show lookupKey (insertKey q.tasks tid tnew) a = some t
    rw [lookupKey_insertKey_ne _ _ _ _ hane]
    exact hlk
  · refine can_start_mono ?_ hcs
    intro d hd
    obtain ⟨dep, hdep, _⟩ := can_start_dep hcs hd
    have hdne : d ≠ tid := by
      intro hh
      rw [hh, hfresh] at hdep
      exact Option.noConfusion hdep
    show lookupKey (insertKey q.tasks tid tnew) d = lookupKey q.tasks d
    rw [lookupKey_insertKey_ne _ _ _ _ hdne]

theorem bucketEntryOK_insert_noncompleted {q : TaskQueue} {tid : String}
    {told tnew : Task} {p : Int} {a : String}
    (hold : lookupKey q.tasks tid = some told)
    (hnc : told.status ≠ TaskStatus.completed)
    (hane : a ≠ tid)
    (h : bucketEntryOK q p a = true) :
    bucketEntryOK { q with tasks := insertKey q.tasks tid tnew } p a =
      true := by
  rw [bucketEntryOK_iff] at h ⊢
  obtain ⟨t, hlk, hpri, hst, hcs⟩ := h
  refine ⟨t, ?_, hpri, hst, ?_⟩
  · show lookupKey (insertKey q.tasks tid tnew) a = some t
    rw [lookupKey_insertKey_ne _ _ _ _ hane]
    exact hlk
  · refine can_start_mono ?_ hcs
    intro d hd
    obtain ⟨dep, hdep, hdc⟩ := can_start_dep hcs hd
    have hdne : d ≠ tid := by
      intro hh
      rw [hh, hold] at hdep
      have h3 := Option.some.inj hdep
      rw [h3] at hnc
      exact hnc hdc
    show lookupKey (insertKey q.tasks tid tnew) d = lookupKey q.tasks d
    rw [lookupKey_insertKey_ne _ _ _ _ hdne]

theorem WF_add {q : TaskQueue} {task : Task}
    (hlk : lookupKey q.tasks task.id = some task)
    (hst : task.status = TaskStatus.pending)
    (hcs : q._can_start_task task = true)
    (hwf : WFqueue q) : WFqueue (q._add_to_pending_queue task) := by
  obtain ⟨hbind, htnd, hpk, hbnd, hok⟩ := hwf
  refine ⟨hbind, htnd, ?_, ?_, ?_⟩
  · show ((addBucket q.pending_tasks task.priority task.id).map
      Prod.fst).Nodup
    unfold addBucket
    exact nodup_keys_insertKey hpk
  · intro e he
    rcases mem_insertKey_elim he with heq | hmem
    · rw [heq]
      show (addUnique ((lookupKey q.pending_tasks
        task.priority).getD []) task.id).Nodup
      cases hb : lookupKey q.pending_tasks task.priority with
      | none => simp [addUnique]
      | some b =>
        exact nodup_addUnique (hbnd (task.priority, b) (mem_of_lookup hb))
    · exact hbnd e hmem
  · intro e he a ha
    rcases mem_insertKey_elim he with heq | hmem
    · rw [heq] at ha ⊢
      have ha2 : a ∈ addUnique ((lookupKey q.pending_tasks
          task.priority).getD []) task.id := ha
      rcases mem_addUnique.mp ha2 with hab | rfl
      · cases hb : lookupKey q.pending_tasks task.priority with
        | none =>
          rw [hb] at hab
          exact absurd hab (List.not_mem_nil a)
        | some b =>
          rw [hb] at hab
          exact hok (task.priority, b) (mem_of_lookup hb) a hab
      · rw [bucketEntryOK_iff]
        exact ⟨task, hlk, rfl, hst, hcs⟩
    · exact hok e hmem a ha

theorem WF_scheduleStep {now : Nat} {q : TaskQueue} {v : String}
    (hwf : WFqueue q) : WFqueue (scheduleStep now q v) := by
  obtain ⟨hbind, htnd, hpk, hbnd, hok⟩ := hwf
  unfold scheduleStep
  split
  · exact ⟨hbind, htnd, hpk, hbnd, hok⟩
  next w hw =>
    split
    · split
      next tid0 hf =>
        split
        next task ht =>
          dsimp only
          have hq0 : tid0 ∈ q.pendingIds := find_task_mem_pendingIds hf
          obtain ⟨e0, he0, hmem0⟩ := mem_flatten_map_snd.mp hq0
          obtain ⟨t0, hlk0, hpri0, hst0, hcs0⟩ :=
            bucketEntryOK_iff.mp (hok e0 he0 tid0 hmem0)
          have ht0 : t0 = task := Option.some.inj (hlk0.symm.trans ht)
          rw [ht0] at hpri0 hst0 hcs0
          have htid : task.id = tid0 := hbind (tid0, task) (mem_of_lookup ht)
          have hnc : task.status ≠ TaskStatus.completed := by
            rw [hst0]
            exact fun hh => TaskStatus.noConfusion hh
          have hpriAll : ∀ e ∈ q.pending_tasks,
              (task.claim v now).id ∈ e.2 →
              e.1 = (task.claim v now).priority := by
            intro e he hm
            rw [Task.claim_id, htid] at hm
            obtain ⟨t1, hlk1, hpri1, _, _⟩ :=
              bucketEntryOK_iff.mp (hok e he tid0 hm)
            have ht1 : t1 = task := Option.some.inj (hlk1.symm.trans ht)
            rw [Task.claim_priority, ← hpri1, ht1]
          have hnotmem : (task.claim v now).id ∉
              ((removeBucket q.pending_tasks (task.claim v now).priority
                (task.claim v now).id).map Prod.snd).flatten :=
            not_mem_flatten_removeBucket_self hpk hbnd hpriAll
          refine ⟨?_, ?_, ?_, ?_, ?_⟩
          · intro p hp
            rcases mem_insertKey_elim hp with heq | hmem
            · rw [heq]
              show (task.claim v now).id = tid0
              rw [Task.claim_id, htid]
            · exact hbind p hmem
          · exact nodup_keys_insertKey htnd
          · exact nodup_keys_removeBucket hpk
          · intro e he
            rcases mem_removeBucket_elim he with he2 | ⟨b, hlb, heq⟩
            · exact hbnd e he2
            · rw [heq]
              exact ((hbnd ((task.claim v now).priority, b)
                (mem_of_lookup hlb))).erase _
          · intro e he a ha
            have hane2 : a ≠ (task.claim v now).id := by
              intro hh
              have hmem2 : a ∈ ((removeBucket q.pending_tasks
                  (task.claim v now).priority
                  (task.claim v now).id).map Prod.snd).flatten :=
                mem_flatten_map_snd.mpr ⟨e, he, ha⟩
              exact hnotmem (hh ▸ hmem2)
            have hane : a ≠ tid0 := by
              rw [show tid0 = (task.claim v now).id from
                by rw [Task.claim_id, htid]]
              exact hane2
            have hold2 : bucketEntryOK q e.1 a = true := by
              rcases mem_removeBucket_elim he with he2 | ⟨b, hlb, heq⟩
              · exact hok e he2 a ha
              · rw [heq] at ha ⊢
                have hab : a ∈ b := List.mem_of_mem_erase ha
                exact hok ((task.claim v now).priority, b)
                  (mem_of_lookup hlb) a hab
            show bucketEntryOK
              { q with tasks := insertKey q.tasks tid0 (task.claim v now) }
              e.1 a = true
            exact bucketEntryOK_insert_noncompleted ht hnc hane hold2
        next => exact ⟨hbind, htnd, hpk, hbnd, hok⟩
      next => exact ⟨hbind, htnd, hpk, hbnd, hok⟩
    · exact ⟨hbind, htnd, hpk, hbnd, hok⟩

theorem WF_schedule {now : Nat} {q : TaskQueue} (hwf : WFqueue q) :
    WFqueue (q._schedule_tasks now) := by
  unfold TaskQueue._schedule_tasks
  exact foldlPreserve (scheduleStep now) WFqueue _ q hwf
    (fun b2 a _ hb2 => WF_scheduleStep hb2)

theorem WF_readyOK {q : TaskQueue} (hwf : WFqueue q) :
    q.readyOK = true := by
  obtain ⟨_, _, _, _, hok⟩ := hwf
  unfold TaskQueue.readyOK
  rw [List.all_eq_true]
  intro a ha
  obtain ⟨e, he, hae⟩ := mem_flatten_map_snd.mp ha
  obtain ⟨t, hlk, _, _, hcs⟩ := bucketEntryOK_iff.mp (hok e he a hae)
  rw [hlk]
  simpa using hcs

theorem WF_insert_fresh {q : TaskQueue} {t : Task}
    (hfresh : lookupKey q.tasks t.id = none)
    (hwf : WFqueue q) :
    WFqueue { q with tasks := insertKey q.tasks t.id t } := by
  obtain ⟨hbind, htnd, hpk, hbnd, hok⟩ := hwf
  refine ⟨?_, nodup_keys_insertKey htnd, hpk, hbnd, ?_⟩
  · intro p hp
    rcases mem_insertKey_elim hp with heqp | hmem
    · rw [heqp]
    · exact hbind p hmem
  · intro e he a ha
    exact bucketEntryOK_insert_fresh hfresh (hok e he a ha)

theorem WF_submit {q : TaskQueue} (ty : String)
    (par : List (String × String)) (pr : Int) (tmo : Option Nat)
    (deps : List String) (md : List (String × String))
    (tio : Option String) (gen : String) (now : Nat)
    (hwf : WFqueue q)
    (hfresh : lookupKey q.tasks
      (Task.mk_new ty par pr deps
        (match tmo with
          | some u => if u = 0 then q.default_timeout else u
          | none => q.default_timeout)
        md tio gen now).id = none) :
    WFqueue (q.submit_task ty par pr tmo deps md tio gen now).2 := by
  unfold TaskQueue.submit_task
  dsimp only
  apply WF_schedule
  split
  next hcs =>
    exact WF_add (lookupKey_insertKey_self _ _ _) rfl hcs
      (WF_insert_fresh hfresh hwf)
  next => exact WF_insert_fresh hfresh hwf

theorem WF_depStep {q acc : TaskQueue} {cid : String} {task : Task}
    (hmem : task ∈ q.tasks.map Prod.snd)
    (hacc : acc.tasks = q.tasks) (hwf : WFqueue acc) :
    (if task.status = TaskStatus.pending ∧ task.dependencies ≠ [] ∧
        cid ∈ task.dependencies ∧ acc._can_start_task task then
      acc._add_to_pending_queue task
    else acc).tasks = q.tasks ∧
    WFqueue (if task.status = TaskStatus.pending ∧
        task.dependencies ≠ [] ∧ cid ∈ task.dependencies ∧
        acc._can_start_task task then
      acc._add_to_pending_queue task
    else acc) := by
  split
  next hc =>
    obtain ⟨p0, hp0, hps⟩ := List.mem_map.mp hmem
    have hk : (p0.1, task) ∈ q.tasks := by
      rw [← hps]
      exact hp0
    have hktnd : (q.tasks.map Prod.fst).Nodup := by
      rw [← hacc]
      exact hwf.2.1
    have hlk : lookupKey acc.tasks task.id = some task := by
      rw [hacc]
      have hbid : task.id = p0.1 := by
        rw [← hps]
        have := hwf.1
        rw [hacc] at this
        exact this p0 hp0
      rw [hbid]
      exact lookup_of_mem_nodup hktnd hk
    exact ⟨hacc, WF_add hlk hc.1 hc.2.2.2 hwf⟩
  next => exact ⟨hacc, hwf⟩

theorem WF_check_dependent {q : TaskQueue} {cid : String}
    (hwf : WFqueue q) : WFqueue (q._check_dependent_tasks cid) := by
  unfold TaskQueue._check_dependent_tasks
  exact (foldlPreserve
    (fun acc task =>
      if task.status = TaskStatus.pending ∧ task.dependencies ≠ [] ∧
          cid ∈ task.dependencies ∧ acc._can_start_task task then
        acc._add_to_pending_queue task
      else acc)
    (fun s => s.tasks = q.tasks ∧ WFqueue s)
    (q.tasks.map Prod.snd) q ⟨rfl, hwf⟩
    (fun b2 a ha hb2 => WF_depStep ha hb2.1 hb2.2)).2

/-- C2 counterexample: before persistence the dependent task `a` (waiting
on the pending `b`) is withheld from the pending queue and the ready-queue
dependency property holds; after `load_state` restores the snapshot, `a` is
re-queued by status alone and the property is violated. -/
theorem C2_counterexample :
    exR2.readyOK = true ∧ "a" ∉ exR2.pendingIds ∧
    "a" ∈ exR3.pendingIds ∧ exR3.readyOK = false := by decide

/-- C2 (amended): the ready-queue dependency invariant `WFqueue` — every
queued id resolves to a pending task of matching bucket priority all of
whose dependencies are completed — is preserved by `submit_task` (for a
fresh task id) and by the dependency resolver `_check_dependent_tasks`,
and it entails the claimed property (`readyOK`: no queued task has a
missing or uncompleted dependency).  It is not an invariant of every
reachable state, because `load_state` re-queues every pending-status task
without checking `_can_start_task` (see the counterexample). -/
theorem C2_amended :
    (∀ (q : TaskQueue) (ty : String) (par : List (String × String))
      (pr : Int) (tmo : Option Nat) (deps : List String)
      (md : List (String × String)) (tio : Option String)
      (gen : String) (now : Nat),
      WFqueue q →
      lookupKey q.tasks
        (Task.mk_new ty par pr deps
          (match tmo with
            | some u => if u = 0 then q.default_timeout else u
            | none => q.default_timeout)
          md tio gen now).id = none →
      WFqueue (q.submit_task ty par pr tmo deps md tio gen now).2) ∧
    (∀ (q : TaskQueue) (cid : String), WFqueue q →
      WFqueue (q._check_dependent_tasks cid)) ∧
    (∀ q : TaskQueue, WFqueue q → q.readyOK = true) :=
  ⟨fun _ ty par pr tmo deps md tio gen now hwf hfresh =>
      WF_submit ty par pr tmo deps md tio gen now hwf hfresh,
    fun _ _ hwf => WF_check_dependent hwf,
    fun _ hwf => WF_readyOK hwf⟩

theorem C2_witness :
    WFqueue (exR0.submit_task "math" [] 0 none [] [] (some "b") "g1" 0).2 ∧
    WFqueue (exR1._check_dependent_tasks "b") ∧
    exR1.readyOK = true :=
  ⟨C2_amended.1 exR0 "math" [] 0 none [] [] (some "b") "g1" 0 (by decide)
      (by decide),
    C2_amended.2.1 exR1 "b" (by decide),
    C2_amended.2.2 exR1 (by decide)⟩

theorem from_to_dict {t : Task} (g : String) (hid : t.id ≠ "") :
    Task.from_dict t.to_dict g = t := by
  simp [Task.from_dict, Task.to_dict, hid]

theorem lookupKey_append {κ α : Type} [DecidableEq κ] :
    ∀ (l1 l2 : List (κ × α)) (k : κ),
      lookupKey (l1 ++ l2) k =
        match lookupKey l1 k with
        | some v => some v
        | none => lookupKey l2 k
  | [], l2, k => rfl
  | (k1, v1) :: tl, l2, k => by
    by_cases hk : k1 = k
    · simp [lookupKey, hk]
    · simp only [List.cons_append, lookupKey, hk, if_false]
      exact lookupKey_append tl l2 k

theorem loadTaskStep_facts {acc : TaskQueue} {t : Task} {g : String}
    (hne : t.id ≠ "") (hfresh : lookupKey acc.tasks t.id = none) :
    (loadTaskStep acc t.to_dict g).tasks = acc.tasks ++ [(t.id, t)] ∧
    ∀ a, a ∈ (loadTaskStep acc t.to_dict g).pendingIds ↔
      (a ∈ acc.pendingIds ∨
        (t.status = TaskStatus.pending ∧ a = t.id)) := by
  unfold loadTaskStep
  rw [from_to_dict g hne]
  dsimp only
  have htasks : (insertKey acc.tasks t.id t) = acc.tasks ++ [(t.id, t)] :=
    insertKey_append_of_lookup_none hfresh
  cases hst : t.status
  case pending =>
    refine ⟨htasks, fun a => ?_⟩
    rw [pendingIds_add_iff]
    simp [hst, TaskQueue.pendingIds]
  case claimed =>
    exact ⟨htasks, fun a => by simp [hst, TaskQueue.pendingIds]⟩
  case running =>
    exact ⟨htasks, fun a => by simp [hst, TaskQueue.pendingIds]⟩
  case completed =>
    exact ⟨htasks, fun a => by simp [hst, TaskQueue.pendingIds]⟩
  case failed =>
    exact ⟨htasks, fun a => by simp [hst, TaskQueue.pendingIds]⟩
  case timeout =>
    exact ⟨htasks, fun a => by simp [hst, TaskQueue.pendingIds]⟩
  case cancelled =>
    exact ⟨htasks, fun a => by simp [hst, TaskQueue.pendingIds]⟩

theorem loadFold_main (gen : Nat → String) :
    ∀ (l : List (String × Task)) (n : Nat) (acc : TaskQueue),
      (∀ p ∈ l, p.2.id = p.1) →
      (∀ p ∈ l, p.1 ≠ "") →
      (∀ p ∈ l, lookupKey acc.tasks p.1 = none) →
      (l.map Prod.fst).Nodup →
      ((List.enumFrom n (l.map fun p => p.2.to_dict)).foldl
        (fun acc2 p => loadTaskStep acc2 p.2 (gen p.1)) acc).tasks =
        acc.tasks ++ l ∧
      (∀ a, a ∈ ((List.enumFrom n (l.map fun p => p.2.to_dict)).foldl
          (fun acc2 p => loadTaskStep acc2 p.2 (gen p.1)) acc).pendingIds ↔
        (a ∈ acc.pendingIds ∨ ∃ t, (a, t) ∈ l ∧
          t.status = TaskStatus.pending)) := by
  intro l
  induction l with
  | nil =>
    intro n acc _ _ _ _
    refine ⟨(List.append_nil acc.tasks).symm, fun a => ?_⟩
    simp
  | cons hd tl ih =>
    intro n acc hbind hne hfresh hnd
    have hidne : hd.2.id ≠ "" := by
      rw [hbind hd (List.mem_cons_self _ _)]
      exact hne hd (List.mem_cons_self _ _)
    have hfr : lookupKey acc.tasks hd.2.id = none := by
      rw [hbind hd (List.mem_cons_self _ _)]
      exact hfresh hd (List.mem_cons_self _ _)
    obtain ⟨stepT, stepP⟩ := loadTaskStep_facts (g := gen n) hidne hfr
    have hred : (List.enumFrom n ((hd :: tl).map fun p => p.2.to_dict)).foldl
        (fun acc2 p => loadTaskStep acc2 p.2 (gen p.1)) acc =
        (List.enumFrom (n + 1) (tl.map fun p => p.2.to_dict)).foldl
          (fun acc2 p => loadTaskStep acc2 p.2 (gen p.1))
          (loadTaskStep acc hd.2.to_dict (gen n)) := rfl
    rw [List.map_cons, List.nodup_cons] at hnd
    have hstep2 : (loadTaskStep acc hd.2.to_dict (gen n)).tasks =
        acc.tasks ++ [(hd.1, hd.2)] := by
      rw [stepT, hbind hd (List.mem_cons_self _ _)]
    have hfresh2 : ∀ p ∈ tl,
        lookupKey (loadTaskStep acc hd.2.to_dict (gen n)).tasks p.1 =
          none := by
      intro p hp
      rw [hstep2, lookupKey_append, hfresh p (List.mem_cons_of_mem _ hp)]
      have hpne : hd.1 ≠ p.1 := by
        intro hh
        exact hnd.1 (hh ▸ List.mem_map_of_mem Prod.fst hp)
      simp [lookupKey, hpne]
    obtain ⟨ihT, ihP⟩ := ih (n + 1) (loadTaskStep acc hd.2.to_dict (gen n))
      (fun p hp => hbind p (List.mem_cons_of_mem _ hp))
      (fun p hp => hne p (List.mem_cons_of_mem _ hp))
      hfresh2 hnd.2
    constructor
    · rw [hred, ihT, hstep2, List.append_assoc]
      rfl
    · intro a
      rw [hred, ihP a, stepP a]
      constructor
      · rintro ((h | ⟨hs, rfl⟩) | ⟨t, ht, hts⟩)
        · exact Or.inl h
        · refine Or.inr ⟨hd.2, ?_, hs⟩
          rw [hbind hd (List.mem_cons_self _ _)]
          exact List.mem_cons_self _ _
        · exact Or.inr ⟨t, List.mem_cons_of_mem _ ht, hts⟩
      · rintro (h | ⟨t, ht, hts⟩)
        · exact Or.inl (Or.inl h)
        · rcases List.mem_cons.mp ht with heq | ht2
          · have ha : a = hd.1 := congrArg Prod.fst heq
            have ht3 : t = hd.2 := congrArg Prod.snd heq
            refine Or.inl (Or.inr ⟨by rw [← ht3]; exact hts, ?_⟩)
            rw [ha, ← hbind hd (List.mem_cons_self _ _)]
          · exact Or.inr ⟨t, ht2, hts⟩

/-- C5 (amended): loading a persisted snapshot into a fresh coordinator
reconstructs the task table exactly, but the rebuilt ready-queue membership
is the set of pending-status ids, not the original queue membership: a
pending task withheld for unmet dependencies is re-queued by `load_state`
(see the counterexample), so the claimed equivalence of queue membership
fails in general while table reconstruction and the status-based rebuild
hold. -/
theorem C5_amended :
    ∀ (q : TaskQueue) (m d w : Nat) (gen : Nat → String),
      (∀ p ∈ q.tasks, p.2.id = p.1) →
      (∀ p ∈ q.tasks, p.1 ≠ "") →
      (q.tasks.map Prod.fst).Nodup →
      ((TaskQueue.mk_new m d w).load_state q._persist_state gen).tasks =
        q.tasks ∧
      (∀ a,
        a ∈ ((TaskQueue.mk_new m d w).load_state
            q._persist_state gen).pendingIds ↔
        ∃ t, lookupKey q.tasks a = some t ∧
          t.status = TaskStatus.pending) := by
  intro q m d w gen hbind hne hnd
  have hlist : ((q._persist_state).tasks.map Prod.snd) =
      q.tasks.map (fun p => p.2.to_dict) := by
    rw [show (q._persist_state).tasks =
      q.tasks.map (fun p => (p.1, p.2.to_dict)) from rfl, List.map_map]
    rfl
  have hload : (TaskQueue.mk_new m d w).load_state q._persist_state gen =
      ((q._persist_state).workers.map Prod.snd).enum.foldl
        (fun (acc : TaskQueue) (p : Nat × WorkerRecord) =>
          let w2 := Worker.from_dict p.2
            (gen ((q._persist_state).tasks.length + p.1))
          let acc1 := { acc with workers := insertKey acc.workers w2.id w2 }
          let byCap := w2.capabilities.foldl
            (fun bc capability =>
              let ws := (lookupKey bc capability).getD []
              insertKey bc capability (addUnique ws w2.id))
            acc1.worker_by_capability
          { acc1 with worker_by_capability := byCap })
        { (((q._persist_state).tasks.map Prod.snd).enum.foldl
            (fun acc2 p => loadTaskStep acc2 p.2 (gen p.1))
            { TaskQueue.mk_new m d w with tasks := [] }) with
          workers := [], worker_by_capability := [] } := rfl
  have hQ2 : ((q._persist_state).tasks.map Prod.snd).enum.foldl
      (fun acc2 p => loadTaskStep acc2 p.2 (gen p.1))
      { TaskQueue.mk_new m d w with tasks := [] } =
      (List.enumFrom 0 (q.tasks.map fun p => p.2.to_dict)).foldl
        (fun acc2 p => loadTaskStep acc2 p.2 (gen p.1))
        { TaskQueue.mk_new m d w with tasks := [] } := by
    rw [hlist]
    rfl
  obtain ⟨ihT, ihP⟩ := loadFold_main gen q.tasks 0
    { TaskQueue.mk_new m d w with tasks := [] }
    hbind hne (fun p hp => rfl) hnd
  rw [hload, hQ2]
  have hP := @foldlPreserve (Nat × WorkerRecord) TaskQueue
    (fun (acc : TaskQueue) (p : Nat × WorkerRecord) =>
      let w2 := Worker.from_dict p.2
        (gen ((q._persist_state).tasks.length + p.1))
      let acc1 := { acc with workers := insertKey acc.workers w2.id w2 }
      let byCap := w2.capabilities.foldl
        (fun bc capability =>
          let ws := (lookupKey bc capability).getD []
          insertKey bc capability (addUnique ws w2.id))
        acc1.worker_by_capability
      { acc1 with worker_by_capability := byCap })
    (fun s =>
      s.tasks = ((List.enumFrom 0
          (q.tasks.map fun p => p.2.to_dict)).foldl
        (fun acc2 p => loadTaskStep acc2 p.2 (gen p.1))
        { TaskQueue.mk_new m d w with tasks := [] }).tasks ∧
      s.pending_tasks = ((List.enumFrom 0
          (q.tasks.map fun p => p.2.to_dict)).foldl
        (fun acc2 p => loadTaskStep acc2 p.2 (gen p.1))
        { TaskQueue.mk_new m d w with tasks := [] }).pending_tasks)
    (((q._persist_state).workers.map Prod.snd).enum)
    { ((List.enumFrom 0 (q.tasks.map fun p => p.2.to_dict)).foldl
        (fun acc2 p => loadTaskStep acc2 p.2 (gen p.1))
        { TaskQueue.mk_new m d w with tasks := [] }) with
      workers := [], worker_by_capability := [] }
    ⟨rfl, rfl⟩
    (fun b2 a _ hb2 => ⟨hb2.1, hb2.2⟩)
  constructor
  · rw [hP.1, ihT]
    rfl
  · intro a
    have hpend : (((q._persist_state).workers.map Prod.snd).enum.foldl
        (fun (acc : TaskQueue) (p : Nat × WorkerRecord) =>
          let w2 := Worker.from_dict p.2
            (gen ((q._persist_state).tasks.length + p.1))
          let acc1 := { acc with workers := insertKey acc.workers w2.id w2 }
          let byCap := w2.capabilities.foldl
            (fun bc capability =>
              let ws := (lookupKey bc capability).getD []
              insertKey bc capability (addUnique ws w2.id))
            acc1.worker_by_capability
          { acc1 with worker_by_capability := byCap })
        { ((List.enumFrom 0 (q.tasks.map fun p => p.2.to_dict)).foldl
            (fun acc2 p => loadTaskStep acc2 p.2 (gen p.1))
            { TaskQueue.mk_new m d w with tasks := [] }) with
          workers := [], worker_by_capability := [] }).pendingIds =
        ((List.enumFrom 0 (q.tasks.map fun p => p.2.to_dict)).foldl
          (fun acc2 p => loadTaskStep acc2 p.2 (gen p.1))
          { TaskQueue.mk_new m d w with tasks := [] }).pendingIds := by
      unfold TaskQueue.pendingIds
      rw [hP.2]
    rw [hpend, ihP a]
    constructor
    · rintro (h | ⟨t, ht, hts⟩)
      · exact absurd h (List.not_mem_nil a)
      · exact ⟨t, lookup_of_mem_nodup hnd ht, hts⟩
    · rintro ⟨t, hlk, hts⟩
      exact Or.inr ⟨t, mem_of_lookup hlk, hts⟩

/-- C5 counterexample: the persisted-and-reloaded `exR2` keeps the same
task table but not the same ready-queue membership — the dependent task `a`
was withheld before the write and is queued after the load. -/
theorem C5_counterexample :
    exR3.tasks = exR2.tasks ∧ exR3.pendingIds ≠ exR2.pendingIds ∧
    "a" ∉ exR2.pendingIds ∧ "a" ∈ exR3.pendingIds := by decide

theorem C5_witness :
    ((TaskQueue.mk_new 3 3600 90).load_state exR2._persist_state
      (fun _ => "u")).tasks = exR2.tasks ∧
    (∀ a, a ∈ ((TaskQueue.mk_new 3 3600 90).load_state exR2._persist_state
        (fun _ => "u")).pendingIds ↔
      ∃ t, lookupKey exR2.tasks a = some t ∧
        t.status = TaskStatus.pending) :=
  C5_amended exR2 3 3600 90 (fun _ => "u") (by decide) (by decide)
    (by decide)

theorem entryLe_refl (a : HeapEntry) : entryLe a a = true := by
  simp [entryLe]

theorem entryLe_le {a b : HeapEntry} (h : entryLe a b = true) :
    a.1 ≤ b.1 ∧ (a.1 = b.1 → a.2.1 ≤ b.2.1) := by
  unfold entryLe at h
  simp only [Bool.or_eq_true, Bool.and_eq_true, decide_eq_true_eq] at h
  rcases h with h | ⟨h1, h2⟩
  · exact ⟨le_of_lt h, fun hh => absurd hh (ne_of_lt h)⟩
  · refine ⟨le_of_eq h1, fun _ => ?_⟩
    rcases h2 with h2 | ⟨h3, _⟩
    · exact le_of_lt h2
    · exact le_of_eq h3

theorem entryLe_total (a b : HeapEntry) :
    entryLe a b = true ∨ entryLe b a = true := by
  unfold entryLe
  simp only [Bool.or_eq_true, Bool.and_eq_true, decide_eq_true_eq]
  rcases lt_trichotomy a.1 b.1 with h | h | h
  · exact Or.inl (Or.inl h)
  · rcases lt_trichotomy a.2.1 b.2.1 with h2 | h2 | h2
    · exact Or.inl (Or.inr ⟨h, Or.inl h2⟩)
    · rcases le_total a.2.2 b.2.2 with h3 | h3
      · exact Or.inl (Or.inr ⟨h, Or.inr ⟨h2, h3⟩⟩)
      · exact Or.inr (Or.inr ⟨h.symm, Or.inr ⟨h2.symm, h3⟩⟩)
    · exact Or.inr (Or.inr ⟨h.symm, Or.inl h2⟩)
  · exact Or.inr (Or.inl h)

theorem entryLe_trans {a b c : HeapEntry} (h1 : entryLe a b = true)
    (h2 : entryLe b c = true) : entryLe a c = true := by
  unfold entryLe at h1 h2 ⊢
  simp only [Bool.or_eq_true, Bool.and_eq_true, decide_eq_true_eq] at h1 h2 ⊢
  rcases h1 with h1 | ⟨e1, h1⟩
  · rcases h2 with h2 | ⟨e2, _⟩
    · exact Or.inl (lt_trans h1 h2)
    · exact Or.inl (e2 ▸ h1)
  · rcases h2 with h2 | ⟨e2, h2⟩
    · exact Or.inl (e1 ▸ h2)
    · refine Or.inr ⟨e1.trans e2, ?_⟩
      rcases h1 with h1 | ⟨f1, h1⟩
      · rcases h2 with h2 | ⟨f2, _⟩
        · exact Or.inl (lt_trans h1 h2)
        · exact Or.inl (f2 ▸ h1)
      · rcases h2 with h2 | ⟨f2, h2⟩
        · exact Or.inl (f1 ▸ h2)
        · exact Or.inr ⟨f1.trans f2, le_trans h1 h2⟩

theorem mem_heapInsert {e y : HeapEntry} :
    ∀ {l : List HeapEntry}, y ∈ heapInsert e l ↔ y = e ∨ y ∈ l
  | [] => by simp [heapInsert]
  | x :: xs => by
    unfold heapInsert
    by_cases hc : entryLe e x = true
    · rw [if_pos hc]
      constructor
      · intro h
        rcases List.mem_cons.mp h with h | h
        · exact Or.inl h
        · exact Or.inr h
      · rintro (rfl | h)
        · exact List.mem_cons_self _ _
        · exact List.mem_cons_of_mem _ h
    · rw [if_neg hc]
      constructor
      · intro h
        rcases List.mem_cons.mp h with h | h
        · exact Or.inr (h ▸ List.mem_cons_self _ _)
        · rcases (mem_heapInsert (l := xs)).mp h with h | h
          · exact Or.inl h
          · exact Or.inr (List.mem_cons_of_mem _ h)
      · rintro (rfl | h)
        · exact List.mem_cons_of_mem _ ((mem_heapInsert (l := xs)).mpr
            (Or.inl rfl))
        · rcases List.mem_cons.mp h with h | h
          · exact h ▸ List.mem_cons_self _ _
          · exact List.mem_cons_of_mem _ ((mem_heapInsert (l := xs)).mpr
              (Or.inr h))

theorem heapInsert_sorted {e : HeapEntry} :
    ∀ {l : List HeapEntry}, heapSorted l → heapSorted (heapInsert e l) := by
  intro l
  induction l with
  | nil =>
    intro _
    simp [heapInsert, heapSorted]
  | cons x xs ih =>
    intro hs
    rw [heapSorted, List.pairwise_cons] at hs
    unfold heapInsert
    by_cases hc : entryLe e x = true
    · rw [if_pos hc]
      refine List.pairwise_cons.mpr ⟨?_, List.pairwise_cons.mpr hs⟩
      intro y hy
      rcases List.mem_cons.mp hy with rfl | hy2
      · exact hc
      · exact entryLe_trans hc (hs.1 y hy2)
    · rw [if_neg hc]
      have hxe : entryLe x e = true := (entryLe_total e x).resolve_left hc
      refine List.pairwise_cons.mpr ⟨?_, ih hs.2⟩
      intro y hy
      rcases mem_heapInsert.mp hy with rfl | hy2
      · exact hxe
      · exact hs.1 y hy2

theorem add_task_sorted {pq : TaskPriorityQueue} {t : QTask} {now : Nat}
    (hs : heapSorted pq._queue) :
    heapSorted ((pq.add_task t now)._queue) := by
  unfold TaskPriorityQueue.add_task
  split
  · exact hs
  · exact heapInsert_sorted hs

theorem cleanQueue_split (ids : List String) :
    ∀ l : List HeapEntry, ∃ pre, l = pre ++ cleanQueue ids l ∧
      ∀ x ∈ pre, x.2.2 ∉ ids
  | [] => ⟨[], rfl, by simp⟩
  | e :: rest => by
    by_cases hm : e.2.2 ∈ ids
    · refine ⟨[], ?_, by simp⟩
      rw [cleanQueue, if_pos hm]
      rfl
    · obtain ⟨pre, hp, hnl⟩ := cleanQueue_split ids rest
      refine ⟨e :: pre, ?_, ?_⟩
      · rw [cleanQueue, if_neg hm, List.cons_append, ← hp]
      · intro x hx
        rcases List.mem_cons.mp hx with rfl | hx2
        · exact hm
        · exact hnl x hx2

theorem cleanQueue_head_live (ids : List String) :
    ∀ (l : List HeapEntry) (e : HeapEntry) (rest : List HeapEntry),
      cleanQueue ids l = e :: rest → e.2.2 ∈ ids
  | [], e, rest, h => by simp [cleanQueue] at h
  | x :: xs, e, rest, h => by
    rw [cleanQueue] at h
    by_cases hm : x.2.2 ∈ ids
    · rw [if_pos hm] at h
      obtain ⟨he, _⟩ := List.cons.inj h
      rw [← he]
      exact hm
    · rw [if_neg hm] at h
      exact cleanQueue_head_live ids xs e rest h

theorem pop_min {pq : TaskPriorityQueue} {tid : String}
    (hsort : heapSorted pq._queue)
    (h : (pq.get_next_task_id).1 = some tid) :
    ∃ e, e ∈ pq._queue ∧ e.2.2 = tid ∧ e.2.2 ∈ pq._task_ids ∧
      ∀ e2 ∈ pq._queue, e2.2.2 ∈ pq._task_ids →
        e.1 ≤ e2.1 ∧ (e.1 = e2.1 → e.2.1 ≤ e2.2.1) := by
  unfold TaskPriorityQueue.get_next_task_id at h
  dsimp only at h
  cases hclean : cleanQueue pq._task_ids pq._queue with
  | nil =>
    rw [hclean] at h
    simp at h
  | cons e rest =>
    rw [hclean] at h
    simp only [Option.some.injEq] at h
    obtain ⟨pre, hp, hnl⟩ := cleanQueue_split pq._task_ids pq._queue
    rw [hclean] at hp
    have hlive : e.2.2 ∈ pq._task_ids :=
      cleanQueue_head_live pq._task_ids pq._queue e rest hclean
    have hmem : e ∈ pq._queue := by
      rw [hp]
      exact List.mem_append.mpr (Or.inr (List.mem_cons_self _ _))
    refine ⟨e, hmem, h, hlive, ?_⟩
    intro e2 he2 hlive2
    rw [hp] at he2
    rcases List.mem_append.mp he2 with h1 | h2
    · exact absurd hlive2 (hnl e2 h1)
    · rcases List.mem_cons.mp h2 with rfl | h3
      · exact entryLe_le (entryLe_refl e2)
      · have hs2 := hsort
        rw [heapSorted, hp] at hs2
        exact entryLe_le
          ((List.pairwise_cons.mp (List.pairwise_append.mp hs2).2.1).1 e2 h3)
theorem mem_insertDesc {x y : Int} :
    ∀ {l : List Int}, x ∈ insertDesc y l ↔ x = y ∨ x ∈ l
  | [] => by simp [insertDesc]
  | z :: zs => by
    unfold insertDesc
    by_cases hc : y ≥ z
    · rw [if_pos hc]
      simp
    · rw [if_neg hc]
      rw [List.mem_cons, List.mem_cons, mem_insertDesc (l := zs)]
      tauto

theorem insertDesc_sorted {y : Int} :
    ∀ {l : List Int}, l.Pairwise (fun a b => b ≤ a) →
      (insertDesc y l).Pairwise (fun a b => b ≤ a) := by
  intro l
  induction l with
  | nil =>
    intro _
    simp [insertDesc]
  | cons z zs ih =>
    intro hs
    rw [List.pairwise_cons] at hs
    unfold insertDesc
    by_cases hc : y ≥ z
    · rw [if_pos hc]
      refine List.pairwise_cons.mpr ⟨?_, List.pairwise_cons.mpr hs⟩
      intro b hb
      rcases List.mem_cons.mp hb with rfl | hb2
      · exact hc
      · exact le_trans (hs.1 b hb2) hc
    · rw [if_neg hc]
      refine List.pairwise_cons.mpr ⟨?_, ih hs.2⟩
      intro b hb
      rcases mem_insertDesc.mp hb with rfl | hb2
      · omega
      · exact hs.1 b hb2

theorem mem_sortDesc {x : Int} :
    ∀ {l : List Int}, x ∈ sortDesc l ↔ x ∈ l
  | [] => by simp [sortDesc]
  | z :: zs => by
    rw [sortDesc, mem_insertDesc, List.mem_cons, mem_sortDesc (l := zs)]

theorem sortDesc_sorted :
    ∀ l : List Int, (sortDesc l).Pairwise (fun a b => b ≤ a)
  | [] => by simp [sortDesc]
  | z :: zs => by
    rw [sortDesc]
    exact insertDesc_sorted (sortDesc_sorted zs)

theorem findFirstCompat_compat {q : TaskQueue} {caps : List String} :
    ∀ {bucket : List String} {tid : String},
      findFirstCompat q caps bucket = some tid →
      ∃ t, lookupKey q.tasks tid = some t ∧
        (caps = [] ∨ t.task_type ∈ caps) := by
  intro bucket
  induction bucket with
  | nil =>
    intro tid h
    simp [findFirstCompat] at h
  | cons hd tl ih =>
    intro tid h
    unfold findFirstCompat at h
    split at h
    next task ht =>
      split at h
      next hcomp =>
        have : hd = tid := Option.some.inj h
        subst this
        exact ⟨task, ht, hcomp⟩
      next => exact ih h
    next => exact ih h

theorem findFirstCompat_complete {q : TaskQueue} {caps : List String} :
    ∀ {bucket : List String} {a : String} {t2 : Task},
      a ∈ bucket → lookupKey q.tasks a = some t2 →
      (caps = [] ∨ t2.task_type ∈ caps) →
      findFirstCompat q caps bucket = none → False := by
  intro bucket
  induction bucket with
  | nil =>
    intro a t2 ha _ _ _
    exact List.not_mem_nil a ha
  | cons hd tl ih =>
    intro a t2 ha hlk hcomp hnone
    unfold findFirstCompat at hnone
    split at hnone
    next task ht =>
      split at hnone
      next => exact Option.noConfusion hnone
      next hnc =>
        rcases List.mem_cons.mp ha with rfl | ha2
        · rw [hlk] at ht
          have := Option.some.inj ht
          subst this
          exact hnc hcomp
        · exact ih ha2 hlk hcomp hnone
    next ht =>
      rcases List.mem_cons.mp ha with rfl | ha2
      · rw [hlk] at ht
        exact Option.noConfusion ht
      · exact ih ha2 hlk hcomp hnone

theorem findByPriority_success_split {q : TaskQueue} {caps : List String} :
    ∀ {ps : List Int} {tid : String},
      findByPriority q caps ps = some tid →
      ∃ l1 p0 l2 bucket, ps = l1 ++ p0 :: l2 ∧
        lookupKey q.pending_tasks p0 = some bucket ∧
        findFirstCompat q caps bucket = some tid ∧
        (∀ p ∈ l1, ∀ b, lookupKey q.pending_tasks p = some b →
          findFirstCompat q caps b = none) := by
  intro ps
  induction ps with
  | nil =>
    intro tid h
    simp [findByPriority] at h
  | cons p ps2 ih =>
    intro tid h
    unfold findByPriority at h
    split at h
    next bucket hlk =>
      split at h
      next tid2 hf =>
        have : tid2 = tid := Option.some.inj h
        subst this
        exact ⟨[], p, ps2, bucket, rfl, hlk, hf,
          fun p2 hp2 => absurd hp2 (List.not_mem_nil p2)⟩
      next hf =>
        obtain ⟨l1, p0, l2, bucket2, hps, hlb, hfc, hfail⟩ := ih h
        refine ⟨p :: l1, p0, l2, bucket2, by rw [hps]; rfl, hlb, hfc, ?_⟩
        intro p2 hp2 b hb
        rcases List.mem_cons.mp hp2 with rfl | hp3
        · rw [hlk] at hb
          have : bucket = b := Option.some.inj hb
          rw [← this]
          exact hf
        · exact hfail p2 hp3 b hb
    next hlk =>
      obtain ⟨l1, p0, l2, bucket2, hps, hlb, hfc, hfail⟩ := ih h
      refine ⟨p :: l1, p0, l2, bucket2, by rw [hps]; rfl, hlb, hfc, ?_⟩
      intro p2 hp2 b hb
      rcases List.mem_cons.mp hp2 with rfl | hp3
      · rw [hlk] at hb
        exact Option.noConfusion hb
      · exact hfail p2 hp3 b hb

theorem find_task_priority_max {q : TaskQueue} {w : Worker} {tid : String}
    (hwf : WFqueue q)
    (h : q._find_task_for_worker w = some tid) :
    ∃ t, lookupKey q.tasks tid = some t ∧
      (w.capabilities = [] ∨ t.task_type ∈ w.capabilities) ∧
      ∀ a ∈ q.pendingIds, ∀ t2, lookupKey q.tasks a = some t2 →
        (w.capabilities = [] ∨ t2.task_type ∈ w.capabilities) →
        t2.priority ≤ t.priority := by
  obtain ⟨hbind, htnd, hpk, hbnd, hok⟩ := hwf
  unfold TaskQueue._find_task_for_worker at h
  split at h
  · exact absurd h (by simp)
  · obtain ⟨l1, p0, l2, bucket, hps, hlb, hfc, hfail⟩ :=
      findByPriority_success_split h
    obtain ⟨t, hlkt, hcompat⟩ := findFirstCompat_compat hfc
    have htid_mem : tid ∈ bucket := findFirstCompat_mem hfc
    obtain ⟨t3, hlk3, hpri3, _, _⟩ := bucketEntryOK_iff.mp
      (hok (p0, bucket) (mem_of_lookup hlb) tid htid_mem)
    have ht3 : t3 = t := Option.some.inj (hlk3.symm.trans hlkt)
    have hp0 : t.priority = p0 := by
      rw [← ht3]
      exact hpri3
    refine ⟨t, hlkt, hcompat, ?_⟩
    intro a ha t2 hlk2 hcomp2
    obtain ⟨e, he, hae⟩ := mem_flatten_map_snd.mp ha
    obtain ⟨t4, hlk4, hpri4, _, _⟩ := bucketEntryOK_iff.mp (hok e he a hae)
    have ht4 : t4 = t2 := Option.some.inj (hlk4.symm.trans hlk2)
    have hp2 : t2.priority = e.1 := by
      rw [← ht4]
      exact hpri4
    have hmem : e.1 ∈ sortDesc (q.pending_tasks.map Prod.fst) :=
      mem_sortDesc.mpr (List.mem_map_of_mem Prod.fst he)
    by_contra hgt
    push_neg at hgt
    rw [hps] at hmem
    rcases List.mem_append.mp hmem with h1 | h2
    · have hbucket : lookupKey q.pending_tasks e.1 = some e.2 :=
        lookup_of_mem_nodup hpk he
      exact findFirstCompat_complete hae hlk2 hcomp2
        (hfail e.1 h1 e.2 hbucket)
    · rcases List.mem_cons.mp h2 with heq | h3
      · rw [heq] at hp2
        rw [hp2, ← hp0] at hgt
        exact absurd rfl (ne_of_lt hgt)
      · have hsorted := sortDesc_sorted (q.pending_tasks.map Prod.fst)
        rw [hps] at hsorted
        have hle : e.1 ≤ p0 :=
          (List.pairwise_cons.mp
            (List.pairwise_append.mp hsorted).2.1).1 e.1 h3
        rw [hp2] at hgt
        rw [hp0] at hgt
        omega

/-- C6 counterexample: in `exF5` both `fa` and `fb` are pending at priority
5, `fa` was created first (time 1 vs 2), yet `_find_task_for_worker` returns
`fb` — the coordinator has no FIFO tie-break among equal priorities. -/
theorem C6_counterexample :
    exF5._find_task_for_worker exWv = some "fb" ∧
    "fa" ∈ exF5.pendingIds ∧
    (lookupKey exF5.tasks "fa").map Task.priority = some 5 ∧
    (lookupKey exF5.tasks "fb").map Task.priority = some 5 ∧
    (lookupKey exF5.tasks "fa").map Task.created_at = some (some 1) ∧
    (lookupKey exF5.tasks "fb").map Task.created_at = some (some 2) := by
  decide

/-- C6 (amended): the heap-based queue does order correctly — `add_task`
keeps the heap sorted by `(-priority, scheduled time, id)` and a successful
`get_next_task_id` returns a live entry minimal in that order among all
live entries (highest priority first, FIFO by scheduled time within a
priority) — and the coordinator's `_find_task_for_worker` returns a
compatible task of maximal priority among the queued compatible tasks of a
well-formed queue; but the coordinator walks each priority bucket in list
order with no creation-time tie-break, so the claimed FIFO does not hold
there (see the counterexample). -/
theorem C6_amended :
    (∀ (pq : TaskPriorityQueue) (t : QTask) (now : Nat),
      heapSorted pq._queue → heapSorted ((pq.add_task t now)._queue)) ∧
    (∀ (pq : TaskPriorityQueue) (tid : String), heapSorted pq._queue →
      (pq.get_next_task_id).1 = some tid →
      ∃ e, e ∈ pq._queue ∧ e.2.2 = tid ∧ e.2.2 ∈ pq._task_ids ∧
        ∀ e2 ∈ pq._queue, e2.2.2 ∈ pq._task_ids →
          e.1 ≤ e2.1 ∧ (e.1 = e2.1 → e.2.1 ≤ e2.2.1)) ∧
    (∀ (q : TaskQueue) (w : Worker) (tid : String), WFqueue q →
      q._find_task_for_worker w = some tid →
      ∃ t, lookupKey q.tasks tid = some t ∧
        (w.capabilities = [] ∨ t.task_type ∈ w.capabilities) ∧
        ∀ a ∈ q.pendingIds, ∀ t2, lookupKey q.tasks a = some t2 →
          (w.capabilities = [] ∨ t2.task_type ∈ w.capabilities) →
          t2.priority ≤ t.priority) :=
  ⟨fun _ _ _ hs => add_task_sorted hs,
   fun _ _ hs h => pop_min hs h,
   fun _ _ _ hwf h => find_task_priority_max hwf h⟩

theorem C6_witness :
    heapSorted ((exH.add_task
      { id := "h3", priority := 4, scheduled_at := some 7 } 2)._queue) ∧
    (∃ e, e ∈ exH._queue ∧ e.2.2 = "h1" ∧ e.2.2 ∈ exH._task_ids ∧
      ∀ e2 ∈ exH._queue, e2.2.2 ∈ exH._task_ids →
        e.1 ≤ e2.1 ∧ (e.1 = e2.1 → e.2.1 ≤ e2.2.1)) ∧
    (∃ t, lookupKey exF5.tasks "fb" = some t ∧
      (exWv.capabilities = [] ∨ t.task_type ∈ exWv.capabilities) ∧
      ∀ a ∈ exF5.pendingIds, ∀ t2, lookupKey exF5.tasks a = some t2 →
        (exWv.capabilities = [] ∨ t2.task_type ∈ exWv.capabilities) →
        t2.priority ≤ t.priority) :=
  ⟨C6_amended.1 exH { id := "h3", priority := 4, scheduled_at := some 7 } 2
      (by decide),
   C6_amended.2.1 exH "h1" (by decide) (by decide),
   C6_amended.2.2 exF5 exWv "fb" (by decide) (by decide)⟩

end Omni
